import Mathlib

/-!
Consensus membership, peer authentication, wire framing and the graph store.

A shallow embedding of the kernel node (`kernel/node.go`, `kernel/self.go`),
of the peer message framing (`network/handle.go`) and of the mint and
topology indexes of the store (`storage/badger_mint.go`,
`storage/badger_topology.go`), with the properties of the specification
stated and proved over it.

Conventions of the embedding:

* a byte is a `Fin 256`; `crypto.Hash` and `crypto.Key` are lists of exactly
  32 bytes, `crypto.Signature` a list of exactly 64 bytes;
* `uint64` values are natural numbers, every `uint64` operation of the source
  is followed by an explicit reduction modulo `2 ^ 64`; `int64` values are
  integers, wrapped by `toInt64`;
* a Go `map` is an association list with unique keys (`mapSet` overwrites);
* the clock (`time.Now()`) is an explicit argument;
* a slice is a list, its capacity is its length; a `panic` is the result
  `none`;
* the packages `crypto` and `config` are not part of the sources at hand:
  their functions and constants are parameters (`Crypto`, `Config`).
-/

namespace crypto

/-- One byte. -/
abbrev Byte := Fin 256

/-- The Go type `[32]byte`. -/
abbrev Bytes32 := { l : List Byte // l.length = 32 }

/-- The type `crypto.Hash`, a `[32]byte`. -/
abbrev Hash := Bytes32

/-- The type `crypto.Key`, a `[32]byte`. -/
abbrev Key := Bytes32

/-- The type `crypto.Signature`, a `[64]byte`. -/
abbrev Signature := { l : List Byte // l.length = 64 }

/-- The zero value `crypto.Hash{}`. -/
def zeroHash : Hash := ⟨List.replicate 32 0, by simp⟩

/-- The zero value of `[64]byte`. -/
def zeroSignature : Signature := ⟨List.replicate 64 0, by simp⟩

end crypto

namespace common

open crypto

/-- The type `common.Address`: the four keys of a signer or payee. -/
structure Address where
  PrivateSpendKey : Key
  PrivateViewKey : Key
  PublicSpendKey : Key
  PublicViewKey : Key
deriving DecidableEq

/-- The states of a consensus node record (`common.NodeState...`). -/
inductive NodeState where
  | Pledging
  | Accepted
  | Departing
  | Resigning
  | Cancelled
  | Removed
deriving DecidableEq, Repr

/-- The type `common.Node`: a consensus node record of the store. -/
structure Node where
  Signer : Address
  Payee : Address
  State : NodeState
  Timestamp : Nat
deriving DecidableEq

end common

/-- The functions of package `crypto` used by the kernel, as parameters:
`Address.Hash`, `Hash.ForNetwork`, `Key.Sign` and `Key.Verify`. -/
structure Crypto where
  addressHash : common.Address → crypto.Hash
  forNetwork : crypto.Hash → crypto.Hash → crypto.Hash
  sign : crypto.Key → List crypto.Byte → crypto.Signature
  verify : crypto.Key → List crypto.Byte → crypto.Signature → Bool

/-- The constants of package `config` used by the kernel, as parameters.
`SnapshotRoundGap` and `SnapshotReferenceThreshold` are `uint64`,
`KernelNodeAcceptPeriodMinimum` is a `time.Duration` (an `int64` of
nanoseconds). -/
structure Config where
  SnapshotRoundGap : Nat
  SnapshotReferenceThreshold : Nat
  KernelNodeAcceptPeriodMinimum : Int

/-- Reduction of a natural number to `uint64`. -/
def u64 (n : Nat) : Nat := n % 2 ^ 64

/-- Conversion of an integer to `uint64` (two's complement). -/
def toUint64 (x : Int) : Nat := (x % 2 ^ 64).toNat

/-- Conversion of an integer to `int64` (two's complement). -/
def toInt64 (x : Int) : Int := (x + 2 ^ 63) % 2 ^ 64 - 2 ^ 63

/-- The constant `time.Minute`, in nanoseconds. -/
def timeMinute : Nat := 60 * 1000000000

/-- The constant `time.Hour`, in nanoseconds. -/
def timeHour : Nat := 3600 * 1000000000

/-- The Go builtin `copy(dst[:], src)` into a zeroed `[32]byte`: the first
`min 32 (len src)` bytes of `src`, the rest zero. -/
def copy32 (src : List crypto.Byte) : crypto.Bytes32 :=
  ⟨src.take 32 ++ List.replicate (32 - src.length) 0, by
    simp only [List.length_append, List.length_take, List.length_replicate]; omega⟩

/-- The Go builtin `copy(dst[:], src)` into a zeroed `[64]byte`. -/
def copy64 (src : List crypto.Byte) : crypto.Signature :=
  ⟨src.take 64 ++ List.replicate (64 - src.length) 0, by
    simp only [List.length_append, List.length_take, List.length_replicate]; omega⟩

/-- The slice expression `data[lo:]`; `none` is the run-time panic of a bound
out of range. -/
def sliceFrom (data : List crypto.Byte) (lo : Nat) : Option (List crypto.Byte) :=
  if lo ≤ data.length then some (data.drop lo) else none

/-- The slice expression `data[lo:hi]`; `none` is the run-time panic of a
bound out of range. -/
def sliceRange (data : List crypto.Byte) (lo hi : Nat) : Option (List crypto.Byte) :=
  if lo ≤ hi ∧ hi ≤ data.length then some ((data.take hi).drop lo) else none

/-- The index expression `data[i]`; `none` is the run-time panic of an index
out of range. -/
def indexAt (data : List crypto.Byte) (i : Nat) : Option crypto.Byte :=
  if h : i < data.length then some (data.get ⟨i, h⟩) else none

/-- The function `binary.BigEndian.Uint64` on the bytes of an 8-byte slice. -/
def bigEndianUint64 (b : List crypto.Byte) : Nat :=
  b.foldl (fun acc x => acc * 256 + x.val) 0

/-- One byte of a `uint64`: `byte(v >> shift)`. -/
def byteOf (v : Nat) (shift : Nat) : crypto.Byte := Fin.ofNat (v / 2 ^ shift)

/-- The function `binary.BigEndian.PutUint64` into a fresh 8-byte slice. -/
def putUint64 (v : Nat) : List crypto.Byte :=
  [byteOf v 56, byteOf v 48, byteOf v 40, byteOf v 32, byteOf v 24, byteOf v 16, byteOf v 8,
    byteOf v 0]

/-- The function `bytes.Compare`: lexicographic comparison, `-1`, `0` or `1`. -/
def bytesCompare : List crypto.Byte → List crypto.Byte → Int
  | [], [] => 0
  | [], _ :: _ => -1
  | _ :: _, [] => 1
  | a :: as, b :: bs =>
    if a < b then -1 else if b < a then 1 else bytesCompare as bs

/-- The function `sort.Slice` of the Go library, which orders a slice by a
`less` function and promises no stability. It is embedded as insertion sort:
a list `a` goes before `b` unless `less b a`. -/
def sortSlice {α : Type} (less : α → α → Bool) (l : List α) : List α :=
  List.insertionSort (fun a b => less b a = false) l

/-- Lookup in a Go map held as an association list. -/
def mapGet {K V : Type} [DecidableEq K] : List (K × V) → K → Option V
  | [], _ => none
  | (k, v) :: m, x => if k = x then some v else mapGet m x

/-- Assignment `m[k] = v` in a Go map held as an association list. -/
def mapSet {K V : Type} [DecidableEq K] (m : List (K × V)) (k : K) (v : V) : List (K × V) :=
  (k, v) :: m.filter (fun p => decide (p.1 ≠ k))

/-- Modelled from the spec: `common.Node.IdForNetwork` is declared outside
the sources at hand; it is the network-hashed id of the record,
`hash(signer).for_network(network_id)`. -/
def common.Node.IdForNetwork (cr : Crypto) (cn : common.Node) (networkId : crypto.Hash) :
    crypto.Hash :=
  cr.forNetwork (cr.addressHash cn.Signer) networkId

/-- The keys a `range` loop over a Go map visits: every key once. The order
of the visit is not specified by Go; it is the order of this list. -/
def mapKeys {K V : Type} [DecidableEq K] (m : List (K × V)) : List K :=
  (m.map Prod.fst).dedup

namespace network

/-- The type `network.SyncPoint`: the tip of a node's chain as a peer sees
it. -/
structure SyncPoint where
  NodeId : crypto.Hash
  Number : Nat
  Hash : crypto.Hash
deriving DecidableEq

/-- The type `crypto.CosiSignature`: the aggregated signature and the mask of
the signers, a `uint64`. -/
structure CosiSignature where
  Signature : crypto.Signature
  Mask : Nat
deriving DecidableEq

end network

namespace common

open crypto

/-- Modelled from the spec: the type `common.Snapshot` is declared outside the
sources at hand; a snapshot is `{node_id, round_number, references,
transaction, timestamp, signature?}`, with the field `Hash` the store fills
in. -/
structure Snapshot where
  NodeId : Hash
  Transaction : Hash
  References : Option (Hash × Hash)
  RoundNumber : Nat
  Timestamp : Nat
  Signature : Option network.CosiSignature
  Hash : Hash
deriving DecidableEq

end common

namespace kernel

open crypto

/-- Modelled from the spec: the type `kernel.FinalRound` is declared outside
the sources at hand; a final round is `{node_id, number, start, end, hash}`,
the numbers `uint64`. -/
structure FinalRound where
  NodeId : Hash
  Number : Nat
  Start : Nat
  End : Nat
  Hash : Hash
deriving DecidableEq

/-- Modelled from the spec: the type `kernel.CacheRound` is declared outside
the sources at hand; a cache round is `{node_id, number, timestamp, snapshots,
references}`. -/
structure CacheRound where
  NodeId : Hash
  Number : Nat
  Timestamp : Nat
  Snapshots : List common.Snapshot
  References : Option (Hash × Hash)
deriving DecidableEq

/-- Modelled from the spec: the fields of `kernel.RoundGraph` (declared
outside the sources at hand) that `node.go` and `self.go` read:
`my_cache_round` (a pointer, `none` is `nil`), `my_final_number` and
`round_history`, a map from node id to the list of its final rounds. -/
structure RoundGraph where
  MyFinalNumber : Nat
  RoundHistory : List (Hash × List FinalRound)
  MyCacheRound : Option CacheRound := none

/-- The fields of `kernel.Node` that membership, threshold and
authentication read or write. -/
structure Node where
  IdForNetwork : Hash
  Signer : common.Address
  Listener : List Byte
  ActiveNodes : List common.Node
  ConsensusNodes : List (Hash × common.Node)
  SortedConsensusNodes : List Hash
  ConsensusIndex : Int
  ConsensusPledging : Option common.Node
  genesisNodesMap : List (Hash × Bool)
  genesisNodes : List Hash
  epoch : Nat
  networkId : Hash
  Graph : RoundGraph := { MyFinalNumber := 0, RoundHistory := [] }
  SyncPoints : List (Hash × network.SyncPoint) := []

/-- The read `node.genesisNodesMap[id]` of a `map[crypto.Hash]bool`: a missing
key reads as `false`. -/
def Node.isGenesis (node : Node) (id : Hash) : Bool :=
  (mapGet node.genesisNodesMap id).getD false

/-- The body of the loop of `ConsensusThreshold` for one active node `cn`,
`base` being the value of `consensusBase` before it. -/
def consensusBaseStep (cfg : Config) (cr : Crypto) (node : Node) (timestamp : Nat)
    (base : Nat) (cn : common.Node) : Option Nat :=
  let threshold := u64 (cfg.SnapshotReferenceThreshold * cfg.SnapshotRoundGap)
  if threshold > 3 * timeMinute then none
  else
    match cn.State with
    | .Pledging =>
      if cfg.KernelNodeAcceptPeriodMinimum < (timeHour : Int) then none
      else
        let threshold := toUint64 (cfg.KernelNodeAcceptPeriodMinimum - (u64 (threshold * 3) : Nat))
        if u64 (cn.Timestamp + threshold) < timestamp then some (base + 1) else some base
    | .Accepted =>
      if node.isGenesis (cn.IdForNetwork cr node.networkId)
          || decide (u64 (cn.Timestamp + threshold) < timestamp) then
        some (base + 1)
      else some base
    | .Departing => some (base + 1)
    | _ => some base

/-- The loop of `ConsensusThreshold` over a list of active nodes. -/
def consensusBaseLoop (cfg : Config) (cr : Crypto) (node : Node) (timestamp : Nat) :
    Nat → List common.Node → Option Nat
  | base, [] => some base
  | base, cn :: rest =>
    match consensusBaseStep cfg cr node timestamp base cn with
    | none => none
    | some base1 => consensusBaseLoop cfg cr node timestamp base1 rest

/-- The value of the local `consensusBase` of `ConsensusThreshold` after the
loop over `node.ActiveNodes`, for the effective timestamp. -/
def consensusBase (cfg : Config) (cr : Crypto) (node : Node) (timestamp : Nat) : Option Nat :=
  consensusBaseLoop cfg cr node timestamp 0 node.ActiveNodes

/-- The timestamp `ConsensusThreshold` and `ConsensusKeys` work with: the
argument, or the clock when the argument is zero. -/
def effectiveTimestamp (nowNano : Nat) (timestamp : Nat) : Nat :=
  if timestamp = 0 then u64 nowNano else timestamp

/-- The method `Node.ConsensusThreshold`; `nowNano` is
`time.Now().UnixNano()`. The count `consensusBase` is at most the number of
active nodes, so that the `int` arithmetic of the last line is exact. -/
def ConsensusThreshold (cfg : Config) (cr : Crypto) (node : Node) (nowNano : Nat)
    (timestamp : Nat) : Option Nat :=
  match consensusBase cfg cr node (effectiveTimestamp nowNano timestamp) with
  | none => none
  | some base =>
    if base < node.genesisNodes.length then none
    else some (base * 2 / 3 + 1)

/-- The record `cn` as `LoadConsensusNodes` keeps it: a zero timestamp is
replaced by the epoch. -/
def withEpoch (epoch : Nat) (cn : common.Node) : common.Node :=
  if cn.Timestamp = 0 then { cn with Timestamp := epoch } else cn

/-- The locals of the first loop of `LoadConsensusNodes`. -/
structure LoadAcc where
  pledging : Option common.Node
  activeNodes : List common.Node
  consensusNodes : List (Hash × common.Node)

/-- The body of the first loop of `LoadConsensusNodes` for one record read
from the store. -/
def loadStep (cr : Crypto) (node : Node) (acc : LoadAcc) (cn0 : common.Node) : LoadAcc :=
  let cn := withEpoch node.epoch cn0
  let idForNetwork := cr.forNetwork (cr.addressHash cn.Signer) node.networkId
  match cn.State with
  | .Pledging => { acc with pledging := some cn, activeNodes := acc.activeNodes ++ [cn] }
  | .Accepted =>
    { acc with
      consensusNodes := mapSet acc.consensusNodes idForNetwork cn,
      activeNodes := acc.activeNodes ++ [cn] }
  | .Departing => { acc with activeNodes := acc.activeNodes ++ [cn] }
  | _ => acc

/-- The `less` function `LoadConsensusNodes` hands to `sort.Slice`. -/
def activeLess (cr : Crypto) (networkId : Hash) (a b : common.Node) : Bool :=
  if a.Timestamp < b.Timestamp then true
  else if a.Timestamp = b.Timestamp then
    let ai := cr.forNetwork (cr.addressHash a.Signer) networkId
    let bi := cr.forNetwork (cr.addressHash b.Signer) networkId
    decide (bytesCompare ai.val bi.val < 0)
  else false

/-- The second loop of `LoadConsensusNodes`: the ids of the accepted nodes of
the sorted active list, in order. -/
def sortedIds (cr : Crypto) (networkId : Hash) : List common.Node → List Hash
  | [] => []
  | n :: rest =>
    if n.State = .Accepted then
      cr.forNetwork (cr.addressHash n.Signer) networkId :: sortedIds cr networkId rest
    else sortedIds cr networkId rest

/-- The last loop of `LoadConsensusNodes`: `index` is assigned `i` at every
position `i` of the sorted ids that holds the node's own id. -/
def consensusIndexLoop (own : Hash) : List Hash → Nat → Int → Int
  | [], _, index => index
  | id :: rest, i, index =>
    consensusIndexLoop own rest (i + 1) (if id = own then (i : Int) else index)

/-- The method `Node.LoadConsensusNodes`; `records` is what
`persistStore.ReadConsensusNodes()` returns. The error it returns is always
`nil`, the result here is the node after the call. -/
def LoadConsensusNodes (cr : Crypto) (node : Node) (records : List common.Node) : Node :=
  let acc := records.foldl (loadStep cr node) ⟨none, [], []⟩
  let activeNodes := sortSlice (activeLess cr node.networkId) acc.activeNodes
  let sortedConsensusNodes := sortedIds cr node.networkId activeNodes
  { node with
    ConsensusPledging := acc.pledging,
    ActiveNodes := activeNodes,
    ConsensusNodes := acc.consensusNodes,
    SortedConsensusNodes := sortedConsensusNodes,
    ConsensusIndex := consensusIndexLoop node.IdForNetwork sortedConsensusNodes 0
      node.ConsensusIndex }

/-- The method `Node.BuildAuthenticationMessage`; `nowUnix` is
`time.Now().Unix()`. -/
def BuildAuthenticationMessage (cr : Crypto) (node : Node) (nowUnix : Int) : List Byte :=
  let data := putUint64 (toUint64 nowUnix)
  let hash := cr.forNetwork (cr.addressHash node.Signer) node.networkId
  let data := data ++ hash.val
  let sig := cr.sign node.Signer.PrivateSpendKey data
  let data := data ++ sig.val
  data ++ node.Listener

/-- The errors `Authenticate` returns. -/
inductive AuthError where
  | timeout
  | invalidConsensusPeer (peerId : Hash)
  | signatureInvalid (peerId : Hash)
deriving DecidableEq

/-- The peer record `Authenticate` checks the signature against: the entry of
`ConsensusNodes`, replaced by `ConsensusPledging` when that one has the id. -/
def authPeer (cr : Crypto) (node : Node) (peerId : Hash) : Option common.Node :=
  let peer := mapGet node.ConsensusNodes peerId
  match node.ConsensusPledging with
  | some p =>
    if cr.forNetwork (cr.addressHash p.Signer) node.networkId = peerId then some p else peer
  | none => peer

/-- The method `Node.Authenticate`; `nowUnix` is `time.Now().Unix()`. The
result is the triple the method returns (an absent error is `nil`), `none`
is a run-time panic of a slice expression. -/
def Authenticate (cr : Crypto) (node : Node) (nowUnix : Int) (msg : List Byte) :
    Option (Hash × List Byte × Option AuthError) :=
  match sliceRange msg 0 8 with
  | none => none
  | some head =>
    let ts := bigEndianUint64 head
    if toInt64 (nowUnix - toInt64 ts) > 3 then some (zeroHash, [], some .timeout)
    else
      match sliceRange msg 8 40 with
      | none => none
      | some idBytes =>
        let peerId := copy32 idBytes
        match authPeer cr node peerId with
        | none => some (zeroHash, [], some (.invalidConsensusPeer peerId))
        | some peer =>
          if peerId = node.IdForNetwork then
            some (zeroHash, [], some (.invalidConsensusPeer peerId))
          else
            match sliceRange msg 40 104, sliceRange msg 0 40, sliceFrom msg 104 with
            | some sigBytes, some signed, some listener =>
              if cr.verify peer.Signer.PublicSpendKey signed (copy64 sigBytes) then
                some (peerId, listener, none)
              else some (zeroHash, [], some (.signatureInvalid peerId))
            | _, _, _ => none

/-- The loop of `CheckBroadcastedToPeers` over the keys of `ConsensusNodes`;
`count` is the local of that name, `final` is `node.Graph.MyFinalNumber`. -/
def broadcastLoop (node : Node) (final : Nat) : List Hash → Nat → Nat
  | [], count => count
  | id :: rest, count =>
    match mapGet node.SyncPoints id with
    | none => broadcastLoop node final rest count
    | some remote =>
      if u64 (remote.Number + 1) ≥ final then broadcastLoop node final rest (count + 1)
      else broadcastLoop node final rest count

/-- The method `Node.CheckBroadcastedToPeers`; `nowNano` is
`time.Now().UnixNano()`, `none` is the panic of `ConsensusThreshold`. -/
def CheckBroadcastedToPeers (cfg : Config) (cr : Crypto) (node : Node) (nowNano : Nat) :
    Option Bool :=
  match ConsensusThreshold cfg cr node nowNano 0 with
  | none => none
  | some threshold =>
    let final := node.Graph.MyFinalNumber
    some (decide (broadcastLoop node final (mapKeys node.ConsensusNodes) 1 ≥ threshold))

/-- The locals `best`, `start` and `height` of `determinBestRound`. -/
structure BestAcc where
  best : Option FinalRound
  start : Nat
  height : Nat

/-- The body of the loop of `determinBestRound` for one entry of
`RoundHistory`; `nowNano` is `time.Now().UnixNano()`, `none` is the panic of
`rounds[0]` on an empty history. -/
def determinBestStep (cfg : Config) (node : Node) (roundTime nowNano : Nat) (acc : BestAcc)
    (id : Hash) (rounds : List FinalRound) : Option BestAcc :=
  match rounds with
  | [] => none
  | r0 :: _ =>
    if !node.isGenesis id
        && decide (r0.Number < u64 (7 + u64 (cfg.SnapshotReferenceThreshold * 2))) then
      some acc
    else
      let rts := r0.Start
      let rh := rounds.length
      if decide (id = node.IdForNetwork) || decide (rh < acc.height) then some acc
      else if rts > roundTime then some acc
      else if u64 (rts + u64 (cfg.SnapshotRoundGap * rh)) > u64 nowNano then some acc
      else if decide (rh > acc.height) || decide (rts > acc.start) then
        some { best := some r0, start := rts, height := rh }
      else some acc

/-- The loop of `determinBestRound` over the entries of `RoundHistory`. -/
def determinBestLoop (cfg : Config) (node : Node) (roundTime nowNano : Nat) :
    List (Hash × List FinalRound) → BestAcc → Option BestAcc
  | [], acc => some acc
  | (id, rounds) :: rest, acc =>
    match determinBestStep cfg node roundTime nowNano acc id rounds with
    | none => none
    | some acc1 => determinBestLoop cfg node roundTime nowNano rest acc1

/-- The method `Node.determinBestRound`; the inner `Option` is the
`*FinalRound` it returns, the outer `none` a run-time panic. -/
def determinBestRound (cfg : Config) (node : Node) (roundTime nowNano : Nat) :
    Option (Option FinalRound) :=
  match determinBestLoop cfg node roundTime nowNano node.Graph.RoundHistory
      { best := none, start := 0, height := 0 } with
  | none => none
  | some acc => some acc.best

/-- The loop of `ConsensusKeys` over a list of active nodes; `keys` is the
local of that name, `timestamp` the effective timestamp. -/
def consensusKeysLoop (cfg : Config) (cr : Crypto) (node : Node) (timestamp : Nat) :
    List common.Node → List Key → List Key
  | [], keys => keys
  | cn :: rest, keys =>
    if cn.State ≠ .Accepted then consensusKeysLoop cfg cr node timestamp rest keys
    else if node.isGenesis (cn.IdForNetwork cr node.networkId)
        || decide (u64 (cn.Timestamp + toUint64 cfg.KernelNodeAcceptPeriodMinimum)
            < timestamp) then
      consensusKeysLoop cfg cr node timestamp rest (keys ++ [cn.Signer.PublicSpendKey])
    else consensusKeysLoop cfg cr node timestamp rest keys

/-- The method `Node.ConsensusKeys`; `nowNano` is `time.Now().UnixNano()`. -/
def ConsensusKeys (cfg : Config) (cr : Crypto) (node : Node) (nowNano : Nat)
    (timestamp : Nat) : List Key :=
  consensusKeysLoop cfg cr node (effectiveTimestamp nowNano timestamp) node.ActiveNodes []

/-- The loop of `CheckCatchUpWithPeers` over the keys of `ConsensusNodes`;
`final` is `node.Graph.MyFinalNumber`, `cache` is `node.Graph.MyCacheRound`,
`asFinal` is the method `CacheRound.asFinal`, declared outside the sources at
hand (`none` is `nil`), `nowNano` is `time.Now().UnixNano()`. -/
def catchUpLoop (cfg : Config) (asFinal : CacheRound → Option FinalRound) (node : Node)
    (nowNano final : Nat) (cache : Option CacheRound) : List Hash → Bool
  | [] => true
  | id :: rest =>
    match mapGet node.SyncPoints id with
    | none => catchUpLoop cfg asFinal node nowNano final cache rest
    | some remote =>
      if remote.Number ≤ final then catchUpLoop cfg asFinal node nowNano final cache rest
      else if remote.Number > u64 (final + 1) then false
      else
        match cache with
        | none => false
        | some c =>
          match asFinal c with
          | none => false
          | some cf =>
            if cf.Hash ≠ remote.Hash then false
            else if u64 (cf.Start + u64 (cfg.SnapshotRoundGap * 100)) > u64 nowNano then false
            else catchUpLoop cfg asFinal node nowNano final cache rest

/-- The method `Node.CheckCatchUpWithPeers`; `nowNano` is
`time.Now().UnixNano()`, `none` is the panic of `ConsensusThreshold`.
`SyncPoints.Len()` is the number of keys of the map. -/
def CheckCatchUpWithPeers (cfg : Config) (cr : Crypto)
    (asFinal : CacheRound → Option FinalRound) (node : Node) (nowNano : Nat) : Option Bool :=
  match ConsensusThreshold cfg cr node nowNano 0 with
  | none => none
  | some threshold =>
    if (mapKeys node.SyncPoints).length < threshold then some false
    else
      let final := node.Graph.MyFinalNumber
      let cache := node.Graph.MyCacheRound
      some (catchUpLoop cfg asFinal node nowNano final cache (mapKeys node.ConsensusNodes))

/-- The errors `validateKernelSnapshot` and `checkCacheSnapshotTransaction`
return: the error of a function declared outside the sources at hand, with
its text, or `invalid initial transaction type %d`. -/
inductive SnapshotError where
  | external (text : String)
  | invalidInitialTransactionType (kind : Nat)
deriving DecidableEq

/-- The functions and constants `self.go` uses and that are declared outside
the sources at hand, as parameters. `S` is the state of the persistent store,
`Tx` the type `common.VersionedTransaction`. An error is its text, `none` is
`nil`. `TransactionType` and the constants `common.TransactionType...` are
`uint8`. The four `validate...Snapshot` methods of the node, `ReadTransaction`
(the transaction, the finalization marker, the error), `CacheGetTransaction`
and `Validate` read the store; `LockInputs` and `WriteTransaction` return the
store they leave. -/
structure Deps (S Tx : Type) where
  TransactionType : Tx → Nat
  TransactionTypeMint : Nat
  TransactionTypeNodePledge : Nat
  TransactionTypeNodeCancel : Nat
  TransactionTypeNodeAccept : Nat
  validateMintSnapshot : Node → S → common.Snapshot → Tx → Option String
  validateNodePledgeSnapshot : Node → S → common.Snapshot → Tx → Option String
  validateNodeCancelSnapshot : Node → S → common.Snapshot → Tx → Option String
  validateNodeAcceptSnapshot : Node → S → common.Snapshot → Tx → Option String
  ReadTransaction : S → Hash → Option Tx × String × Option String
  CacheGetTransaction : S → Hash → Option Tx × Option String
  Validate : S → Tx → Option String
  LockInputs : S → Tx → Bool → S × Option String
  WriteTransaction : S → Tx → S × Option String

/-- The method `Node.validateKernelSnapshot`: the error it returns, `none` for
`nil`; `store` is the state of `node.persistStore`. -/
def validateKernelSnapshot {S Tx : Type} (deps : Deps S Tx) (node : Node) (store : S)
    (s : common.Snapshot) (tx : Tx) : Option SnapshotError :=
  let err : Option String :=
    if deps.TransactionType tx = deps.TransactionTypeMint then
      deps.validateMintSnapshot node store s tx
    else if deps.TransactionType tx = deps.TransactionTypeNodePledge then
      deps.validateNodePledgeSnapshot node store s tx
    else if deps.TransactionType tx = deps.TransactionTypeNodeCancel then
      deps.validateNodeCancelSnapshot node store s tx
    else if deps.TransactionType tx = deps.TransactionTypeNodeAccept then
      deps.validateNodeAcceptSnapshot node store s tx
    else none
  match err with
  | some e => some (.external e)
  | none =>
    if s.NodeId ≠ node.IdForNetwork ∧ s.RoundNumber = 0
        ∧ deps.TransactionType tx ≠ deps.TransactionTypeNodeAccept then
      some (.invalidInitialTransactionType (deps.TransactionType tx))
    else none

/-- A call of `checkCacheSnapshotTransaction` that writes to the persistent
store. -/
inductive StoreCall (Tx : Type) where
  | LockInputs (tx : Tx) (fork : Bool)
  | WriteTransaction (tx : Tx)
deriving DecidableEq

/-- What a call of `checkCacheSnapshotTransaction` leaves: the triple it
returns (`tx`, `finalized`, `err`), the state of the persistent store after
it, and the calls it made that write to the store, in order. -/
structure CheckResult (S Tx : Type) where
  tx : Option Tx
  finalized : Bool
  err : Option SnapshotError
  store : S
  calls : List (StoreCall Tx)
deriving DecidableEq

/-- The method `Node.checkCacheSnapshotTransaction`; `store` is the state of
`node.persistStore` at the call. -/
def checkCacheSnapshotTransaction {S Tx : Type} (deps : Deps S Tx) (node : Node) (store : S)
    (s : common.Snapshot) : CheckResult S Tx :=
  match deps.ReadTransaction store s.Transaction with
  | (tx, finalized, err) =>
    let err : Option SnapshotError :=
      match tx with
      | some t => validateKernelSnapshot deps node store s t
      | none => err.map .external
    if err.isSome || decide (finalized.length > 0) || tx.isSome then
      { tx := tx, finalized := decide (finalized.length > 0), err := err, store := store,
        calls := [] }
    else
      match deps.CacheGetTransaction store s.Transaction with
      | (_, some e) =>
        { tx := none, finalized := false, err := some (.external e), store := store, calls := [] }
      | (none, none) =>
        { tx := none, finalized := false, err := none, store := store, calls := [] }
      | (some tx, none) =>
        match deps.Validate store tx with
        | some e =>
          { tx := none, finalized := false, err := some (.external e), store := store,
            calls := [] }
        | none =>
          match validateKernelSnapshot deps node store s tx with
          | some e => { tx := none, finalized := false, err := some e, store := store, calls := [] }
          | none =>
            match deps.LockInputs store tx false with
            | (store1, some e) =>
              { tx := none, finalized := false, err := some (.external e), store := store1,
                calls := [.LockInputs tx false] }
            | (store1, none) =>
              match deps.WriteTransaction store1 tx with
              | (store2, err) =>
                { tx := some tx, finalized := false, err := err.map .external, store := store2,
                  calls := [.LockInputs tx false, .WriteTransaction tx] }

end kernel

namespace network

open crypto

/-- The type `PeerMessage`; its field `Type` is `MessageType` here. The types of snapshots, transactions and sync
points are declared in packages outside the sources at hand and are
parameters. -/
structure PeerMessage (Snap Tx SP : Type) where
  MessageType : Byte
  Snapshot : Option Snap
  SnapshotHash : Hash
  Transaction : Option Tx
  TransactionHash : Hash
  Cosi : CosiSignature
  Commitment : Key
  Response : Bytes32
  WantTx : Bool
  FinalCache : List SP
  Auth : List Byte

/-- The decoders `parseNetworkMessage` calls, as parameters:
`common.MsgpackUnmarshal` into a `[]*SyncPoint` and into a `*common.Snapshot`,
and `common.UnmarshalVersionedTransaction`. -/
structure Codec (Snap Tx SP : Type) where
  unmarshalFinalCache : List Byte → Except String (List SP)
  unmarshalSnapshot : List Byte → Except String (Option Snap)
  unmarshalVersionedTransaction : List Byte → Except String (Option Tx)

/-- The errors `parseNetworkMessage` returns. -/
inductive ParseError where
  | invalidMessageData
  | invalidAnnouncementSize (size : Nat)
  | invalidCommitmentSize (size : Nat)
  | invalidChallengeSize (size : Nat)
  | invalidResponseSize (size : Nat)
  | decode (err : String)
deriving DecidableEq

/-- The value `&PeerMessage{Type: t}`: every other field zero. -/
def PeerMessage.ofType {Snap Tx SP : Type} (t : Byte) : PeerMessage Snap Tx SP :=
  { MessageType := t, Snapshot := none, SnapshotHash := zeroHash, Transaction := none,
    TransactionHash := zeroHash, Cosi := ⟨zeroSignature, 0⟩, Commitment := zeroHash,
    Response := zeroHash, WantTx := false, FinalCache := [], Auth := [] }

/-- The function `buildSnapshotCommitmentMessage`. -/
def buildSnapshotCommitmentMessage (snap : Hash) (R : Key) (wantTx : Bool) : List Byte :=
  let data : List Byte := [11]
  let data := data ++ snap.val
  let data := data ++ R.val
  if wantTx then data ++ [1] else data ++ [0]

/-- The function `buildSnapshotResponseMessage`. -/
def buildSnapshotResponseMessage (snap : Hash) (si : Bytes32) : List Byte :=
  let data : List Byte := [13]
  let data := data ++ snap.val
  data ++ si.val

/-- The function `buildTransactionChallengeMessage`; `marshal` is the method
`VersionedTransaction.Marshal`, declared outside the sources at hand. -/
def buildTransactionChallengeMessage {Tx : Type} (marshal : Tx → List Byte) (snap : Hash)
    (cosi : CosiSignature) (tx : Option Tx) : List Byte :=
  let mask := putUint64 (u64 cosi.Mask)
  let data : List Byte := [12]
  let data := data ++ snap.val
  let data := data ++ cosi.Signature.val
  let data := data ++ mask
  match tx with
  | some t => data ++ marshal t
  | none => data

/-- The function `parseNetworkMessage`. The outer `Option` is `none` for a
run-time panic of a slice or index expression, the inner result is the pair
`(*PeerMessage, error)` of the source. -/
def parseNetworkMessage {Snap Tx SP : Type} (codec : Codec Snap Tx SP) (data : List Byte) :
    Option (Except ParseError (PeerMessage Snap Tx SP)) :=
  if data.length < 1 then some (.error .invalidMessageData)
  else
    match indexAt data 0, sliceFrom data 1 with
    | some tag, some body =>
      let msg : PeerMessage Snap Tx SP := PeerMessage.ofType tag
      if tag = 4 then
        match codec.unmarshalFinalCache body with
        | .error e => some (.error (.decode e))
        | .ok fc => some (.ok { msg with FinalCache := fc })
      else if tag = 1 then some (.ok msg)
      else if tag = 3 then some (.ok { msg with Auth := body })
      else if tag = 5 then some (.ok { msg with SnapshotHash := copy32 body })
      else if tag = 7 then
        match codec.unmarshalVersionedTransaction body with
        | .error e => some (.error (.decode e))
        | .ok ver => some (.ok { msg with Transaction := ver })
      else if tag = 6 then some (.ok { msg with TransactionHash := copy32 body })
      else if tag = 10 then
        if body.length ≤ 32 then some (.error (.invalidAnnouncementSize body.length))
        else
          match sliceFrom data 33 with
          | none => none
          | some rest =>
            match codec.unmarshalSnapshot rest with
            | .error e => some (.error (.decode e))
            | .ok s => some (.ok { msg with Commitment := copy32 body, Snapshot := s })
      else if tag = 11 then
        if body.length ≠ 65 then some (.error (.invalidCommitmentSize body.length))
        else
          match sliceFrom data 33, indexAt data 65 with
          | some rest, some flag =>
            some (.ok { msg with
              SnapshotHash := copy32 body, Commitment := copy32 rest,
              WantTx := decide (flag = 1) })
          | _, _ => none
      else if tag = 12 then
        if body.length < 104 then some (.error (.invalidChallengeSize body.length))
        else
          match sliceFrom data 33, sliceRange data 97 105 with
          | some rest, some maskBytes =>
            let msg1 := { msg with
              SnapshotHash := copy32 body,
              Cosi := ⟨copy64 rest, bigEndianUint64 maskBytes⟩ }
            if body.length > 104 then
              match sliceFrom data 105 with
              | none => none
              | some txBytes =>
                match codec.unmarshalVersionedTransaction txBytes with
                | .error e => some (.error (.decode e))
                | .ok ver => some (.ok { msg1 with Transaction := ver })
            else some (.ok msg1)
          | _, _ => none
      else if tag = 13 then
        if body.length ≠ 64 then some (.error (.invalidResponseSize body.length))
        else
          match sliceFrom data 33 with
          | none => none
          | some rest =>
            some (.ok { msg with SnapshotHash := copy32 body, Response := copy32 rest })
      else if tag = 14 then
        match codec.unmarshalSnapshot body with
        | .error e => some (.error (.decode e))
        | .ok s => some (.ok { msg with Snapshot := s })
      else some (.ok msg)
    | _, _ => none

end network

namespace kernel

/-- The consensus base as the specification words it, for one active node:
accepted with `timestamp + SnapshotReferenceThreshold * SnapshotRoundGap ≤ t`,
or a genesis node, or departing, or pledging with
`timestamp + (KernelNodeAcceptPeriodMinimum - 3 * SnapshotReferenceThreshold *
SnapshotRoundGap) < t`. -/
def countedAsWorded (cfg : Config) (cr : Crypto) (node : Node) (t : Nat) (cn : common.Node) :
    Bool :=
  let gap : Int := (cfg.SnapshotReferenceThreshold * cfg.SnapshotRoundGap : Nat)
  (decide (cn.State = .Accepted) && decide ((cn.Timestamp : Int) + gap ≤ t))
    || node.isGenesis (cn.IdForNetwork cr node.networkId)
    || decide (cn.State = .Departing)
    || (decide (cn.State = .Pledging)
        && decide ((cn.Timestamp : Int) + (cfg.KernelNodeAcceptPeriodMinimum - 3 * gap) < t))

/-- The consensus base as the loop of `ConsensusThreshold` counts it, for one
active node: accepted and (genesis or `timestamp + gap < t`), or departing, or
pledging with `timestamp + (KernelNodeAcceptPeriodMinimum - 3 * gap) < t`,
the sums taken in `uint64`. -/
def counted (cfg : Config) (cr : Crypto) (node : Node) (t : Nat) (cn : common.Node) : Bool :=
  let gap := cfg.SnapshotReferenceThreshold * cfg.SnapshotRoundGap
  (decide (cn.State = .Accepted)
      && (node.isGenesis (cn.IdForNetwork cr node.networkId)
          || decide (u64 (cn.Timestamp + gap) < t)))
    || decide (cn.State = .Departing)
    || (decide (cn.State = .Pledging)
        && decide (u64 (cn.Timestamp
            + (cfg.KernelNodeAcceptPeriodMinimum - (3 * gap : Nat)).toNat) < t))

end kernel

namespace kernel

open crypto

/-- The states of the records `LoadConsensusNodes` keeps in `ActiveNodes`. -/
def isActiveState (cn : common.Node) : Bool :=
  decide (cn.State = .Pledging) || decide (cn.State = .Accepted)
    || decide (cn.State = .Departing)

/-- The ascending order of the pairs (timestamp, network-hashed signer id),
the ids compared bytewise. -/
def keyLe (cr : Crypto) (networkId : Hash) (a b : common.Node) : Prop :=
  a.Timestamp < b.Timestamp ∨
    (a.Timestamp = b.Timestamp ∧
      bytesCompare (a.IdForNetwork cr networkId).val (b.IdForNetwork cr networkId).val ≤ 0)

end kernel

namespace kernel

open crypto

/-- A consensus peer has reported the broadcast: its recorded sync point
`remote` satisfies `remote.Number + 1 ≥ final`, the sum a `uint64` sum. -/
def reported (node : Node) (final : Nat) (id : Hash) : Bool :=
  match mapGet node.SyncPoints id with
  | none => false
  | some remote => decide (u64 (remote.Number + 1) ≥ final)

/-- The start of the first round of a history (zero for an empty one). -/
def entryStart (rounds : List FinalRound) : Nat :=
  match rounds with
  | [] => 0
  | r0 :: _ => r0.Start

/-- A node of `RoundHistory` is eligible for `determinBestRound`: it is not
the local node, it is a genesis node or `rounds[0].Number ≥ 7 +
2 * SnapshotReferenceThreshold`, `rounds[0].Start ≤ roundTime`, and
`rounds[0].Start + SnapshotRoundGap * len(rounds) ≤ now`; the arithmetic is
that of `uint64`. -/
def eligible (cfg : Config) (node : Node) (roundTime nowNano : Nat) (id : Hash)
    (rounds : List FinalRound) : Bool :=
  match rounds with
  | [] => false
  | r0 :: _ =>
    decide (id ≠ node.IdForNetwork)
      && (node.isGenesis id
          || decide (u64 (7 + u64 (cfg.SnapshotReferenceThreshold * 2)) ≤ r0.Number))
      && decide (r0.Start ≤ roundTime)
      && decide (u64 (r0.Start + u64 (cfg.SnapshotRoundGap * rounds.length)) ≤ u64 nowNano)

/-- The lexicographic order of the pairs (history length, start of the first
round). -/
def pairLe (h₁ s₁ h₂ s₂ : Nat) : Prop := h₁ < h₂ ∨ (h₁ = h₂ ∧ s₁ ≤ s₂)

/-- What the locals of `determinBestRound` hold after the loop has visited the
entries `seen`: `best` is `nil` only if no entry was eligible; otherwise it is
the first round of an eligible entry whose pair (length, start) is
(`height`, `start`), and the pair of every eligible entry is at most that
pair. -/
def bestInv (cfg : Config) (node : Node) (roundTime nowNano : Nat)
    (seen : List (Hash × List FinalRound)) (acc : BestAcc) : Prop :=
  (acc.best = none → acc.height = 0 ∧ acc.start = 0 ∧
      ∀ e ∈ seen, eligible cfg node roundTime nowNano e.1 e.2 = false) ∧
  (∀ r, acc.best = some r → ∃ e ∈ seen, eligible cfg node roundTime nowNano e.1 e.2 = true ∧
      e.2.head? = some r ∧ e.2.length = acc.height ∧ r.Start = acc.start) ∧
  (∀ e ∈ seen, eligible cfg node roundTime nowNano e.1 e.2 = true →
      pairLe e.2.length (entryStart e.2) acc.height acc.start)

end kernel

namespace kernel

open crypto

/-- The local cache round as a final round: `cache.asFinal()` of
`node.Graph.MyCacheRound`, `none` when either is `nil`. -/
def cacheFinal (asFinal : CacheRound → Option FinalRound) (node : Node) : Option FinalRound :=
  node.Graph.MyCacheRound.bind asFinal

/-- The condition of `CheckCatchUpWithPeers` as the specification words it:
the round number of every recorded sync point differs from the local final
number by at most one, the hash of every sync point that is one round ahead
is the hash of the local cache round as final, and the local cache round
started more than `100 * SnapshotRoundGap` before now. -/
def caughtUpAsWorded (cfg : Config) (asFinal : CacheRound → Option FinalRound) (node : Node)
    (nowNano : Nat) : Bool :=
  let final := node.Graph.MyFinalNumber
  node.SyncPoints.all (fun p =>
      decide (p.2.Number ≤ final + 1) && decide (final ≤ p.2.Number + 1))
    && node.SyncPoints.all (fun p =>
      !decide (p.2.Number = final + 1)
        || (match cacheFinal asFinal node with
            | some cf => decide (cf.Hash = p.2.Hash)
            | none => false))
    && (match cacheFinal asFinal node with
        | some cf => decide (cf.Start + 100 * cfg.SnapshotRoundGap < nowNano)
        | none => false)

/-- A recorded sync point passes the loop of `CheckCatchUpWithPeers`: it is
not ahead of the local final number, or it is exactly one round ahead (in
`uint64`), the local cache round has a final form with the same hash, and
`cf.Start + SnapshotRoundGap * 100 ≤ now` in `uint64`. -/
def caughtUpWith (cfg : Config) (asFinal : CacheRound → Option FinalRound) (node : Node)
    (nowNano : Nat) (remote : network.SyncPoint) : Prop :=
  remote.Number ≤ node.Graph.MyFinalNumber ∨
    (remote.Number ≤ u64 (node.Graph.MyFinalNumber + 1) ∧
      ∃ cf, cacheFinal asFinal node = some cf ∧ cf.Hash = remote.Hash ∧
        u64 (cf.Start + u64 (cfg.SnapshotRoundGap * 100)) ≤ u64 nowNano)

/-- A node contributes its key to `ConsensusKeys(t)`: it is accepted and
either a genesis node or `timestamp + KernelNodeAcceptPeriodMinimum < t`. -/
def contributes (cfg : Config) (cr : Crypto) (node : Node) (t : Nat) (cn : common.Node) :
    Bool :=
  decide (cn.State = .Accepted)
    && (node.isGenesis (cn.IdForNetwork cr node.networkId)
        || decide ((cn.Timestamp : Int) + cfg.KernelNodeAcceptPeriodMinimum < t))

end kernel

/-! ## The graph store -/

namespace common

open crypto

/-- Modelled from the spec: the type `common.MintData` is declared outside
the sources at hand; a mint is `{group, batch, amount}`, the group a string
(its bytes), the batch a `uint64`. -/
structure MintData where
  Group : List Byte
  Batch : Nat
  Amount : Nat
deriving DecidableEq

/-- Modelled from the spec: the type `common.MintDistribution` is declared
outside the sources at hand; it is `{group, batch, amount, transaction}`. -/
structure MintDistribution where
  Group : List Byte
  Batch : Nat
  Amount : Nat
  Transaction : Hash
deriving DecidableEq

/-- Modelled from the spec: the method `MintData.Distribute` is declared
outside the sources at hand; it is the mint with the transaction that locks
it. -/
def MintData.Distribute (mint : MintData) (tx : Hash) : MintDistribution :=
  { Group := mint.Group, Batch := mint.Batch, Amount := mint.Amount, Transaction := tx }

/-- Modelled from the spec: the type `common.SnapshotWithTopologicalOrder`
is declared outside the sources at hand; it is a snapshot with its topological
order, a `uint64`. -/
structure SnapshotWithTopologicalOrder where
  Snapshot : Snapshot
  TopologicalOrder : Nat
deriving DecidableEq

end common

namespace storage

open crypto

/-- The view of a badger transaction: a finite map from keys to values, held
as an association list. `Get` is `mapGet` (`none` is `ErrKeyNotFound`), `Set`
is `mapSet`; neither fails otherwise. -/
abbrev Txn := List (List Byte × List Byte)

/-- The errors of the store: `badger.ErrKeyNotFound`, or an error with a
message. -/
inductive StoreError where
  | ErrKeyNotFound
  | message (text : String)
deriving DecidableEq

/-- The constants and functions of the packages `storage`, `common` and
`crypto` that the mint and topology files use and that are declared outside
the sources at hand, as parameters. -/
structure Schema (Tx : Type) where
  graphPrefixMint : List Byte
  graphPrefixTopology : List Byte
  graphPrefixSnapTopology : List Byte
  graphSnapshotKey : Hash → Nat → Hash → List Byte
  graphFinalizationKey : Hash → List Byte
  readTransaction : Txn → Hash → Except StoreError (Option Tx)
  pruneTransaction : Txn → Hash → Except StoreError Txn
  marshalMintDistribution : common.MintDistribution → List Byte
  unmarshalMintDistribution : List Byte → Except String common.MintDistribution
  unmarshalSnapshot : List Byte → Except String common.SnapshotWithTopologicalOrder
  payloadHash : common.Snapshot → Hash
  hashString : Hash → String
  amountString : Nat → String

/-- The function `binary.BigEndian.Uint64` on a slice of any length: a panic
on fewer than 8 bytes, the value of the first 8 bytes otherwise. -/
def beUint64 (b : List Byte) : Option Nat :=
  if b.length < 8 then none else some (bigEndianUint64 (b.take 8))

/-- The test `bytes.HasPrefix(key, pre)` of the iterator's
`ValidForPrefix`. -/
def hasPrefix (key pre : List Byte) : Bool := decide (key.take pre.length = pre)

/-- The keys of a store in the order of a badger iterator: ascending in the
bytewise order, every key once. -/
def sortedKeys (txn : Txn) : List (List Byte) :=
  List.insertionSort (fun a b => bytesCompare a b ≤ 0) (mapKeys txn)

/-- The items a forward iterator visits from `Seek(key)` on: the keys not
below `key` in ascending order, each with its value. -/
def iterForward (txn : Txn) (key : List Byte) : List (List Byte × List Byte) :=
  ((sortedKeys txn).filter (fun k => decide (bytesCompare key k ≤ 0))).filterMap
    (fun k => (mapGet txn k).map (fun v => (k, v)))

/-- The items a reverse iterator visits from `Seek(key)` on: the keys not
above `key` in descending order, each with its value. -/
def iterReverse (txn : Txn) (key : List Byte) : List (List Byte × List Byte) :=
  (((sortedKeys txn).filter (fun k => decide (bytesCompare k key ≤ 0))).reverse).filterMap
    (fun k => (mapGet txn k).map (fun v => (k, v)))

/-- The function `graphMintKey`. -/
def graphMintKey {Tx : Type} (sch : Schema Tx) (group : List Byte) (batch : Nat) : List Byte :=
  let buf := putUint64 batch
  let key := group ++ buf
  sch.graphPrefixMint ++ key

/-- The function `graphMintBatch`; `none` is a run-time panic. -/
def graphMintBatch {Tx : Type} (sch : Schema Tx) (key : List Byte) (group : List Byte) :
    Option Nat :=
  match sliceFrom key (sch.graphPrefixMint.length + group.length) with
  | none => none
  | some batch => beUint64 batch

/-- The function `graphSnapTopologyKey`. -/
def graphSnapTopologyKey {Tx : Type} (sch : Schema Tx) (hash : Hash) : List Byte :=
  sch.graphPrefixSnapTopology ++ hash.val

/-- The function `graphTopologyKey`. -/
def graphTopologyKey {Tx : Type} (sch : Schema Tx) (order : Nat) : List Byte :=
  let buf := putUint64 order
  sch.graphPrefixTopology ++ buf

/-- The function `graphTopologyOrder`; `none` is a run-time panic. -/
def graphTopologyOrder {Tx : Type} (sch : Schema Tx) (key : List Byte) : Option Nat :=
  match sliceFrom key sch.graphPrefixTopology.length with
  | none => none
  | some order => beUint64 order

/-- The function `readMintInput`. -/
def readMintInput {Tx : Type} (sch : Schema Tx) (txn : Txn) (mint : common.MintData) :
    Except StoreError common.MintDistribution :=
  let key := graphMintKey sch mint.Group mint.Batch
  match mapGet txn key with
  | none => .error .ErrKeyNotFound
  | some ival =>
    match sch.unmarshalMintDistribution ival with
    | .error e => .error (.message e)
    | .ok dist => .ok dist

/-- The function `writeMintDistribution`. -/
def writeMintDistribution {Tx : Type} (sch : Schema Tx) (txn : Txn) (mint : common.MintData)
    (tx : Hash) : Except StoreError Txn :=
  let key := graphMintKey sch mint.Group mint.Batch
  let val := sch.marshalMintDistribution (mint.Distribute tx)
  .ok (mapSet txn key val)

/-- The text of the error of `LockMintInput` on a locked batch. -/
def mintLockedText {Tx : Type} (sch : Schema Tx) (dist : common.MintDistribution) : String :=
  "mint locked for transaction " ++ sch.hashString dist.Transaction ++ " amount "
    ++ sch.amountString dist.Amount

/-- The function `LockMintInput` hands to `snapshotsDB.Update`. -/
def lockMintInputTxn {Tx : Type} (sch : Schema Tx) (txn : Txn) (mint : common.MintData)
    (tx : Hash) (fork : Bool) : Except StoreError Txn :=
  match readMintInput sch txn mint with
  | .error .ErrKeyNotFound => writeMintDistribution sch txn mint tx
  | .error e => .error e
  | .ok dist =>
    if dist.Transaction = tx ∧ dist.Amount = mint.Amount then .ok txn
    else if !fork then .error (.message (mintLockedText sch dist))
    else
      match sch.pruneTransaction txn dist.Transaction with
      | .error e => .error e
      | .ok txn1 => writeMintDistribution sch txn1 mint tx

/-- The method `snapshotsDB.Update` of badger: the changes of the function
are committed when it returns no error and discarded otherwise. The result is
the store after the call and the error. -/
def update (store : Txn) (fn : Txn → Except StoreError Txn) : Txn × Option StoreError :=
  match fn store with
  | .ok store1 => (store1, none)
  | .error e => (store, some e)

/-- The method `BadgerStore.LockMintInput`: the store after the call and the
error it returns. -/
def LockMintInput {Tx : Type} (sch : Schema Tx) (store : Txn) (mint : common.MintData)
    (tx : Hash) (fork : Bool) : Txn × Option StoreError :=
  update store (fun txn => lockMintInputTxn sch txn mint tx fork)

/-- The loop of `ReadMintDistributions` over the items of the iterator;
`none` is a run-time panic. -/
def readMintLoop {Tx : Type} (sch : Schema Tx) (txn : Txn) (group : List Byte) (count : Nat) :
    List (List Byte × List Byte) → List common.MintDistribution → List Tx →
      Option (Except StoreError (List common.MintDistribution × List Tx))
  | [], mints, transactions => some (.ok (mints, transactions))
  | (key, ival) :: rest, mints, transactions =>
    if hasPrefix key (sch.graphPrefixMint ++ group) && decide (mints.length < count) then
      match sch.unmarshalMintDistribution ival with
      | .error e => some (.error (.message e))
      | .ok data =>
        match graphMintBatch sch key group with
        | none => none
        | some batch =>
          if data.Batch ≠ batch then none
          else
            match sch.readTransaction txn data.Transaction with
            | .error e => some (.error e)
            | .ok none => readMintLoop sch txn group count rest mints transactions
            | .ok (some tx) =>
              match mapGet txn (sch.graphFinalizationKey data.Transaction) with
              | none => readMintLoop sch txn group count rest mints transactions
              | some _ =>
                readMintLoop sch txn group count rest (mints ++ [data]) (transactions ++ [tx])
    else some (.ok (mints, transactions))

/-- The method `BadgerStore.ReadMintDistributions`. -/
def ReadMintDistributions {Tx : Type} (sch : Schema Tx) (store : Txn) (group : List Byte)
    (offset count : Nat) :
    Option (Except StoreError (List common.MintDistribution × List Tx)) :=
  readMintLoop sch store group count (iterForward store (graphMintKey sch group offset)) [] []

/-- The function `writeTopology`; the error it returns is always `nil`, the
result is the transaction after the two `Set`. -/
def writeTopology {Tx : Type} (sch : Schema Tx) (txn : Txn)
    (snap : common.SnapshotWithTopologicalOrder) : Txn :=
  let key := graphTopologyKey sch snap.TopologicalOrder
  let val := sch.graphSnapshotKey snap.Snapshot.NodeId snap.Snapshot.RoundNumber
    snap.Snapshot.Transaction
  let txn := mapSet txn key val
  mapSet txn (graphSnapTopologyKey sch (sch.payloadHash snap.Snapshot)) key

/-- The function `readSnapshotWithTopo`; `none` is a run-time panic. -/
def readSnapshotWithTopo {Tx : Type} (sch : Schema Tx) (txn : Txn) (hash : Hash) :
    Option (Except StoreError common.SnapshotWithTopologicalOrder) :=
  match mapGet txn (graphSnapTopologyKey sch hash) with
  | none => some (.error .ErrKeyNotFound)
  | some topo =>
    match mapGet txn topo with
    | none => some (.error .ErrKeyNotFound)
    | some key =>
      match mapGet txn key with
      | none => some (.error .ErrKeyNotFound)
      | some v =>
        match sch.unmarshalSnapshot v with
        | .error e => some (.error (.message e))
        | .ok snap =>
          match graphTopologyOrder sch topo with
          | none => none
          | some order =>
            some (.ok { Snapshot := { snap.Snapshot with Hash := hash },
                        TopologicalOrder := order })

/-- The loop of `ReadSnapshotsSinceTopology` over the items of the iterator:
the snapshots read and the error; `none` is a run-time panic. -/
def readSnapshotsLoop {Tx : Type} (sch : Schema Tx) (txn : Txn) (count : Nat) :
    List (List Byte × List Byte) → List common.SnapshotWithTopologicalOrder →
      Option (List common.SnapshotWithTopologicalOrder × Option StoreError)
  | [], snapshots => some (snapshots, none)
  | (key, v) :: rest, snapshots =>
    if hasPrefix key sch.graphPrefixTopology && decide (snapshots.length < count) then
      match graphTopologyOrder sch key with
      | none => none
      | some topology =>
        match mapGet txn v with
        | none => some (snapshots, some .ErrKeyNotFound)
        | some v1 =>
          match sch.unmarshalSnapshot v1 with
          | .error e => some (snapshots, some (.message e))
          | .ok snap =>
            readSnapshotsLoop sch txn count rest
              (snapshots ++ [{ Snapshot := { snap.Snapshot with
                                  Hash := sch.payloadHash snap.Snapshot },
                               TopologicalOrder := topology }])
    else some (snapshots, none)

/-- The method `BadgerStore.ReadSnapshotsSinceTopology`. -/
def ReadSnapshotsSinceTopology {Tx : Type} (sch : Schema Tx) (store : Txn)
    (topologyOffset count : Nat) :
    Option (List common.SnapshotWithTopologicalOrder × Option StoreError) :=
  readSnapshotsLoop sch store count (iterForward store (graphTopologyKey sch topologyOffset)) []

/-- The method `BadgerStore.TopologySequence`; `none` is a run-time panic. -/
def TopologySequence {Tx : Type} (sch : Schema Tx) (store : Txn) : Option Nat :=
  match iterReverse store (graphTopologyKey sch (2 ^ 64 - 1)) with
  | [] => some 0
  | (key, _) :: _ =>
    if hasPrefix key sch.graphPrefixTopology then
      match graphTopologyOrder sch key with
      | none => none
      | some order => some (u64 (order + 1))
    else some 0

end storage

namespace storage

open crypto

/-- The order a key of the topology index decodes to; `none` for a key
without the topology prefix. -/
def indexOrder {Tx : Type} (sch : Schema Tx) (k : List Byte) : Option Nat :=
  if hasPrefix k sch.graphPrefixTopology then graphTopologyOrder sch k else none

/-- The orders of the topology index of a store, ascending: the orders the
keys with the topology prefix decode to. -/
def indexOrders {Tx : Type} (sch : Schema Tx) (txn : Txn) : List Nat :=
  List.insertionSort (fun a b => a ≤ b) ((mapKeys txn).filterMap (indexOrder sch))

/-- The snapshot `ReadSnapshotsSinceTopology` makes of the index key `k`: the
payload the index entry points to, decoded, with `Hash` its payload hash and
`TopologicalOrder` the order of the key. -/
def snapshotAt {Tx : Type} (sch : Schema Tx) (txn : Txn) (k : List Byte) :
    Option common.SnapshotWithTopologicalOrder :=
  match graphTopologyOrder sch k, mapGet txn k with
  | some topology, some v =>
    match mapGet txn v with
    | none => none
    | some v1 =>
      match sch.unmarshalSnapshot v1 with
      | .error _ => none
      | .ok snap =>
        some { Snapshot := { snap.Snapshot with Hash := sch.payloadHash snap.Snapshot },
               TopologicalOrder := topology }
  | _, _ => none

/-- The topology index of a store is well formed: every key with the topology
prefix is `graphTopologyKey(n)` for a `uint64` order `n`. -/
def wellFormedIndex {Tx : Type} (sch : Schema Tx) (txn : Txn) : Prop :=
  ∀ k ∈ mapKeys txn, hasPrefix k sch.graphPrefixTopology = true →
    ∃ n, n < 2 ^ 64 ∧ k = graphTopologyKey sch n

end storage

/-! ## Data the statements below are evaluated on -/

namespace sample

open crypto

/-- The 32-byte value whose bytes are all `b`. -/
def fill (b : Byte) : Bytes32 := ⟨List.replicate 32 b, by simp⟩

/-- An address whose public keys are `fill b` and whose private keys are
`fill s`. -/
def address (s b : Byte) : common.Address :=
  { PrivateSpendKey := fill s, PrivateViewKey := fill s, PublicSpendKey := fill b,
    PublicViewKey := fill b }

/-- A record of the store: signer `address 0 b` as the store holds it (no
private keys). -/
def record (b : Byte) (state : common.NodeState) (timestamp : Nat) : common.Node :=
  { Signer := address 0 b, Payee := address 0 b, State := state, Timestamp := timestamp }

/-- A stand-in for package `crypto`: the hash of an address is its public
spend key, the network does not change it, a signature repeats the signing
key and verifies under the equal public key. -/
def toyCrypto : Crypto :=
  { addressHash := fun a => a.PublicSpendKey
    forNetwork := fun h _ => h
    sign := fun k _ => copy64 (k.val ++ k.val)
    verify := fun k _ sig => decide (sig = copy64 (k.val ++ k.val)) }

/-- A configuration: round gap 3 s, reference threshold 10, accept period
12 h. -/
def config : Config :=
  { SnapshotRoundGap := 3000000000, SnapshotReferenceThreshold := 10,
    KernelNodeAcceptPeriodMinimum := 43200000000000 }

/-- A kernel node with the given active nodes and genesis ids, every other
field empty. -/
def nodeWith (active : List common.Node) (genesis : List Hash) : kernel.Node :=
  { IdForNetwork := fill 9, Signer := address 9 9, Listener := [],
    ActiveNodes := active, ConsensusNodes := [], SortedConsensusNodes := [],
    ConsensusIndex := -1, ConsensusPledging := none,
    genesisNodesMap := genesis.map (fun h => (h, true)), genesisNodes := genesis,
    epoch := 1, networkId := fill 0 }

/-- Four accepted genesis nodes. -/
def fourGenesis : kernel.Node :=
  nodeWith [record 1 .Accepted 1, record 2 .Accepted 1, record 3 .Accepted 1,
    record 4 .Accepted 1] [fill 1, fill 2, fill 3, fill 4]

/-- One accepted node that is not a genesis node, of timestamp 1000. -/
def oneAccepted : kernel.Node := nodeWith [record 1 .Accepted 1000] []

/-- A pledging node of timestamp 1000 whose id is a genesis id, and a
departing node. -/
def pledgingGenesis : kernel.Node :=
  nodeWith [record 1 .Pledging 1000, record 2 .Departing 5] [fill 1]

/-- One accepted node that is not a genesis node, of the greatest `uint64`
timestamp. -/
def lateAccepted : kernel.Node := nodeWith [record 1 .Accepted (2 ^ 64 - 1)] []

/-- Records of a store: two accepted nodes of timestamp zero, a pledging, a
removed and a departing node. -/
def records : List common.Node :=
  [record 3 .Accepted 0, record 1 .Pledging 7, record 2 .Accepted 0, record 4 .Removed 3,
    record 5 .Departing 2]

/-- The records of `records` in another order. -/
def recordsShuffled : List common.Node :=
  [record 5 .Departing 2, record 2 .Accepted 0, record 4 .Removed 3, record 3 .Accepted 0,
    record 1 .Pledging 7]

/-- The node of signer `fill 2` as `SetupNode` makes it, before the first
`LoadConsensusNodes`: `ConsensusIndex` is `-1`. -/
def freshNode : kernel.Node :=
  { IdForNetwork := fill 2, Signer := address 2 2, Listener := [],
    ActiveNodes := [], ConsensusNodes := [], SortedConsensusNodes := [],
    ConsensusIndex := -1, ConsensusPledging := none,
    genesisNodesMap := [], genesisNodes := [], epoch := 1, networkId := fill 0 }

/-- The store of `records` after the node of signer `fill 2` has left the
accepted set: its record is departing. -/
def recordsAfterLeave : List common.Node :=
  [record 3 .Accepted 0, record 1 .Pledging 7, record 2 .Departing 0, record 4 .Removed 3,
    record 5 .Departing 2]

/-- The node of signer `fill 1`, that builds authentication messages; its
listener is the three bytes `1, 2, 3`. -/
def peerA : kernel.Node :=
  { IdForNetwork := fill 1, Signer := address 1 1, Listener := [1, 2, 3],
    ActiveNodes := [], ConsensusNodes := [], SortedConsensusNodes := [],
    ConsensusIndex := -1, ConsensusPledging := none,
    genesisNodesMap := [], genesisNodes := [], epoch := 1, networkId := fill 0 }

/-- The node of signer `fill 2`, that holds the accepted record of signer
`fill 1` in `ConsensusNodes` and no pledging node. -/
def peerB : kernel.Node :=
  { IdForNetwork := fill 2, Signer := address 2 2, Listener := [],
    ActiveNodes := [record 1 .Accepted 1, record 2 .Accepted 1],
    ConsensusNodes := [(fill 2, record 2 .Accepted 1), (fill 1, record 1 .Accepted 1)],
    SortedConsensusNodes := [fill 1, fill 2],
    ConsensusIndex := 1, ConsensusPledging := none,
    genesisNodesMap := [], genesisNodes := [], epoch := 1, networkId := fill 0 }

/-- The node of signer `fill 2` when signer `fill 1` is pledging and there
is no accepted node: `ConsensusNodes` is empty. -/
def peerBPledging : kernel.Node :=
  { IdForNetwork := fill 2, Signer := address 2 2, Listener := [],
    ActiveNodes := [record 1 .Pledging 1],
    ConsensusNodes := [], SortedConsensusNodes := [],
    ConsensusIndex := -1, ConsensusPledging := some (record 1 .Pledging 1),
    genesisNodesMap := [], genesisNodes := [], epoch := 1, networkId := fill 0 }

/-- Decoders that accept every input and decode nothing, over one-element
types of snapshots, transactions and sync points. -/
def unitCodec : network.Codec Unit Unit Unit :=
  { unmarshalFinalCache := fun _ => .ok []
    unmarshalSnapshot := fun _ => .ok none
    unmarshalVersionedTransaction := fun _ => .ok none }

/-- A collective signature: the signature bytes all `7`, the mask `0b1011`. -/
def cosi : network.CosiSignature :=
  { Signature := copy64 (List.replicate 64 7), Mask := 11 }

/-- The node of signer `fill 1` among four accepted genesis nodes; the peers
`fill 2` and `fill 3` have reported round 5, the peer `fill 4` nothing, and
the node's own final number is 5. -/
def broadcastNode : kernel.Node :=
  { IdForNetwork := fill 1, Signer := address 1 1, Listener := [],
    ActiveNodes := [record 1 .Accepted 1, record 2 .Accepted 1, record 3 .Accepted 1,
      record 4 .Accepted 1],
    ConsensusNodes := [(fill 1, record 1 .Accepted 1), (fill 2, record 2 .Accepted 1),
      (fill 3, record 3 .Accepted 1), (fill 4, record 4 .Accepted 1)],
    SortedConsensusNodes := [fill 1, fill 2, fill 3, fill 4],
    ConsensusIndex := 0, ConsensusPledging := none,
    genesisNodesMap := [(fill 1, true), (fill 2, true), (fill 3, true), (fill 4, true)],
    genesisNodes := [fill 1, fill 2, fill 3, fill 4], epoch := 1, networkId := fill 0,
    Graph := { MyFinalNumber := 5, RoundHistory := [] },
    SyncPoints := [(fill 2, { NodeId := fill 1, Number := 5, Hash := fill 8 }),
      (fill 3, { NodeId := fill 1, Number := 4, Hash := fill 7 })] }

/-- A final round of node `fill b` with the given number and start. -/
def round (b : Byte) (number start : Nat) : kernel.FinalRound :=
  { NodeId := fill b, Number := number, Start := start, End := start + 1, Hash := fill b }

/-- The node of signer `fill 1` with the round histories of itself and of the
genesis nodes `fill 2` (two rounds, first start 10) and `fill 3` (two rounds,
first start 20), and of the node `fill 4`, not a genesis node, at round 3. -/
def bestNode : kernel.Node :=
  { IdForNetwork := fill 1, Signer := address 1 1, Listener := [],
    ActiveNodes := [], ConsensusNodes := [], SortedConsensusNodes := [],
    ConsensusIndex := 0, ConsensusPledging := none,
    genesisNodesMap := [(fill 1, true), (fill 2, true), (fill 3, true)],
    genesisNodes := [fill 1, fill 2, fill 3], epoch := 1, networkId := fill 0,
    Graph :=
      { MyFinalNumber := 5,
        RoundHistory :=
          [(fill 1, [round 1 4 30, round 1 5 40, round 1 6 50]),
            (fill 2, [round 2 4 10, round 2 5 15]),
            (fill 3, [round 3 4 20, round 3 5 25]),
            (fill 4, [round 4 3 5, round 4 4 6, round 4 5 7])] } }

/-- A stand-in for the parameters of the store. The key prefixes are the
single bytes `M`, `T`, `S`; a transaction is stored under `X ‖ hash` and read
back as its hash, its finalization key is `F ‖ hash`; a distribution is
marshalled as `batch ‖ amount ‖ transaction ‖ group`, a snapshot as
`node ‖ transaction ‖ round ‖ timestamp`; the payload hash of a snapshot is
its transaction hash. -/
def toySchema : storage.Schema Hash :=
  { graphPrefixMint := [77]
    graphPrefixTopology := [84]
    graphPrefixSnapTopology := [83]
    graphSnapshotKey := fun node round tx => [80] ++ node.val ++ putUint64 round ++ tx.val
    graphFinalizationKey := fun h => [70] ++ h.val
    readTransaction := fun txn h =>
      match mapGet txn ([88] ++ h.val) with
      | none => .ok none
      | some _ => .ok (some h)
    pruneTransaction := fun txn h => .ok (txn.filter (fun p => decide (p.1 ≠ [88] ++ h.val)))
    marshalMintDistribution := fun d =>
      putUint64 d.Batch ++ putUint64 d.Amount ++ d.Transaction.val ++ d.Group
    unmarshalMintDistribution := fun b =>
      if b.length < 48 then .error "short"
      else .ok { Batch := bigEndianUint64 (b.take 8),
                 Amount := bigEndianUint64 ((b.take 16).drop 8),
                 Transaction := copy32 ((b.take 48).drop 16),
                 Group := b.drop 48 }
    unmarshalSnapshot := fun b =>
      if b.length < 80 then .error "short"
      else .ok { Snapshot :=
                   { NodeId := copy32 (b.take 32), Transaction := copy32 ((b.take 64).drop 32),
                     References := none,
                     RoundNumber := bigEndianUint64 ((b.take 72).drop 64),
                     Timestamp := bigEndianUint64 ((b.take 80).drop 72),
                     Signature := none, Hash := zeroHash },
                 TopologicalOrder := 0 }
    payloadHash := fun snap => snap.Transaction
    hashString := fun h => String.mk (h.val.map (fun b => Char.ofNat (97 + b.val % 26)))
    amountString := fun n => toString n }

/-- The mint of group `K`, batch 42, amount 5. -/
def mint : common.MintData := { Group := [75], Batch := 42, Amount := 5 }

/-- The bytes of the toy snapshot of node `fill b`, transaction `fill t`,
round `round`, timestamp 9. -/
def snapshotBytes (b t : Byte) (round : Nat) : List Byte :=
  (fill b).val ++ (fill t).val ++ putUint64 round ++ putUint64 9

/-- The toy snapshot of node `fill b`, transaction `fill t`, round `round`,
with the topological order `order`. -/
def snapshot (b t : Byte) (round order : Nat) : common.SnapshotWithTopologicalOrder :=
  { Snapshot :=
      { NodeId := fill b, Transaction := fill t, References := none, RoundNumber := round,
        Timestamp := 9, Signature := none, Hash := zeroHash },
    TopologicalOrder := order }

/-- A store that holds the payload of the toy snapshot of node `fill 1`,
transaction `fill 6`, round 3. -/
def payloadStore : storage.Txn :=
  [(toySchema.graphSnapshotKey (fill 1) 3 (fill 6), snapshotBytes 1 6 3)]

/-- A store in which batch 42 of group `K` is locked by the transaction
`fill 10`, which is stored and finalized. -/
def lockedStore : storage.Txn :=
  [(storage.graphMintKey toySchema [75] 42,
      toySchema.marshalMintDistribution (mint.Distribute (fill 10))),
    ([88] ++ (fill 10).val, [1]),
    ([70] ++ (fill 10).val, [1])]

/-- A store whose topology index holds the orders 0, 1 and 2, with the
payloads of three toy snapshots and one other key. -/
def topologyStore : storage.Txn :=
  [(storage.graphTopologyKey toySchema 1, toySchema.graphSnapshotKey (fill 1) 3 (fill 6)),
    (toySchema.graphSnapshotKey (fill 1) 3 (fill 6), snapshotBytes 1 6 3),
    (storage.graphTopologyKey toySchema 0, toySchema.graphSnapshotKey (fill 1) 2 (fill 5)),
    (toySchema.graphSnapshotKey (fill 1) 2 (fill 5), snapshotBytes 1 5 2),
    (storage.graphTopologyKey toySchema 2, toySchema.graphSnapshotKey (fill 2) 0 (fill 7)),
    (toySchema.graphSnapshotKey (fill 2) 0 (fill 7), snapshotBytes 2 7 0),
    ([90], [1])]

/-- A stand-in for `CacheRound.asFinal`: `nil` for a round without snapshots,
otherwise the final round that starts and ends at the timestamp of the cache
round, with the hash `fill 8`. -/
def asFinal (c : kernel.CacheRound) : Option kernel.FinalRound :=
  match c.Snapshots with
  | [] => none
  | _ :: _ =>
    some { NodeId := c.NodeId, Number := c.Number, Start := c.Timestamp, End := c.Timestamp,
           Hash := fill 8 }

/-- The cache round 6 of node `fill 1`, of timestamp 50, with one snapshot. -/
def cacheRound : kernel.CacheRound :=
  { NodeId := fill 1, Number := 6, Timestamp := 50,
    Snapshots := [(snapshot 1 6 6 0).Snapshot], References := none }

/-- The sync point of round `number` of node `fill 1`, with the hash
`fill h`. -/
def syncPoint (number : Nat) (h : Byte) : network.SyncPoint :=
  { NodeId := fill 1, Number := number, Hash := fill h }

/-- The node `broadcastNode`, of final number 5 and without a cache round,
when its three peers have reported the rounds 5, 4 and 0. -/
def behindNode : kernel.Node :=
  { broadcastNode with
    SyncPoints := [(fill 2, syncPoint 5 8), (fill 3, syncPoint 4 7), (fill 4, syncPoint 0 6)] }

/-- The node `broadcastNode`, of final number 5 and with the cache round
`cacheRound`, when two of its three peers have reported round 6 with the hash
of the cache round as final. -/
def fewPointsNode : kernel.Node :=
  { broadcastNode with
    Graph := { MyFinalNumber := 5, RoundHistory := [], MyCacheRound := some cacheRound },
    SyncPoints := [(fill 2, syncPoint 6 8), (fill 3, syncPoint 6 8)] }

/-- The node `fewPointsNode` when its third peer has reported round 5. -/
def caughtUpNode : kernel.Node :=
  { fewPointsNode with
    SyncPoints := [(fill 2, syncPoint 6 8), (fill 3, syncPoint 6 8), (fill 4, syncPoint 5 7)] }

/-- A node with the accepted genesis node `fill 1`, the accepted nodes
`fill 2` (timestamp 1000) and `fill 3` (timestamp `5 * 10^13`), and the
pledging node `fill 4`. -/
def keysNode : kernel.Node :=
  nodeWith [record 1 .Accepted 1, record 2 .Accepted 1000, record 3 .Accepted 50000000000000,
    record 4 .Pledging 5] [fill 1]

/-- A toy transaction: its hash and its type. -/
abbrev ToyTx := Hash × Nat

/-- A toy persistent store: the transactions written, the transactions of
the cache, and the hashes of the transactions whose inputs are locked. -/
structure ToyStore where
  persist : List ToyTx
  cache : List ToyTx
  locked : List Hash
deriving DecidableEq

/-- A stand-in for the functions `self.go` calls. The types Mint, NodePledge,
NodeCancel and NodeAccept are 1, 2, 3 and 4; a mint snapshot is invalid in
round 7, the other kernel snapshots are valid; a transaction of type 99 does
not validate; a transaction is read by its hash, with the marker `s` from the
persistent store; locking the inputs of a transaction of type 98 fails, any
other is recorded; writing never fails. -/
def toyDeps : kernel.Deps ToyStore ToyTx :=
  { TransactionType := fun tx => tx.2
    TransactionTypeMint := 1
    TransactionTypeNodePledge := 2
    TransactionTypeNodeCancel := 3
    TransactionTypeNodeAccept := 4
    validateMintSnapshot := fun _ _ s _ => if s.RoundNumber = 7 then some "mint" else none
    validateNodePledgeSnapshot := fun _ _ _ _ => none
    validateNodeCancelSnapshot := fun _ _ _ _ => none
    validateNodeAcceptSnapshot := fun _ _ _ _ => none
    ReadTransaction := fun st h =>
      match st.persist.find? (fun tx => decide (tx.1 = h)) with
      | some tx => (some tx, "s", none)
      | none => (none, "", none)
    CacheGetTransaction := fun st h => (st.cache.find? (fun tx => decide (tx.1 = h)), none)
    Validate := fun _ tx => if tx.2 = 99 then some "invalid" else none
    LockInputs := fun st tx _ =>
      if tx.2 = 98 then (st, some "locked") else ({ st with locked := tx.1 :: st.locked }, none)
    WriteTransaction := fun st tx => ({ st with persist := tx :: st.persist }, none) }

/-- A store whose cache holds the script transaction `fill 6` (type 0) and
the mint transaction `fill 7`, and whose persistent part holds the
transaction `fill 5`. -/
def toyStore : ToyStore :=
  { persist := [(fill 5, 0)], cache := [(fill 6, 0), (fill 7, 1)], locked := [] }

end sample

/-! ## Consensus threshold -/

namespace kernel

theorem consensusBaseStep_counted (cfg : Config) (cr : Crypto) (node : Node) (t : Nat)
    (hgap : cfg.SnapshotReferenceThreshold * cfg.SnapshotRoundGap ≤ 3 * timeMinute)
    (hacc : (timeHour : Int) ≤ cfg.KernelNodeAcceptPeriodMinimum)
    (hmax : cfg.KernelNodeAcceptPeriodMinimum < 2 ^ 64)
    (base : Nat) (cn : common.Node) :
    consensusBaseStep cfg cr node t base cn
      = some (base + if counted cfg cr node t cn then 1 else 0) := by
  have hu : u64 (cfg.SnapshotReferenceThreshold * cfg.SnapshotRoundGap)
      = cfg.SnapshotReferenceThreshold * cfg.SnapshotRoundGap := by
    unfold u64 timeMinute at *
    omega
  have hu3 : u64 (cfg.SnapshotReferenceThreshold * cfg.SnapshotRoundGap * 3)
      = 3 * (cfg.SnapshotReferenceThreshold * cfg.SnapshotRoundGap) := by
    unfold u64 timeMinute at *
    omega
  have hp : toUint64 (cfg.KernelNodeAcceptPeriodMinimum
      - ((3 * (cfg.SnapshotReferenceThreshold * cfg.SnapshotRoundGap) : Nat) : Int))
      = (cfg.KernelNodeAcceptPeriodMinimum
          - ((3 * (cfg.SnapshotReferenceThreshold * cfg.SnapshotRoundGap) : Nat) : Int)).toNat := by
    unfold toUint64
    unfold timeMinute timeHour at *
    congr 1
    apply Int.emod_eq_of_lt <;> omega
  unfold consensusBaseStep counted
  simp only [hu, hu3, hp]
  have hng : ¬ (cfg.SnapshotReferenceThreshold * cfg.SnapshotRoundGap > 3 * timeMinute) := by
    omega
  have hna : ¬ (cfg.KernelNodeAcceptPeriodMinimum < (timeHour : Int)) := by omega
  simp only [hng, hna, if_false]
  cases hst : cn.State <;> simp <;> split <;> simp_all

theorem consensusBaseLoop_counted (cfg : Config) (cr : Crypto) (node : Node) (t : Nat)
    (hgap : cfg.SnapshotReferenceThreshold * cfg.SnapshotRoundGap ≤ 3 * timeMinute)
    (hacc : (timeHour : Int) ≤ cfg.KernelNodeAcceptPeriodMinimum)
    (hmax : cfg.KernelNodeAcceptPeriodMinimum < 2 ^ 64)
    (l : List common.Node) (base : Nat) :
    consensusBaseLoop cfg cr node t base l
      = some (base + l.countP (counted cfg cr node t)) := by
  induction l generalizing base with
  | nil => simp [consensusBaseLoop]
  | cons cn rest ih =>
    simp only [consensusBaseLoop, consensusBaseStep_counted cfg cr node t hgap hacc hmax, ih,
      List.countP_cons]
    congr 1
    omega

/-- C1: whenever `ConsensusThreshold` returns, its result is
`⌊2·b/3⌋ + 1` for the consensus base `b` it counted over `ActiveNodes`; the
result is at least 1 and three times the result exceeds twice the base. -/
theorem ConsensusThreshold_eq_two_thirds_plus_one (cfg : Config) (cr : Crypto) (node : Node)
    (nowNano timestamp r : Nat)
    (h : ConsensusThreshold cfg cr node nowNano timestamp = some r) :
    ∃ b, consensusBase cfg cr node (effectiveTimestamp nowNano timestamp) = some b ∧
      r = 2 * b / 3 + 1 ∧ 1 ≤ r ∧ 2 * b < 3 * r := by
  unfold ConsensusThreshold at h
  cases hb : consensusBase cfg cr node (effectiveTimestamp nowNano timestamp) with
  | none => simp [hb] at h
  | some b =>
    simp only [hb] at h
    split at h
    · simp at h
    · simp only [Option.some.injEq] at h
      exact ⟨b, rfl, by omega, by omega, by omega⟩

/-- C1, at four accepted genesis nodes: the threshold is 3 for the base 4. -/
theorem ConsensusThreshold_eq_two_thirds_plus_one_witness :
    ConsensusThreshold sample.config sample.toyCrypto sample.fourGenesis 0 5 = some 3 ∧
    ∃ b, consensusBase sample.config sample.toyCrypto sample.fourGenesis
        (effectiveTimestamp 0 5) = some b ∧
      3 = 2 * b / 3 + 1 ∧ 1 ≤ 3 ∧ 2 * b < 3 * 3 :=
  ⟨by decide,
    ConsensusThreshold_eq_two_thirds_plus_one sample.config sample.toyCrypto
      sample.fourGenesis 0 5 3 (by decide)⟩

/-- C2 as worded fails at three inputs. An accepted node with
`timestamp + gap = t` is not counted by the loop (the comparison is strict)
though the wording counts it; a pledging node that is not old enough is not
counted although its id is a genesis id; and the sum the loop compares is a
`uint64` sum, so that an accepted node of timestamp `2^64 - 1` is counted at
`t = 40000000000`. In each case `ConsensusThreshold` returns. -/
theorem consensusBase_not_as_worded :
    (consensusBase sample.config sample.toyCrypto sample.oneAccepted
        (effectiveTimestamp 0 30000001000) = some 0 ∧
      ConsensusThreshold sample.config sample.toyCrypto sample.oneAccepted 0 30000001000
        = some 1 ∧
      sample.oneAccepted.ActiveNodes.countP
        (countedAsWorded sample.config sample.toyCrypto sample.oneAccepted 30000001000) = 1) ∧
    (consensusBase sample.config sample.toyCrypto sample.pledgingGenesis
        (effectiveTimestamp 0 2000) = some 1 ∧
      ConsensusThreshold sample.config sample.toyCrypto sample.pledgingGenesis 0 2000
        = some 1 ∧
      sample.pledgingGenesis.ActiveNodes.countP
        (countedAsWorded sample.config sample.toyCrypto sample.pledgingGenesis 2000) = 2) ∧
    (consensusBase sample.config sample.toyCrypto sample.lateAccepted
        (effectiveTimestamp 0 40000000000) = some 1 ∧
      ConsensusThreshold sample.config sample.toyCrypto sample.lateAccepted 0 40000000000
        = some 1 ∧
      sample.lateAccepted.ActiveNodes.countP
        (countedAsWorded sample.config sample.toyCrypto sample.lateAccepted 40000000000)
        = 0) := by
  decide

/-- C2, amended: for a non-zero timestamp `t`, and constants that pass the
checks of the loop (`SnapshotReferenceThreshold * SnapshotRoundGap` at most
three minutes, `KernelNodeAcceptPeriodMinimum` at least one hour), the loop of
`ConsensusThreshold(t)` does not panic and its consensus base is the number of
active nodes that are accepted and either genesis or with
`timestamp + gap < t`, or departing, or pledging with
`timestamp + (KernelNodeAcceptPeriodMinimum - 3 * gap) < t`, every sum being a
`uint64` sum. -/
theorem consensusBase_eq_count (cfg : Config) (cr : Crypto) (node : Node) (nowNano t : Nat)
    (ht : t ≠ 0)
    (hgap : cfg.SnapshotReferenceThreshold * cfg.SnapshotRoundGap ≤ 3 * timeMinute)
    (hacc : (timeHour : Int) ≤ cfg.KernelNodeAcceptPeriodMinimum)
    (hmax : cfg.KernelNodeAcceptPeriodMinimum < 2 ^ 63) :
    consensusBase cfg cr node (effectiveTimestamp nowNano t)
      = some (node.ActiveNodes.countP (counted cfg cr node t)) := by
  have he : effectiveTimestamp nowNano t = t := by simp [effectiveTimestamp, ht]
  rw [he]
  unfold consensusBase
  rw [consensusBaseLoop_counted cfg cr node t hgap hacc (by omega)]
  simp

/-- C2, amended, at four accepted genesis nodes and `t = 5`. -/
theorem consensusBase_eq_count_witness :
    consensusBase sample.config sample.toyCrypto sample.fourGenesis (effectiveTimestamp 0 5)
      = some (sample.fourGenesis.ActiveNodes.countP
          (counted sample.config sample.toyCrypto sample.fourGenesis 5)) :=
  consensusBase_eq_count sample.config sample.toyCrypto sample.fourGenesis 0 5 (by decide)
    (by decide) (by decide) (by decide)

/-- C3 as worded fails: with four accepted genesis nodes the threshold is 3,
below the number of genesis nodes. -/
theorem ConsensusThreshold_below_genesis_count :
    ConsensusThreshold sample.config sample.toyCrypto sample.fourGenesis 0 5 = some 3 ∧
    sample.fourGenesis.genesisNodes.length = 4 ∧
    ¬ (sample.fourGenesis.genesisNodes.length ≤ 3) := by
  decide

/-- C3, amended: whenever `ConsensusThreshold` returns, the consensus base it
counted is at least the number of genesis nodes, and the value it returns is
at least `⌊2·|genesisNodes|/3⌋ + 1`. -/
theorem ConsensusThreshold_base_ge_genesis (cfg : Config) (cr : Crypto) (node : Node)
    (nowNano timestamp r : Nat)
    (h : ConsensusThreshold cfg cr node nowNano timestamp = some r) :
    ∃ b, consensusBase cfg cr node (effectiveTimestamp nowNano timestamp) = some b ∧
      node.genesisNodes.length ≤ b ∧ 2 * node.genesisNodes.length / 3 + 1 ≤ r := by
  unfold ConsensusThreshold at h
  cases hb : consensusBase cfg cr node (effectiveTimestamp nowNano timestamp) with
  | none => simp [hb] at h
  | some b =>
    simp only [hb] at h
    split at h
    · simp at h
    · simp only [Option.some.injEq] at h
      exact ⟨b, rfl, by omega, by omega⟩

/-- C3, amended, at a pledging and a departing node with one genesis id. -/
theorem ConsensusThreshold_base_ge_genesis_witness :
    ConsensusThreshold sample.config sample.toyCrypto sample.pledgingGenesis 0 2000 = some 1 ∧
    ∃ b, consensusBase sample.config sample.toyCrypto sample.pledgingGenesis
        (effectiveTimestamp 0 2000) = some b ∧
      sample.pledgingGenesis.genesisNodes.length ≤ b ∧
      2 * sample.pledgingGenesis.genesisNodes.length / 3 + 1 ≤ 1 :=
  ⟨by decide,
    ConsensusThreshold_base_ge_genesis sample.config sample.toyCrypto
      sample.pledgingGenesis 0 2000 1 (by decide)⟩

end kernel

/-! ## Loading the consensus nodes -/

theorem bytesCompare_swap (a b : List crypto.Byte) : bytesCompare b a = - bytesCompare a b := by
  induction a generalizing b with
  | nil => cases b <;> simp [bytesCompare]
  | cons x xs ih =>
    cases b with
    | nil => simp [bytesCompare]
    | cons y ys =>
      simp only [bytesCompare]
      by_cases h1 : x < y
      · have h2 : ¬ y < x := lt_asymm h1
        simp [h1, h2]
      · by_cases h2 : y < x
        · simp [h1, h2]
        · simp [h1, h2, ih]

theorem bytesCompare_eq_zero (a b : List crypto.Byte) (h : bytesCompare a b = 0) : a = b := by
  induction a generalizing b with
  | nil => cases b <;> simp_all [bytesCompare]
  | cons x xs ih =>
    cases b with
    | nil => simp [bytesCompare] at h
    | cons y ys =>
      simp only [bytesCompare] at h
      by_cases h1 : x < y
      · simp [h1] at h
      · by_cases h2 : y < x
        · simp [h1, h2] at h
        · simp only [h1, h2, if_false] at h
          have hxy : x = y := le_antisymm (not_lt.mp h2) (not_lt.mp h1)
          rw [hxy, ih ys h]

theorem bytesCompare_self (a : List crypto.Byte) : bytesCompare a a = 0 := by
  induction a with
  | nil => simp [bytesCompare]
  | cons x xs ih => simp [bytesCompare, ih]

theorem bytesCompare_le_trans (a b c : List crypto.Byte) (h1 : bytesCompare a b ≤ 0)
    (h2 : bytesCompare b c ≤ 0) : bytesCompare a c ≤ 0 := by
  induction a generalizing b c with
  | nil => cases c <;> simp [bytesCompare]
  | cons x xs ih =>
    cases b with
    | nil => simp [bytesCompare] at h1
    | cons y ys =>
      cases c with
      | nil => simp [bytesCompare] at h2
      | cons z zs =>
        simp only [bytesCompare] at h1 h2 ⊢
        by_cases hxy : x < y
        · by_cases hyz : y < z
          · have : x < z := lt_trans hxy hyz
            simp [this]
          · by_cases hzy : z < y
            · simp [hyz, hzy] at h2
            · have : x < z := lt_of_lt_of_le hxy (not_lt.mp hzy)
              simp [this]
        · by_cases hyx : y < x
          · simp [hxy, hyx] at h1
          · simp only [hxy, hyx, if_false] at h1
            by_cases hyz : y < z
            · have : x < z := lt_of_le_of_lt (not_lt.mp hyx) hyz
              simp [this]
            · by_cases hzy : z < y
              · simp [hyz, hzy] at h2
              · simp only [hyz, hzy, if_false] at h2
                have h3 : ¬ x < z := not_lt.mpr (le_trans (not_lt.mp hyz) (not_lt.mp hxy))
                have h4 : ¬ z < x := not_lt.mpr (le_trans (not_lt.mp hyx) (not_lt.mp hzy))
                simp only [h3, h4, if_false]
                exact ih ys zs h1 h2

theorem mapGet_filter_ne {K V : Type} [DecidableEq K] (m : List (K × V)) (k x : K)
    (h : x ≠ k) : mapGet (m.filter (fun p => decide (p.1 ≠ k))) x = mapGet m x := by
  induction m with
  | nil => rfl
  | cons p m ih =>
    obtain ⟨a, v⟩ := p
    simp only [ne_eq, decide_not] at ih ⊢
    by_cases hak : a = k
    · subst hak
      have hax : ¬ a = x := fun e => h e.symm
      simp [List.filter_cons, mapGet, hax, ih]
    · by_cases hax : a = x
      · simp [List.filter_cons, mapGet, hak, hax, h]
      · simp [List.filter_cons, mapGet, hak, hax, ih]

theorem mapGet_mapSet {K V : Type} [DecidableEq K] (m : List (K × V)) (k x : K) (v : V) :
    mapGet (mapSet m k v) x = if k = x then some v else mapGet m x := by
  unfold mapSet
  by_cases h : k = x
  · simp [mapGet, h]
  · have hx : x ≠ k := fun e => h e.symm
    simp only [mapGet, h, if_false]
    exact mapGet_filter_ne m k x hx

/-- Two lists ordered by the same relation that are permutations of each
other are equal, when the relation is antisymmetric on their elements. -/
theorem eq_of_perm_of_pairwise {α : Type} (r : α → α → Prop) :
    ∀ (l₁ l₂ : List α), List.Perm l₁ l₂ → List.Pairwise r l₁ → List.Pairwise r l₂ →
      (∀ a ∈ l₁, ∀ b ∈ l₁, r a b → r b a → a = b) → l₁ = l₂
  | [], l₂, hp, _, _, _ => (List.Perm.nil_eq hp)
  | a :: t, [], hp, _, _, _ => by
    have := hp.length_eq
    simp at this
  | a :: t, b :: t₂, hp, h₁, h₂, hanti => by
    have hab : a = b := by
      have ha : a ∈ b :: t₂ := hp.subset (List.mem_cons_self _ _)
      have hb : b ∈ a :: t := hp.symm.subset (List.mem_cons_self _ _)
      rcases List.mem_cons.mp ha with e | hat
      · exact e
      · rcases List.mem_cons.mp hb with e | hbt
        · exact e.symm
        · have r1 : r a b := (List.pairwise_cons.mp h₁).1 b hbt
          have r2 : r b a := (List.pairwise_cons.mp h₂).1 a hat
          exact hanti a (List.mem_cons_self _ _) b hb r1 r2
    subst hab
    have hp' : List.Perm t t₂ := List.Perm.cons_inv hp
    have ht := eq_of_perm_of_pairwise r t t₂ hp' (List.pairwise_cons.mp h₁).2
      (List.pairwise_cons.mp h₂).2
      (fun x hx y hy => hanti x (List.mem_cons_of_mem _ hx) y (List.mem_cons_of_mem _ hy))
    rw [ht]

namespace kernel

open crypto

theorem activeLess_false_iff (cr : Crypto) (networkId : Hash) (a b : common.Node) :
    activeLess cr networkId b a = false ↔ keyLe cr networkId a b := by
  simp only [activeLess, keyLe, common.Node.IdForNetwork]
  rw [bytesCompare_swap (cr.forNetwork (cr.addressHash a.Signer) networkId).val
    (cr.forNetwork (cr.addressHash b.Signer) networkId).val]
  by_cases h1 : b.Timestamp < a.Timestamp
  · simp only [h1, if_true]
    constructor
    · intro h; cases h
    · rintro (h | ⟨h, _⟩) <;> omega
  · by_cases h2 : b.Timestamp = a.Timestamp
    · rw [if_neg h1, if_pos h2, decide_eq_false_iff_not]
      constructor
      · intro h
        right
        exact ⟨h2.symm, by omega⟩
      · rintro (h | ⟨_, h⟩)
        · omega
        · omega
    · rw [if_neg h1, if_neg h2]
      constructor
      · intro _
        left
        omega
      · intro _
        trivial

theorem keyLe_total (cr : Crypto) (networkId : Hash) (a b : common.Node) :
    keyLe cr networkId a b ∨ keyLe cr networkId b a := by
  unfold keyLe
  rw [bytesCompare_swap (a.IdForNetwork cr networkId).val (b.IdForNetwork cr networkId).val]
  rcases Nat.lt_trichotomy a.Timestamp b.Timestamp with h | h | h
  · exact Or.inl (Or.inl h)
  · by_cases hc : bytesCompare (a.IdForNetwork cr networkId).val
        (b.IdForNetwork cr networkId).val ≤ 0
    · exact Or.inl (Or.inr ⟨h, hc⟩)
    · exact Or.inr (Or.inr ⟨h.symm, by omega⟩)
  · exact Or.inr (Or.inl h)

theorem keyLe_trans (cr : Crypto) (networkId : Hash) (a b c : common.Node)
    (h1 : keyLe cr networkId a b) (h2 : keyLe cr networkId b c) : keyLe cr networkId a c := by
  unfold keyLe at *
  rcases h1 with h1 | ⟨e1, c1⟩
  · rcases h2 with h2 | ⟨e2, _⟩
    · exact Or.inl (by omega)
    · exact Or.inl (by omega)
  · rcases h2 with h2 | ⟨e2, c2⟩
    · exact Or.inl (by omega)
    · exact Or.inr ⟨by omega, bytesCompare_le_trans _ _ _ c1 c2⟩

theorem keyLe_antisymm (cr : Crypto) (networkId : Hash) (a b : common.Node)
    (h1 : keyLe cr networkId a b) (h2 : keyLe cr networkId b a) :
    a.Timestamp = b.Timestamp ∧ a.IdForNetwork cr networkId = b.IdForNetwork cr networkId := by
  unfold keyLe at *
  rw [bytesCompare_swap (a.IdForNetwork cr networkId).val (b.IdForNetwork cr networkId).val]
    at h2
  rcases h1 with h1 | ⟨e1, c1⟩
  · rcases h2 with h2 | ⟨e2, _⟩ <;> omega
  · rcases h2 with h2 | ⟨_, c2⟩
    · omega
    · refine ⟨e1, Subtype.ext (bytesCompare_eq_zero _ _ (by omega))⟩

theorem sortSlice_perm {α : Type} (less : α → α → Bool) (l : List α) :
    List.Perm (sortSlice less l) l :=
  List.perm_insertionSort _ l

theorem sortSlice_active_sorted (cr : Crypto) (networkId : Hash) (l : List common.Node) :
    List.Pairwise (keyLe cr networkId) (sortSlice (activeLess cr networkId) l) := by
  haveI : IsTotal common.Node (fun a b => activeLess cr networkId b a = false) :=
    ⟨fun a b => by
      simp only [activeLess_false_iff]
      exact keyLe_total cr networkId a b⟩
  haveI : IsTrans common.Node (fun a b => activeLess cr networkId b a = false) :=
    ⟨fun a b c => by
      simp only [activeLess_false_iff]
      exact keyLe_trans cr networkId a b c⟩
  have h := List.sorted_insertionSort (fun a b => activeLess cr networkId b a = false) l
  unfold sortSlice
  exact List.Pairwise.imp (fun {a b} hab => (activeLess_false_iff cr networkId a b).mp hab) h

end kernel

namespace kernel

open crypto

theorem withEpoch_signer (epoch : Nat) (cn : common.Node) :
    (withEpoch epoch cn).Signer = cn.Signer := by
  unfold withEpoch
  split <;> rfl

theorem loadStep_fold_active (cr : Crypto) (node : Node) (records : List common.Node)
    (acc : LoadAcc) :
    (records.foldl (loadStep cr node) acc).activeNodes
      = acc.activeNodes ++ (records.map (withEpoch node.epoch)).filter isActiveState := by
  induction records generalizing acc with
  | nil => simp
  | cons cn rest ih =>
    simp only [List.foldl_cons, List.map_cons, List.filter_cons]
    rw [ih]
    unfold loadStep isActiveState
    cases hst : (withEpoch node.epoch cn).State <;> simp [hst]

theorem loadStep_fold_get (cr : Crypto) (node : Node) (records : List common.Node)
    (acc : LoadAcc) (id : Hash) (cn : common.Node)
    (h : mapGet (records.foldl (loadStep cr node) acc).consensusNodes id = some cn) :
    mapGet acc.consensusNodes id = some cn ∨
      (cn ∈ records.map (withEpoch node.epoch) ∧ cn.State = .Accepted ∧
        cn.IdForNetwork cr node.networkId = id) := by
  induction records generalizing acc with
  | nil => exact Or.inl h
  | cons r rest ih =>
    simp only [List.foldl_cons] at h
    rcases ih _ h with h1 | ⟨hm, hs, hi⟩
    · unfold loadStep at h1
      cases hst : (withEpoch node.epoch r).State <;> simp only [hst] at h1 <;>
        try exact Or.inl h1
      rw [mapGet_mapSet] at h1
      split at h1
      · rename_i hk
        simp only [Option.some.injEq] at h1
        subst h1
        exact Or.inr ⟨by simp, hst, hk⟩
      · exact Or.inl h1
    · exact Or.inr ⟨by simp [List.mem_map] at hm ⊢; exact Or.inr hm, hs, hi⟩

theorem loadStep_fold_isSome (cr : Crypto) (node : Node) (records : List common.Node)
    (acc : LoadAcc) (id : Hash)
    (h : (mapGet acc.consensusNodes id).isSome ∨
      ∃ cn ∈ records.map (withEpoch node.epoch), cn.State = .Accepted ∧
        cn.IdForNetwork cr node.networkId = id) :
    (mapGet (records.foldl (loadStep cr node) acc).consensusNodes id).isSome := by
  induction records generalizing acc with
  | nil =>
    rcases h with h | ⟨cn, hm, _⟩
    · exact h
    · simp at hm
  | cons r rest ih =>
    simp only [List.foldl_cons]
    apply ih
    rcases h with h | ⟨cn, hm, hs, hi⟩
    · left
      unfold loadStep
      cases hst : (withEpoch node.epoch r).State <;> simp only [hst] <;> try exact h
      rw [mapGet_mapSet]
      split
      · rfl
      · exact h
    · simp only [List.map_cons, List.mem_cons] at hm
      rcases hm with e | hm
      · left
        subst e
        unfold loadStep
        simp only [hs]
        rw [mapGet_mapSet]
        unfold common.Node.IdForNetwork at hi
        simp [hi]
      · exact Or.inr ⟨cn, hm, hs, hi⟩

theorem sortedIds_eq (cr : Crypto) (networkId : Hash) (l : List common.Node) :
    sortedIds cr networkId l
      = (l.filter (fun cn => decide (cn.State = .Accepted))).map
          (fun cn => cn.IdForNetwork cr networkId) := by
  induction l with
  | nil => rfl
  | cons n rest ih =>
    unfold sortedIds
    by_cases h : n.State = .Accepted
    · simp [h, ih, common.Node.IdForNetwork]
    · simp [h, ih]

theorem loadActive_perm (cr : Crypto) (node : Node) (records : List common.Node) :
    List.Perm (LoadConsensusNodes cr node records).ActiveNodes
      ((records.map (withEpoch node.epoch)).filter isActiveState) := by
  unfold LoadConsensusNodes
  simp only
  rw [loadStep_fold_active]
  exact sortSlice_perm _ _

theorem loadActive_pairwise (cr : Crypto) (node : Node) (records : List common.Node) :
    List.Pairwise (keyLe cr node.networkId) (LoadConsensusNodes cr node records).ActiveNodes := by
  unfold LoadConsensusNodes
  exact sortSlice_active_sorted cr node.networkId _

theorem loadSorted_eq (cr : Crypto) (node : Node) (records : List common.Node) :
    (LoadConsensusNodes cr node records).SortedConsensusNodes
      = ((LoadConsensusNodes cr node records).ActiveNodes.filter
          (fun cn => decide (cn.State = .Accepted))).map
          (fun cn => cn.IdForNetwork cr node.networkId) := by
  unfold LoadConsensusNodes
  exact sortedIds_eq cr node.networkId _

theorem consensusIndexLoop_absent (own : Hash) (l : List Hash) (i : Nat) (index : Int)
    (h : own ∉ l) : consensusIndexLoop own l i index = index := by
  induction l generalizing i index with
  | nil => rfl
  | cons id rest ih =>
    simp only [List.mem_cons, not_or] at h
    have hne : ¬ id = own := fun e => h.1 e.symm
    simp only [consensusIndexLoop, hne, if_false]
    exact ih (i + 1) index h.2

end kernel

namespace kernel

open crypto

/-- C4: after `LoadConsensusNodes`, `ActiveNodes` holds exactly the records
read from the store in state pledging, accepted or departing, each as often
as the store returned it and with a zero timestamp replaced by the epoch; it
holds no record in another state; and it is in ascending order of the pair
(timestamp, network-hashed signer id), the ids compared bytewise. -/
theorem LoadConsensusNodes_active_nodes (cr : Crypto) (node : Node)
    (records : List common.Node) :
    List.Perm (LoadConsensusNodes cr node records).ActiveNodes
        ((records.map (withEpoch node.epoch)).filter isActiveState) ∧
    (∀ cn ∈ (LoadConsensusNodes cr node records).ActiveNodes,
        cn.State = .Pledging ∨ cn.State = .Accepted ∨ cn.State = .Departing) ∧
    List.Pairwise (keyLe cr node.networkId) (LoadConsensusNodes cr node records).ActiveNodes := by
  refine ⟨loadActive_perm cr node records, ?_, ?_⟩
  · intro cn hcn
    have hm := (loadActive_perm cr node records).subset hcn
    have hs := (List.mem_filter.mp hm).2
    simpa [isActiveState, or_assoc] using hs
  · exact loadActive_pairwise cr node records

/-- C5: after `LoadConsensusNodes`, `SortedConsensusNodes` is the list of the
network-hashed ids of the accepted entries of `ActiveNodes`, in the order of
`ActiveNodes`; an id occurs in it exactly when it is a key of
`ConsensusNodes`; and the value under a key is an accepted record with that
id. -/
theorem LoadConsensusNodes_sorted_consensus (cr : Crypto) (node : Node)
    (records : List common.Node) :
    (LoadConsensusNodes cr node records).SortedConsensusNodes
        = ((LoadConsensusNodes cr node records).ActiveNodes.filter
            (fun cn => decide (cn.State = .Accepted))).map
            (fun cn => cn.IdForNetwork cr node.networkId) ∧
    (∀ id, id ∈ (LoadConsensusNodes cr node records).SortedConsensusNodes ↔
        (mapGet (LoadConsensusNodes cr node records).ConsensusNodes id).isSome) ∧
    (∀ id cn, mapGet (LoadConsensusNodes cr node records).ConsensusNodes id = some cn →
        cn.State = .Accepted ∧ cn.IdForNetwork cr node.networkId = id) := by
  have hsorted := loadSorted_eq cr node records
  have hget : ∀ id cn, mapGet (LoadConsensusNodes cr node records).ConsensusNodes id = some cn →
      cn ∈ records.map (withEpoch node.epoch) ∧ cn.State = .Accepted ∧
        cn.IdForNetwork cr node.networkId = id := by
    intro id cn h
    unfold LoadConsensusNodes at h
    rcases loadStep_fold_get cr node records ⟨none, [], []⟩ id cn h with h0 | h1
    · simp [mapGet] at h0
    · exact h1
  refine ⟨hsorted, ?_, fun id cn h => (hget id cn h).2⟩
  intro id
  rw [hsorted]
  constructor
  · intro hid
    obtain ⟨cn, hcn, hi⟩ := List.mem_map.mp hid
    obtain ⟨hact, hst⟩ := List.mem_filter.mp hcn
    have hm := (loadActive_perm cr node records).subset hact
    have hrec := (List.mem_filter.mp hm).1
    unfold LoadConsensusNodes
    exact loadStep_fold_isSome cr node records ⟨none, [], []⟩ id
      (Or.inr ⟨cn, hrec, by simpa using hst, hi⟩)
  · intro hsome
    obtain ⟨cn, hcn⟩ := Option.isSome_iff_exists.mp hsome
    obtain ⟨hrec, hst, hi⟩ := hget id cn hcn
    refine List.mem_map.mpr ⟨cn, List.mem_filter.mpr ⟨?_, by simp [hst]⟩, hi⟩
    exact (loadActive_perm cr node records).symm.subset
      (List.mem_filter.mpr ⟨hrec, by simp [isActiveState, hst]⟩)

/-- C6, the reload that leaves a stale index. The node of signer `fill 2`
loads `sample.records`, where it is accepted: its id is at position 0 of
`SortedConsensusNodes` and `ConsensusIndex` is 0. It loads again after its
record became departing: its id is no longer in `SortedConsensusNodes`, and
`ConsensusIndex` is still 0, not -1. -/
theorem LoadConsensusNodes_reload_keeps_index :
    (LoadConsensusNodes sample.toyCrypto sample.freshNode sample.records).SortedConsensusNodes
        = [sample.fill 2, sample.fill 3] ∧
    (LoadConsensusNodes sample.toyCrypto sample.freshNode sample.records).ConsensusIndex = 0 ∧
    (LoadConsensusNodes sample.toyCrypto
        (LoadConsensusNodes sample.toyCrypto sample.freshNode sample.records)
        sample.recordsAfterLeave).SortedConsensusNodes = [sample.fill 3] ∧
    (LoadConsensusNodes sample.toyCrypto
        (LoadConsensusNodes sample.toyCrypto sample.freshNode sample.records)
        sample.recordsAfterLeave).IdForNetwork = sample.fill 2 ∧
    (LoadConsensusNodes sample.toyCrypto
        (LoadConsensusNodes sample.toyCrypto sample.freshNode sample.records)
        sample.recordsAfterLeave).ConsensusIndex = 0 := by
  decide

theorem loadActive_eq_of_perm (cr : Crypto) (node₁ node₂ : Node)
    (records₁ records₂ : List common.Node)
    (hepoch : node₁.epoch = node₂.epoch) (hnet : node₁.networkId = node₂.networkId)
    (hp : List.Perm records₁ records₂)
    (hd : (records₁.map (fun cn => cn.IdForNetwork cr node₁.networkId)).Nodup) :
    (LoadConsensusNodes cr node₁ records₁).ActiveNodes
      = (LoadConsensusNodes cr node₂ records₂).ActiveNodes := by
  have hs₁ := loadActive_pairwise cr node₁ records₁
  have hs₂ := loadActive_pairwise cr node₂ records₂
  rw [← hnet] at hs₂
  have hp₁ := loadActive_perm cr node₁ records₁
  have hp₂ := loadActive_perm cr node₂ records₂
  rw [← hepoch] at hp₂
  have hmid : List.Perm ((records₁.map (withEpoch node₁.epoch)).filter isActiveState)
      ((records₂.map (withEpoch node₁.epoch)).filter isActiveState) :=
    (hp.map _).filter _
  refine eq_of_perm_of_pairwise (keyLe cr node₁.networkId) _ _
    (hp₁.trans (hmid.trans hp₂.symm)) hs₁ hs₂ ?_
  intro a ha b hb hab hba
  obtain ⟨x, hx, rfl⟩ := List.mem_map.mp (List.mem_filter.mp (hp₁.subset ha)).1
  obtain ⟨y, hy, rfl⟩ := List.mem_map.mp (List.mem_filter.mp (hp₁.subset hb)).1
  have hid := (keyLe_antisymm cr node₁.networkId _ _ hab hba).2
  simp only [common.Node.IdForNetwork, withEpoch_signer] at hid
  have hxy : x = y := List.inj_on_of_nodup_map hd hx hy hid
  rw [hxy]

/-- C7: `LoadConsensusNodes` depends on the set of stored records only. For
two orderings of the same records, with pairwise distinct network-hashed ids,
and nodes of the same epoch and network, it produces the same `ActiveNodes`
and the same `SortedConsensusNodes`; and a second call on the result of the
first with the same records yields the same `SortedConsensusNodes`. -/
theorem LoadConsensusNodes_deterministic (cr : Crypto) (node₁ node₂ : Node)
    (records₁ records₂ : List common.Node)
    (hepoch : node₁.epoch = node₂.epoch) (hnet : node₁.networkId = node₂.networkId)
    (hp : List.Perm records₁ records₂)
    (hd : (records₁.map (fun cn => cn.IdForNetwork cr node₁.networkId)).Nodup) :
    (LoadConsensusNodes cr node₁ records₁).ActiveNodes
        = (LoadConsensusNodes cr node₂ records₂).ActiveNodes ∧
    (LoadConsensusNodes cr node₁ records₁).SortedConsensusNodes
        = (LoadConsensusNodes cr node₂ records₂).SortedConsensusNodes ∧
    (LoadConsensusNodes cr (LoadConsensusNodes cr node₁ records₁) records₁).SortedConsensusNodes
        = (LoadConsensusNodes cr node₁ records₁).SortedConsensusNodes := by
  have hact := loadActive_eq_of_perm cr node₁ node₂ records₁ records₂ hepoch hnet hp hd
  have hself := loadActive_eq_of_perm cr (LoadConsensusNodes cr node₁ records₁) node₁
    records₁ records₁ rfl rfl (List.Perm.refl _) hd
  refine ⟨hact, ?_, ?_⟩
  · rw [loadSorted_eq cr node₁ records₁, loadSorted_eq cr node₂ records₂, hact, hnet]
  · rw [loadSorted_eq cr _ records₁, loadSorted_eq cr node₁ records₁, hself]
    rfl

/-- C7, at the sample records and a second ordering of them. -/
theorem LoadConsensusNodes_deterministic_witness :
    (LoadConsensusNodes sample.toyCrypto sample.freshNode sample.records).ActiveNodes
        = (LoadConsensusNodes sample.toyCrypto sample.freshNode
            sample.recordsShuffled).ActiveNodes ∧
    (LoadConsensusNodes sample.toyCrypto sample.freshNode sample.records).SortedConsensusNodes
        = (LoadConsensusNodes sample.toyCrypto sample.freshNode
            sample.recordsShuffled).SortedConsensusNodes ∧
    (LoadConsensusNodes sample.toyCrypto
        (LoadConsensusNodes sample.toyCrypto sample.freshNode sample.records)
        sample.records).SortedConsensusNodes
        = (LoadConsensusNodes sample.toyCrypto sample.freshNode
            sample.records).SortedConsensusNodes :=
  LoadConsensusNodes_deterministic sample.toyCrypto sample.freshNode sample.freshNode
    sample.records sample.recordsShuffled rfl rfl (by decide) (by decide)

end kernel

/-! ## Peer authentication -/

theorem copy32_val (h : crypto.Bytes32) : copy32 h.val = h := by
  apply Subtype.ext
  have hl := h.property
  simp [copy32, List.take_of_length_le (Nat.le_of_eq hl), hl]

theorem copy64_val (sig : crypto.Signature) : copy64 sig.val = sig := by
  apply Subtype.ext
  have hl := sig.property
  simp [copy64, List.take_of_length_le (Nat.le_of_eq hl), hl]

theorem bigEndianUint64_putUint64 (v : Nat) (h : v < 2 ^ 64) :
    bigEndianUint64 (putUint64 v) = v := by
  simp only [bigEndianUint64, putUint64, byteOf, List.foldl_cons, List.foldl_nil, Fin.ofNat,
    Fin.val_mk]
  omega

theorem putUint64_length (v : Nat) : (putUint64 v).length = 8 := rfl

theorem toInt64_of_range (x : Int) (h1 : -2 ^ 63 ≤ x) (h2 : x < 2 ^ 63) : toInt64 x = x := by
  unfold toInt64
  omega

theorem toUint64_of_range (x : Int) (h1 : 0 ≤ x) (h2 : x < 2 ^ 64) :
    (toUint64 x : Int) = x := by
  unfold toUint64
  omega

namespace kernel

open crypto

/-- On a message of at least 104 bytes no slice expression of `Authenticate`
is out of range, and the method is the cascade of its three checks. -/
theorem Authenticate_of_length (cr : Crypto) (node : Node) (nowUnix : Int) (msg : List Byte)
    (hlen : 104 ≤ msg.length) :
    Authenticate cr node nowUnix msg =
      if toInt64 (nowUnix - toInt64 (bigEndianUint64 (msg.take 8))) > 3 then
        some (zeroHash, [], some .timeout)
      else
        match authPeer cr node (copy32 ((msg.take 40).drop 8)) with
        | none =>
          some (zeroHash, [], some (.invalidConsensusPeer (copy32 ((msg.take 40).drop 8))))
        | some peer =>
          if copy32 ((msg.take 40).drop 8) = node.IdForNetwork then
            some (zeroHash, [], some (.invalidConsensusPeer (copy32 ((msg.take 40).drop 8))))
          else if cr.verify peer.Signer.PublicSpendKey (msg.take 40)
              (copy64 ((msg.take 104).drop 40)) then
            some (copy32 ((msg.take 40).drop 8), msg.drop 104, none)
          else some (zeroHash, [], some (.signatureInvalid (copy32 ((msg.take 40).drop 8)))) := by
  have h8 : (0 ≤ 8 ∧ 8 ≤ msg.length) := ⟨by omega, by omega⟩
  have h40 : (8 ≤ 40 ∧ 40 ≤ msg.length) := ⟨by omega, by omega⟩
  have h104 : (40 ≤ 104 ∧ 104 ≤ msg.length) := ⟨by omega, by omega⟩
  have h040 : (0 ≤ 40 ∧ 40 ≤ msg.length) := ⟨by omega, by omega⟩
  unfold Authenticate
  simp only [sliceRange, sliceFrom, h8, h40, h104, h040, hlen, and_self, if_true, List.drop_zero]

set_option maxRecDepth 20000 in
/-- C8 as worded fails: the node `sample.peerBPledging` has an empty
`ConsensusNodes`, so the peer id `fill 1` is not a key of it, and yet it
accepts the message the pledging node of that id built: `Authenticate`
returns the peer id and the listener with no error. -/
theorem Authenticate_accepts_pledging_peer :
    mapGet sample.peerBPledging.ConsensusNodes (sample.fill 1) = none ∧
    104 ≤ (BuildAuthenticationMessage sample.toyCrypto sample.peerA 100).length ∧
    copy32 (((BuildAuthenticationMessage sample.toyCrypto sample.peerA 100).take 40).drop 8)
      = sample.fill 1 ∧
    Authenticate sample.toyCrypto sample.peerBPledging 101
        (BuildAuthenticationMessage sample.toyCrypto sample.peerA 100)
      = some (sample.fill 1, [1, 2, 3], none) := by
  decide

/-- C8, amended: for a message of at least 104 bytes and a clock in the range
of `int64`, with `ts` the big-endian `uint64` of bytes 0..8 and `peerId` the
bytes 8..40, `Authenticate` returns an error, with the zero hash and the empty
listener, if `now - ts > 3` (the timeout error); or if `peerId` is neither a
key of `ConsensusNodes` nor the id of `ConsensusPledging`, or is the node's
own id; or if the signature in bytes 40..104 does not verify over the first
40 bytes under the public spend key of the selected peer (the pledging record
when it has that id, the entry of `ConsensusNodes` otherwise). A message with
`ts = now - 10` is rejected with the timeout error whatever its other bytes. -/
theorem Authenticate_rejects (cr : Crypto) (node : Node) (nowUnix : Int) (msg : List Byte)
    (hlen : 104 ≤ msg.length) (hnow : nowUnix < 2 ^ 63) :
    (nowUnix - (bigEndianUint64 (msg.take 8) : Int) > 3 →
      Authenticate cr node nowUnix msg = some (zeroHash, [], some .timeout)) ∧
    ((mapGet node.ConsensusNodes (copy32 ((msg.take 40).drop 8)) = none ∧
        ∀ p, node.ConsensusPledging = some p →
          p.IdForNetwork cr node.networkId ≠ copy32 ((msg.take 40).drop 8)) ∨
      copy32 ((msg.take 40).drop 8) = node.IdForNetwork →
      ∃ e, Authenticate cr node nowUnix msg = some (zeroHash, [], some e)) ∧
    (∀ peer, authPeer cr node (copy32 ((msg.take 40).drop 8)) = some peer →
      cr.verify peer.Signer.PublicSpendKey (msg.take 40) (copy64 ((msg.take 104).drop 40))
        = false →
      ∃ e, Authenticate cr node nowUnix msg = some (zeroHash, [], some e)) ∧
    ((bigEndianUint64 (msg.take 8) : Int) = nowUnix - 10 →
      Authenticate cr node nowUnix msg = some (zeroHash, [], some .timeout)) := by
  have htimeout : nowUnix - (bigEndianUint64 (msg.take 8) : Int) > 3 →
      Authenticate cr node nowUnix msg = some (zeroHash, [], some .timeout) := by
    intro h
    rw [Authenticate_of_length cr node nowUnix msg hlen]
    have h1 : toInt64 (bigEndianUint64 (msg.take 8) : Int) = bigEndianUint64 (msg.take 8) :=
      toInt64_of_range _ (by omega) (by omega)
    have h2 : toInt64 (nowUnix - (bigEndianUint64 (msg.take 8) : Int))
        = nowUnix - (bigEndianUint64 (msg.take 8) : Int) :=
      toInt64_of_range _ (by omega) (by omega)
    rw [h1, h2, if_pos h]
  refine ⟨htimeout, ?_, ?_, fun h => htimeout (by omega)⟩
  · intro h
    rw [Authenticate_of_length cr node nowUnix msg hlen]
    split
    · exact ⟨_, rfl⟩
    · rcases h with ⟨hget, hpl⟩ | hown
      · have hnone : authPeer cr node (copy32 ((msg.take 40).drop 8)) = none := by
          unfold authPeer
          cases hp : node.ConsensusPledging with
          | none => simpa using hget
          | some p =>
            have hne := hpl p hp
            unfold common.Node.IdForNetwork at hne
            simp only [hne, if_false]
            exact hget
        rw [hnone]
        exact ⟨_, rfl⟩
      · cases hpeer : authPeer cr node (copy32 ((msg.take 40).drop 8)) with
        | none => exact ⟨_, rfl⟩
        | some peer =>
          simp only [hown, if_true]
          exact ⟨_, rfl⟩
  · intro peer hpeer hver
    rw [Authenticate_of_length cr node nowUnix msg hlen]
    split
    · exact ⟨_, rfl⟩
    · rw [hpeer]
      simp only [hver]
      split
      · exact ⟨_, rfl⟩
      · exact ⟨_, rfl⟩

/-- C8, amended, at a message of 104 zero bytes (`ts = 0`) and the clock at
10: the timeout error. -/
theorem Authenticate_rejects_witness :
    Authenticate sample.toyCrypto sample.peerB 10 (List.replicate 104 0)
      = some (zeroHash, [], some .timeout) :=
  (Authenticate_rejects sample.toyCrypto sample.peerB 10 (List.replicate 104 0)
    (by decide) (by decide)).2.2.2 (by decide)

/-- C9: the message `A.BuildAuthenticationMessage` builds at the unix time `T`
is `u64_be(T)`, A's 32-byte network id, the 64-byte signature by A's private
spend key over these 40 bytes, and A's listener; its first 8 bytes decode to
`T`; and a node `B` other than `A` that holds a record with A's public spend
key under A's network id in `ConsensusNodes` (and whose pledging record, if
it carries A's id on B's network, carries A's key) returns A's id and A's listener
with no error from `Authenticate` at any time `now` with `now - T ≤ 3`,
provided a signature by A's private spend key verifies under A's public spend
key. Unix times are non-negative `int64` values. -/
theorem authentication_round_trip (cr : Crypto) (A B : Node) (T nowUnix : Int)
    (peer : common.Node)
    (hT0 : 0 ≤ T) (hT : T < 2 ^ 63) (hnow0 : 0 ≤ nowUnix) (hnow : nowUnix < 2 ^ 63)
    (hfresh : nowUnix - T ≤ 3)
    (hother : cr.forNetwork (cr.addressHash A.Signer) A.networkId ≠ B.IdForNetwork)
    (hrecord : mapGet B.ConsensusNodes (cr.forNetwork (cr.addressHash A.Signer) A.networkId)
      = some peer)
    (hkey : peer.Signer.PublicSpendKey = A.Signer.PublicSpendKey)
    (hpledging : ∀ p, B.ConsensusPledging = some p →
      p.IdForNetwork cr B.networkId = cr.forNetwork (cr.addressHash A.Signer) A.networkId →
      p.Signer.PublicSpendKey = A.Signer.PublicSpendKey)
    (hverify : ∀ m, cr.verify A.Signer.PublicSpendKey m (cr.sign A.Signer.PrivateSpendKey m)
      = true) :
    BuildAuthenticationMessage cr A T
      = putUint64 (toUint64 T) ++ (cr.forNetwork (cr.addressHash A.Signer) A.networkId).val
          ++ (cr.sign A.Signer.PrivateSpendKey
              (putUint64 (toUint64 T)
                ++ (cr.forNetwork (cr.addressHash A.Signer) A.networkId).val)).val
          ++ A.Listener ∧
    (bigEndianUint64 ((BuildAuthenticationMessage cr A T).take 8) : Int) = T ∧
    Authenticate cr B nowUnix (BuildAuthenticationMessage cr A T)
      = some (cr.forNetwork (cr.addressHash A.Signer) A.networkId, A.Listener, none) := by
  have hbuild : BuildAuthenticationMessage cr A T
      = putUint64 (toUint64 T) ++ (cr.forNetwork (cr.addressHash A.Signer) A.networkId).val
          ++ (cr.sign A.Signer.PrivateSpendKey
              (putUint64 (toUint64 T)
                ++ (cr.forNetwork (cr.addressHash A.Signer) A.networkId).val)).val
          ++ A.Listener := rfl
  have hts : (toUint64 T : Int) = T := toUint64_of_range T hT0 (by omega)
  have htsn : toUint64 T < 2 ^ 64 := by omega
  have hwrapT : toInt64 T = T := toInt64_of_range T (by omega) hT
  have hwrap2 : toInt64 (nowUnix - T) = nowUnix - T :=
    toInt64_of_range _ (by omega) (by omega)
  have hnot : ¬ (nowUnix - T > 3) := by omega
  generalize hid : cr.forNetwork (cr.addressHash A.Signer) A.networkId = idA at *
  generalize hsig : cr.sign A.Signer.PrivateSpendKey (putUint64 (toUint64 T) ++ idA.val)
    = sig at *
  have hl8 : (putUint64 (toUint64 T)).length = 8 := rfl
  have hl40 : (putUint64 (toUint64 T) ++ idA.val).length = 40 := by
    simp [hl8, idA.property]
  have hl104 : (putUint64 (toUint64 T) ++ idA.val ++ sig.val).length = 104 := by
    simp [hl8, idA.property, sig.property]
  have htake8 : (BuildAuthenticationMessage cr A T).take 8 = putUint64 (toUint64 T) := by
    rw [hbuild, List.append_assoc, List.append_assoc]
    exact List.take_left' hl8
  have htake40 : (BuildAuthenticationMessage cr A T).take 40
      = putUint64 (toUint64 T) ++ idA.val := by
    rw [hbuild, List.append_assoc]
    exact List.take_left' hl40
  have htake104 : (BuildAuthenticationMessage cr A T).take 104
      = putUint64 (toUint64 T) ++ idA.val ++ sig.val := by
    rw [hbuild]
    exact List.take_left' hl104
  have hdrop104 : (BuildAuthenticationMessage cr A T).drop 104 = A.Listener := by
    rw [hbuild]
    exact List.drop_left' hl104
  have hlen : 104 ≤ (BuildAuthenticationMessage cr A T).length := by
    rw [hbuild, List.length_append, hl104]
    exact Nat.le_add_right 104 _
  have hdecode : (bigEndianUint64 ((BuildAuthenticationMessage cr A T).take 8) : Int) = T := by
    rw [htake8, bigEndianUint64_putUint64 _ htsn, hts]
  refine ⟨hbuild, hdecode, ?_⟩
  rw [Authenticate_of_length cr B nowUnix _ hlen]
  rw [hdecode, hwrapT, hwrap2, if_neg hnot]
  have hpeerId : copy32 (((BuildAuthenticationMessage cr A T).take 40).drop 8) = idA := by
    rw [htake40, List.drop_left' hl8, copy32_val]
  have hsigBytes : copy64 (((BuildAuthenticationMessage cr A T).take 104).drop 40) = sig := by
    rw [htake104, List.drop_left' hl40, copy64_val]
  rw [hpeerId, hsigBytes, htake40, hdrop104]
  have hsel : ∃ q, authPeer cr B idA = some q ∧
      q.Signer.PublicSpendKey = A.Signer.PublicSpendKey := by
    unfold authPeer
    cases hp : B.ConsensusPledging with
    | none => exact ⟨peer, by simpa using hrecord, hkey⟩
    | some p =>
      by_cases hpid : cr.forNetwork (cr.addressHash p.Signer) B.networkId = idA
      · exact ⟨p, by simp [hpid], hpledging p hp hpid⟩
      · exact ⟨peer, by simpa [hpid] using hrecord, hkey⟩
  obtain ⟨q, hq, hqkey⟩ := hsel
  rw [hq]
  simp only [hqkey, if_neg hother]
  rw [← hsig, hverify, if_pos rfl]

/-- C9, at the message `sample.peerA` builds at time 100, authenticated by
`sample.peerB` at time 101. -/
theorem authentication_round_trip_witness :
    Authenticate sample.toyCrypto sample.peerB 101
        (BuildAuthenticationMessage sample.toyCrypto sample.peerA 100)
      = some (sample.fill 1, [1, 2, 3], none) :=
  (authentication_round_trip sample.toyCrypto sample.peerA sample.peerB 100 101
    (sample.record 1 .Accepted 1) (by decide) (by decide) (by decide) (by decide) (by decide)
    (by decide) (by decide) rfl
    (fun p hp => by simp [sample.peerB] at hp)
    (fun _ => rfl)).2.2

end kernel

/-! ## Wire framing -/

theorem indexAt_eq_getElem? (data : List crypto.Byte) (i : Nat) : indexAt data i = data[i]? := by
  unfold indexAt
  split
  · rename_i h
    simp [List.getElem?_eq_getElem h]
  · rename_i h
    simp [List.getElem?_eq_none (Nat.le_of_not_lt h)]

theorem copy32_append (x : crypto.Bytes32) (rest : List crypto.Byte) :
    copy32 (x.val ++ rest) = x := by
  apply Subtype.ext
  have hl := x.property
  simp only [copy32, List.take_left' hl, List.length_append, hl]
  have : 32 - (32 + rest.length) = 0 := by omega
  simp [this]

namespace network

open crypto

/-- C10: `buildSnapshotCommitmentMessage(h, R, w)` is the 66 bytes
`[11] ‖ h ‖ R ‖ [1 if w else 0]` and `parseNetworkMessage` returns for it,
without error, the message of type 11 with `SnapshotHash = h`,
`Commitment = R`, `WantTx = w` (every other field zero);
`buildSnapshotResponseMessage(h, s)` is the 65 bytes `[13] ‖ h ‖ s` and parses
to the message of type 13 with `SnapshotHash = h`, `Response = s`. -/
theorem commitment_response_round_trip {Snap Tx SP : Type} (codec : Codec Snap Tx SP)
    (h : Hash) (R : Key) (w : Bool) (s : Bytes32) :
    buildSnapshotCommitmentMessage h R w
        = [11] ++ h.val ++ R.val ++ [if w then 1 else 0] ∧
    (buildSnapshotCommitmentMessage h R w).length = 66 ∧
    parseNetworkMessage codec (buildSnapshotCommitmentMessage h R w)
        = some (.ok { (PeerMessage.ofType 11 : PeerMessage Snap Tx SP) with
            SnapshotHash := h, Commitment := R, WantTx := w }) ∧
    buildSnapshotResponseMessage h s = [13] ++ h.val ++ s.val ∧
    (buildSnapshotResponseMessage h s).length = 65 ∧
    parseNetworkMessage codec (buildSnapshotResponseMessage h s)
        = some (.ok { (PeerMessage.ofType 13 : PeerMessage Snap Tx SP) with
            SnapshotHash := h, Response := s }) := by
  have hc : buildSnapshotCommitmentMessage h R w
      = [11] ++ h.val ++ R.val ++ [if w then 1 else 0] := by
    unfold buildSnapshotCommitmentMessage
    cases w <;> simp
  have hr : buildSnapshotResponseMessage h s = [13] ++ h.val ++ s.val := rfl
  have hh := h.property
  have hR := R.property
  have hs := s.property
  refine ⟨hc, by simp [hc, hh, hR], ?_, hr, by simp [hr, hh, hs], ?_⟩
  · rw [hc]
    generalize hflag : (if w then (1 : Byte) else 0) = flag
    have hlen : ([11] ++ h.val ++ R.val ++ [flag]).length = 66 := by simp [hh, hR]
    have hbody : sliceFrom ([11] ++ h.val ++ R.val ++ [flag]) 1
        = some (h.val ++ (R.val ++ [flag])) := by
      simp [sliceFrom]
    have hrest : sliceFrom ([11] ++ h.val ++ R.val ++ [flag]) 33 = some (R.val ++ [flag]) := by
      have h33 : ([11] ++ h.val : List Byte).length = 33 := by simp [hh]
      unfold sliceFrom
      rw [if_pos (by omega), List.append_assoc ([11] ++ h.val), List.drop_left' h33]
    have hidx : indexAt ([11] ++ h.val ++ R.val ++ [flag]) 65 = some flag := by
      have h65 : ([11] ++ h.val ++ R.val : List Byte).length = 65 := by simp [hh, hR]
      rw [indexAt_eq_getElem?, List.getElem?_append_right (by omega), h65]
      rfl
    have htag : indexAt ([11] ++ h.val ++ R.val ++ [flag]) 0 = some 11 := by
      simp [indexAt]
    have hw : decide (flag = 1) = w := by
      subst hflag
      cases w <;> decide
    unfold parseNetworkMessage
    rw [if_neg (by omega), htag, hbody]
    simp only [hrest, hidx]
    have hbl : (h.val ++ (R.val ++ [flag])).length = 65 := by simp [hh, hR]
    simp [hbl, copy32_append, hw]
  · rw [hr]
    have hlen : ([13] ++ h.val ++ s.val).length = 65 := by simp [hh, hs]
    have hbody : sliceFrom ([13] ++ h.val ++ s.val) 1 = some (h.val ++ s.val) := by
      simp [sliceFrom]
    have hrest : sliceFrom ([13] ++ h.val ++ s.val) 33 = some s.val := by
      have h33 : ([13] ++ h.val : List Byte).length = 33 := by simp [hh]
      unfold sliceFrom
      rw [if_pos (by omega), List.drop_left' h33]
    have htag : indexAt ([13] ++ h.val ++ s.val) 0 = some 13 := by
      simp [indexAt]
    unfold parseNetworkMessage
    rw [if_neg (by omega), htag, hbody]
    simp only [hrest]
    have hbl : (h.val ++ s.val).length = 64 := by simp [hh, hs]
    simp [hbl, copy32_append, copy32_val]

end network

theorem copy64_append (x : crypto.Signature) (rest : List crypto.Byte) :
    copy64 (x.val ++ rest) = x := by
  apply Subtype.ext
  have hl := x.property
  simp only [copy64, List.take_left' hl, List.length_append, hl]
  have : 64 - (64 + rest.length) = 0 := by omega
  simp [this]

namespace network

open crypto

/-- The challenge frame without transaction is the tag, the snapshot hash,
the signature and the big-endian mask. -/
theorem buildTransactionChallengeMessage_none {Tx : Type} (marshal : Tx → List Byte)
    (h : Hash) (cosi : CosiSignature) :
    buildTransactionChallengeMessage marshal h cosi none
      = [12] ++ h.val ++ cosi.Signature.val ++ putUint64 (u64 cosi.Mask) := rfl

/-- C11: for a snapshot hash `h` and a CoSi value with a 64-bit mask,
`buildTransactionChallengeMessage(h, cosi, nil)` is the 105 bytes
`[12] ‖ h ‖ sig ‖ mask` (the mask as 8 bytes big-endian), and
`parseNetworkMessage` returns for it, without error, the message of type 12
with `SnapshotHash = h`, `Cosi = cosi` and no transaction; with a transaction
the marshalled bytes follow at offset 105 and the first 105 bytes are the
same. -/
theorem challenge_round_trip {Snap Tx SP : Type} (codec : Codec Snap Tx SP)
    (marshal : Tx → List Byte) (h : Hash) (cosi : CosiSignature) (tx : Tx)
    (hmask : cosi.Mask < 2 ^ 64) :
    buildTransactionChallengeMessage marshal h cosi none
        = [12] ++ h.val ++ cosi.Signature.val ++ putUint64 cosi.Mask ∧
    (buildTransactionChallengeMessage marshal h cosi none).length = 105 ∧
    parseNetworkMessage codec (buildTransactionChallengeMessage marshal h cosi none)
        = some (.ok { (PeerMessage.ofType 12 : PeerMessage Snap Tx SP) with
            SnapshotHash := h, Cosi := cosi, Transaction := none }) ∧
    buildTransactionChallengeMessage marshal h cosi (some tx)
        = buildTransactionChallengeMessage marshal h cosi none ++ marshal tx ∧
    (buildTransactionChallengeMessage marshal h cosi (some tx)).take 105
        = buildTransactionChallengeMessage marshal h cosi none ∧
    (buildTransactionChallengeMessage marshal h cosi (some tx)).drop 105 = marshal tx := by
  have hu : u64 cosi.Mask = cosi.Mask := Nat.mod_eq_of_lt hmask
  have hb := buildTransactionChallengeMessage_none marshal h cosi
  rw [hu] at hb
  have hsome : buildTransactionChallengeMessage marshal h cosi (some tx)
      = buildTransactionChallengeMessage marshal h cosi none ++ marshal tx := rfl
  have hh := h.property
  have hs := cosi.Signature.property
  have hm : (putUint64 cosi.Mask).length = 8 := rfl
  have hlen : (buildTransactionChallengeMessage marshal h cosi none).length = 105 := by
    rw [hb]
    simp [hh, hs, hm]
  refine ⟨hb, hlen, ?_, hsome, ?_, ?_⟩
  · rw [hb]
    generalize hmb : putUint64 cosi.Mask = maskBytes at *
    have hdec : bigEndianUint64 maskBytes = cosi.Mask := by
      rw [← hmb]
      exact bigEndianUint64_putUint64 _ hmask
    have hbody : sliceFrom ([12] ++ h.val ++ cosi.Signature.val ++ maskBytes) 1
        = some (h.val ++ (cosi.Signature.val ++ maskBytes)) := by
      simp [sliceFrom]
    have hrest : sliceFrom ([12] ++ h.val ++ cosi.Signature.val ++ maskBytes) 33
        = some (cosi.Signature.val ++ maskBytes) := by
      have h33 : ([12] ++ h.val : List Byte).length = 33 := by simp [hh]
      unfold sliceFrom
      rw [if_pos (by rw [← hb]; omega), List.append_assoc ([12] ++ h.val), List.drop_left' h33]
    have hmaskSlice : sliceRange ([12] ++ h.val ++ cosi.Signature.val ++ maskBytes) 97 105
        = some maskBytes := by
      have h97 : ([12] ++ h.val ++ cosi.Signature.val : List Byte).length = 97 := by
        simp [hh, hs]
      have h105 : ([12] ++ h.val ++ cosi.Signature.val ++ maskBytes).length = 105 := by
        rw [← hb]; exact hlen
      unfold sliceRange
      rw [if_pos ⟨by omega, by omega⟩, List.take_of_length_le (by omega), List.drop_left' h97]
    have htag : indexAt ([12] ++ h.val ++ cosi.Signature.val ++ maskBytes) 0 = some 12 := by
      simp [indexAt]
    have hbl : (h.val ++ (cosi.Signature.val ++ maskBytes)).length = 104 := by
      simp [hh, hs, hm]
    have h1 : ¬ ([12] ++ h.val ++ cosi.Signature.val ++ maskBytes).length < 1 := by
      rw [← hb]; omega
    unfold parseNetworkMessage
    rw [if_neg h1, htag, hbody]
    simp only [hrest, hmaskSlice]
    simp [hbl, copy32_append, copy64_append, hdec, PeerMessage.ofType]
  · rw [hsome]
    exact List.take_left' hlen
  · rw [hsome]
    exact List.drop_left' hlen

/-- C11, at the sample signature, no transaction and the decoders of
`sample.unitCodec`. -/
theorem challenge_round_trip_witness :
    parseNetworkMessage sample.unitCodec
        (buildTransactionChallengeMessage (fun (_ : Unit) => ([] : List Byte)) (sample.fill 5)
          sample.cosi none)
      = some (.ok { (PeerMessage.ofType 12 : PeerMessage Unit Unit Unit) with
          SnapshotHash := sample.fill 5, Cosi := sample.cosi, Transaction := none }) :=
  (challenge_round_trip sample.unitCodec (fun (_ : Unit) => ([] : List Byte)) (sample.fill 5)
    sample.cosi () (by decide)).2.2.1

theorem parseNetworkMessage_cons (tag : Byte) (body : List Byte) :
    indexAt (tag :: body) 0 = some tag ∧ sliceFrom (tag :: body) 1 = some body ∧
      ¬ (tag :: body).length < 1 := by
  refine ⟨by simp [indexAt], by simp [sliceFrom], by simp⟩

theorem parseNetworkMessage_type {Snap Tx SP : Type} (codec : Codec Snap Tx SP) (tag : Byte)
    (body : List Byte) (msg : PeerMessage Snap Tx SP)
    (h : parseNetworkMessage codec (tag :: body) = some (.ok msg)) : msg.MessageType = tag := by
  obtain ⟨h0, h1, h2⟩ := parseNetworkMessage_cons tag body
  unfold parseNetworkMessage at h
  rw [if_neg h2, h0, h1] at h
  simp only at h
  by_cases t4 : tag = 4
  · rw [if_pos t4] at h
    cases hc : codec.unmarshalFinalCache body <;> rw [hc] at h <;> cases h
    rfl
  rw [if_neg t4] at h
  by_cases t1 : tag = 1
  · rw [if_pos t1] at h; cases h; rfl
  rw [if_neg t1] at h
  by_cases t3 : tag = 3
  · rw [if_pos t3] at h; cases h; rfl
  rw [if_neg t3] at h
  by_cases t5 : tag = 5
  · rw [if_pos t5] at h; cases h; rfl
  rw [if_neg t5] at h
  by_cases t7 : tag = 7
  · rw [if_pos t7] at h
    cases hc : codec.unmarshalVersionedTransaction body <;> rw [hc] at h <;> cases h
    rfl
  rw [if_neg t7] at h
  by_cases t6 : tag = 6
  · rw [if_pos t6] at h; cases h; rfl
  rw [if_neg t6] at h
  by_cases t10 : tag = 10
  · rw [if_pos t10] at h
    by_cases hl : body.length ≤ 32
    · rw [if_pos hl] at h; cases h
    · rw [if_neg hl] at h
      cases hs : sliceFrom (tag :: body) 33 with
      | none => rw [hs] at h; cases h
      | some rest =>
        rw [hs] at h
        cases hc : codec.unmarshalSnapshot rest <;> simp only [hc] at h <;> cases h
        rfl
  rw [if_neg t10] at h
  by_cases t11 : tag = 11
  · rw [if_pos t11] at h
    by_cases hl : body.length ≠ 65
    · rw [if_pos hl] at h; cases h
    · rw [if_neg hl] at h
      cases hs : sliceFrom (tag :: body) 33 <;> cases hi : indexAt (tag :: body) 65 <;>
        simp only [hs, hi] at h <;> cases h
      rfl
  rw [if_neg t11] at h
  by_cases t12 : tag = 12
  · rw [if_pos t12] at h
    by_cases hl : body.length < 104
    · rw [if_pos hl] at h; cases h
    · rw [if_neg hl] at h
      cases hs : sliceFrom (tag :: body) 33 <;> cases hi : sliceRange (tag :: body) 97 105 <;>
        simp only [hs, hi] at h <;> try cases h
      by_cases hg : body.length > 104
      · rw [if_pos hg] at h
        cases ht : sliceFrom (tag :: body) 105 with
        | none => rw [ht] at h; cases h
        | some txBytes =>
          rw [ht] at h
          cases hc : codec.unmarshalVersionedTransaction txBytes <;> simp only [hc] at h <;>
            cases h
          rfl
      · rw [if_neg hg] at h; cases h; rfl
  rw [if_neg t12] at h
  by_cases t13 : tag = 13
  · rw [if_pos t13] at h
    by_cases hl : body.length ≠ 64
    · rw [if_pos hl] at h; cases h
    · rw [if_neg hl] at h
      cases hs : sliceFrom (tag :: body) 33 <;> simp only [hs] at h <;> cases h
      rfl
  rw [if_neg t13] at h
  by_cases t14 : tag = 14
  · rw [if_pos t14] at h
    cases hc : codec.unmarshalSnapshot body <;> rw [hc] at h <;> cases h
    rfl
  rw [if_neg t14] at h
  cases h
  rfl

/-- C12: `parseNetworkMessage` returns an error, and no message, for the
empty input, for a commitment (tag 11) whose payload is not 65 bytes, for a
response (tag 13) whose payload is not 64 bytes, for a challenge (tag 12)
whose payload is shorter than 104 bytes and for an announcement (tag 10)
whose payload is 32 bytes or shorter; and the `Type` of every message it
returns is the first byte of the input. -/
theorem parseNetworkMessage_rejects {Snap Tx SP : Type} (codec : Codec Snap Tx SP)
    (data : List Byte) :
    (data = [] → parseNetworkMessage codec data = some (.error .invalidMessageData)) ∧
    (∀ body, data = 11 :: body → body.length ≠ 65 →
      parseNetworkMessage codec data = some (.error (.invalidCommitmentSize body.length))) ∧
    (∀ body, data = 13 :: body → body.length ≠ 64 →
      parseNetworkMessage codec data = some (.error (.invalidResponseSize body.length))) ∧
    (∀ body, data = 12 :: body → body.length < 104 →
      parseNetworkMessage codec data = some (.error (.invalidChallengeSize body.length))) ∧
    (∀ body, data = 10 :: body → body.length ≤ 32 →
      parseNetworkMessage codec data = some (.error (.invalidAnnouncementSize body.length))) ∧
    (∀ tag body msg, data = tag :: body → parseNetworkMessage codec data = some (.ok msg) →
      msg.MessageType = tag) := by
  refine ⟨?_, ?_, ?_, ?_, ?_, ?_⟩
  · intro h
    subst h
    rfl
  · intro body hd hl
    subst hd
    obtain ⟨h0, h1, h2⟩ := parseNetworkMessage_cons 11 body
    unfold parseNetworkMessage
    rw [if_neg h2, h0, h1]
    simp [hl]
  · intro body hd hl
    subst hd
    obtain ⟨h0, h1, h2⟩ := parseNetworkMessage_cons 13 body
    unfold parseNetworkMessage
    rw [if_neg h2, h0, h1]
    simp [hl]
  · intro body hd hl
    subst hd
    obtain ⟨h0, h1, h2⟩ := parseNetworkMessage_cons 12 body
    unfold parseNetworkMessage
    rw [if_neg h2, h0, h1]
    simp [hl]
  · intro body hd hl
    subst hd
    obtain ⟨h0, h1, h2⟩ := parseNetworkMessage_cons 10 body
    unfold parseNetworkMessage
    rw [if_neg h2, h0, h1]
    simp [hl]
  · intro tag body msg hd h
    subst hd
    exact parseNetworkMessage_type codec tag body msg h

/-- C12, at the frame of tag 11 with a payload of two bytes. -/
theorem parseNetworkMessage_rejects_witness :
    parseNetworkMessage sample.unitCodec [11, 0, 0] = some (.error (.invalidCommitmentSize 2)) :=
  (parseNetworkMessage_rejects sample.unitCodec [11, 0, 0]).2.1 [0, 0] rfl (by decide)

end network

/-! ## Sync points and best round -/

namespace kernel

open crypto

theorem broadcastLoop_count (node : Node) (final : Nat) (keys : List Hash) (count : Nat) :
    broadcastLoop node final keys count = count + keys.countP (reported node final) := by
  induction keys generalizing count with
  | nil => simp [broadcastLoop]
  | cons id rest ih =>
    unfold broadcastLoop
    rw [List.countP_cons]
    cases hg : mapGet node.SyncPoints id with
    | none =>
      simp only [reported, hg]
      rw [ih]
      simp
    | some remote =>
      simp only [reported, hg]
      by_cases hr : u64 (remote.Number + 1) ≥ final
      · rw [if_pos hr, ih]
        simp [hr]
        omega
      · rw [if_neg hr, ih]
        simp [hr]

/-- C20 as worded fails: among four accepted nodes the threshold is 3; two
consensus peers have reported `remote.Number + 1 ≥ MyFinalNumber`, fewer than
the threshold, and `CheckBroadcastedToPeers` returns true. -/
theorem CheckBroadcastedToPeers_counts_self :
    ConsensusThreshold sample.config sample.toyCrypto sample.broadcastNode 100 0 = some 3 ∧
    (mapKeys sample.broadcastNode.ConsensusNodes).countP
        (reported sample.broadcastNode sample.broadcastNode.Graph.MyFinalNumber) = 2 ∧
    CheckBroadcastedToPeers sample.config sample.toyCrypto sample.broadcastNode 100
      = some true := by
  decide

/-- C20, amended: when `ConsensusThreshold(0)` returns the threshold,
`CheckBroadcastedToPeers` returns true if and only if one (the node itself)
plus the number of consensus peers whose recorded sync point satisfies
`remote.Number + 1 ≥ MyFinalNumber` is at least that threshold. -/
theorem CheckBroadcastedToPeers_iff (cfg : Config) (cr : Crypto) (node : Node)
    (nowNano threshold : Nat)
    (hth : ConsensusThreshold cfg cr node nowNano 0 = some threshold) :
    ∃ b, CheckBroadcastedToPeers cfg cr node nowNano = some b ∧
      (b = true ↔
        threshold ≤ 1 + (mapKeys node.ConsensusNodes).countP
          (reported node node.Graph.MyFinalNumber)) := by
  unfold CheckBroadcastedToPeers
  rw [hth]
  refine ⟨_, rfl, ?_⟩
  rw [broadcastLoop_count]
  simp

/-- C20, amended, at `sample.broadcastNode`: the threshold 3 is met by the
node and two peers. -/
theorem CheckBroadcastedToPeers_iff_witness :
    ∃ b, CheckBroadcastedToPeers sample.config sample.toyCrypto sample.broadcastNode 100
        = some b ∧
      (b = true ↔
        3 ≤ 1 + (mapKeys sample.broadcastNode.ConsensusNodes).countP
          (reported sample.broadcastNode sample.broadcastNode.Graph.MyFinalNumber)) :=
  CheckBroadcastedToPeers_iff sample.config sample.toyCrypto sample.broadcastNode 100 3
    (by decide)

theorem determinBestStep_cons (cfg : Config) (node : Node) (roundTime nowNano : Nat)
    (acc : BestAcc) (id : Hash) (r0 : FinalRound) (tl : List FinalRound) :
    determinBestStep cfg node roundTime nowNano acc id (r0 :: tl)
      = some (if eligible cfg node roundTime nowNano id (r0 :: tl)
            && (decide ((r0 :: tl).length > acc.height)
                || (decide ((r0 :: tl).length = acc.height) && decide (r0.Start > acc.start)))
          then { best := some r0, start := r0.Start, height := (r0 :: tl).length }
          else acc) := by
  unfold determinBestStep eligible
  simp only [Bool.and_eq_true, Bool.or_eq_true, decide_eq_true_eq, Bool.not_eq_true',
    ne_eq, gt_iff_lt]
  generalize hrh : (r0 :: tl).length = rh
  split_ifs with h1 h2 h3 h4 h5 h6 h6 h6 h6 h6 h6
  all_goals first
    | rfl
    | (exfalso; simp_all; done)
    | (exfalso; simp_all; omega)
    | (exfalso; omega)
    | (exfalso; cases hgen : node.isGenesis id <;> simp_all <;> omega)

theorem bestInv_step (cfg : Config) (node : Node) (roundTime nowNano : Nat)
    (seen : List (Hash × List FinalRound)) (acc : BestAcc) (id : Hash) (r0 : FinalRound)
    (tl : List FinalRound) (hinv : bestInv cfg node roundTime nowNano seen acc) :
    bestInv cfg node roundTime nowNano (seen ++ [(id, r0 :: tl)])
      (if eligible cfg node roundTime nowNano id (r0 :: tl)
            && (decide ((r0 :: tl).length > acc.height)
                || (decide ((r0 :: tl).length = acc.height) && decide (r0.Start > acc.start)))
          then { best := some r0, start := r0.Start, height := (r0 :: tl).length }
          else acc) := by
  obtain ⟨hnone, hsome, hmax⟩ := hinv
  by_cases hc : (eligible cfg node roundTime nowNano id (r0 :: tl)
      && (decide ((r0 :: tl).length > acc.height)
          || (decide ((r0 :: tl).length = acc.height) && decide (r0.Start > acc.start))))
      = true
  · rw [if_pos hc]
    simp only [Bool.and_eq_true, Bool.or_eq_true, decide_eq_true_eq] at hc
    obtain ⟨hel, hgt⟩ := hc
    refine ⟨(fun h => nomatch h), ?_, ?_⟩
    · intro r hr
      simp only [Option.some.injEq] at hr
      subst hr
      exact ⟨(id, r0 :: tl), by simp, hel, rfl, rfl, rfl⟩
    · intro e he hele
      rcases List.mem_append.mp he with he | he
      · have hp := hmax e he hele
        unfold pairLe at hp ⊢
        simp only
        omega
      · simp only [List.mem_singleton] at he
        subst he
        unfold pairLe entryStart
        simp
  · rw [if_neg hc]
    simp only [Bool.and_eq_true, Bool.or_eq_true, decide_eq_true_eq, not_and, not_or] at hc
    refine ⟨?_, ?_, ?_⟩
    · intro hb
      obtain ⟨hh, hs, hall⟩ := hnone hb
      refine ⟨hh, hs, ?_⟩
      intro e he
      rcases List.mem_append.mp he with he | he
      · exact hall e he
      · simp only [List.mem_singleton] at he
        subst he
        by_contra hne
        have hel : eligible cfg node roundTime nowNano id (r0 :: tl) = true := by
          simpa using hne
        have := (hc hel).1
        simp only [List.length_cons] at this
        omega
    · intro r hr
      obtain ⟨e, he, h1, h2, h3, h4⟩ := hsome r hr
      exact ⟨e, List.mem_append_left _ he, h1, h2, h3, h4⟩
    · intro e he hele
      rcases List.mem_append.mp he with he | he
      · exact hmax e he hele
      · simp only [List.mem_singleton] at he
        subst he
        have := hc hele
        unfold pairLe entryStart
        simp only
        omega

theorem determinBestLoop_inv (cfg : Config) (node : Node) (roundTime nowNano : Nat) :
    ∀ (l seen : List (Hash × List FinalRound)) (acc : BestAcc),
      (∀ e ∈ l, e.2 ≠ []) → bestInv cfg node roundTime nowNano seen acc →
      ∃ acc', determinBestLoop cfg node roundTime nowNano l acc = some acc' ∧
        bestInv cfg node roundTime nowNano (seen ++ l) acc'
  | [], seen, acc, _, hinv => ⟨acc, rfl, by simpa using hinv⟩
  | (id, rounds) :: rest, seen, acc, hne, hinv => by
    cases rounds with
    | nil => exact absurd rfl (hne (id, []) (List.mem_cons_self _ _))
    | cons r0 tl =>
      have hstep := bestInv_step cfg node roundTime nowNano seen acc id r0 tl hinv
      obtain ⟨acc', hloop, hinv'⟩ := determinBestLoop_inv cfg node roundTime nowNano rest
        (seen ++ [(id, r0 :: tl)]) _ (fun e he => hne e (List.mem_cons_of_mem _ he)) hstep
      refine ⟨acc', ?_, by simpa using hinv'⟩
      unfold determinBestLoop
      rw [determinBestStep_cons]
      exact hloop

theorem bestInv_init (cfg : Config) (node : Node) (roundTime nowNano : Nat) :
    bestInv cfg node roundTime nowNano [] { best := none, start := 0, height := 0 } := by
  refine ⟨fun _ => ⟨rfl, rfl, (by simp)⟩, (fun r h => nomatch h), (by simp)⟩

/-- C19: when every history of the round graph is non-empty,
`determinBestRound(roundTime)` returns, and it returns `nil` if and only if
no node is eligible (not the local node; a genesis node or
`rounds[0].Number ≥ 7 + 2 * SnapshotReferenceThreshold`;
`rounds[0].Start ≤ roundTime`;
`rounds[0].Start + SnapshotRoundGap * len(rounds) ≤ now`, in `uint64`
arithmetic). Otherwise it returns `rounds[0]` of an eligible node whose pair
(`len(rounds)`, `rounds[0].Start`) is the value of the locals (`height`,
`start`) and is lexicographically maximal among the eligible nodes; and for
every other order of the entries of the map the loop ends with the same pair
and returns `nil` in the same cases. -/
theorem determinBestRound_maximal (cfg : Config) (node : Node) (roundTime nowNano : Nat)
    (hne : ∀ e ∈ node.Graph.RoundHistory, e.2 ≠ []) :
    ∃ acc, determinBestLoop cfg node roundTime nowNano node.Graph.RoundHistory
          { best := none, start := 0, height := 0 } = some acc ∧
      determinBestRound cfg node roundTime nowNano = some acc.best ∧
      (acc.best = none ↔
        ∀ e ∈ node.Graph.RoundHistory, eligible cfg node roundTime nowNano e.1 e.2 = false) ∧
      (∀ r, acc.best = some r →
        ∃ e ∈ node.Graph.RoundHistory, eligible cfg node roundTime nowNano e.1 e.2 = true ∧
          e.2.head? = some r ∧ e.2.length = acc.height ∧ r.Start = acc.start ∧
          ∀ e' ∈ node.Graph.RoundHistory, eligible cfg node roundTime nowNano e'.1 e'.2 = true →
            pairLe e'.2.length (entryStart e'.2) e.2.length r.Start) ∧
      (∀ history, List.Perm node.Graph.RoundHistory history →
        ∃ acc', determinBestLoop cfg node roundTime nowNano history
              { best := none, start := 0, height := 0 } = some acc' ∧
          (acc'.best = none ↔ acc.best = none) ∧
          acc'.height = acc.height ∧ acc'.start = acc.start) := by
  obtain ⟨acc, hloop, hinv⟩ := determinBestLoop_inv cfg node roundTime nowNano
    node.Graph.RoundHistory [] _ hne (bestInv_init cfg node roundTime nowNano)
  simp only [List.nil_append] at hinv
  obtain ⟨hnone, hsome, hmax⟩ := hinv
  have hiff : acc.best = none ↔
      ∀ e ∈ node.Graph.RoundHistory, eligible cfg node roundTime nowNano e.1 e.2 = false := by
    constructor
    · intro h
      exact (hnone h).2.2
    · intro h
      cases hb : acc.best with
      | none => rfl
      | some r =>
        obtain ⟨e, he, hel, _⟩ := hsome r hb
        rw [h e he] at hel
        cases hel
  refine ⟨acc, hloop, ?_, hiff, ?_, ?_⟩
  · unfold determinBestRound
    rw [hloop]
  · intro r hr
    obtain ⟨e, he, hel, hhead, hlen, hstart⟩ := hsome r hr
    refine ⟨e, he, hel, hhead, hlen, hstart, ?_⟩
    intro e' he' hel'
    rw [hlen, hstart]
    exact hmax e' he' hel'
  · intro history hp
    have hne' : ∀ e ∈ history, e.2 ≠ [] := fun e he => hne e (hp.mem_iff.mpr he)
    obtain ⟨acc', hloop', hinv'⟩ := determinBestLoop_inv cfg node roundTime nowNano
      history [] _ hne' (bestInv_init cfg node roundTime nowNano)
    simp only [List.nil_append] at hinv'
    obtain ⟨hnone', hsome', hmax'⟩ := hinv'
    have hiff' : acc'.best = none ↔ acc.best = none := by
      constructor
      · intro h
        exact hiff.mpr (fun e he => (hnone' h).2.2 e (hp.mem_iff.mp he))
      · intro h
        cases hb : acc'.best with
        | none => rfl
        | some r =>
          obtain ⟨e, he, hel, _⟩ := hsome' r hb
          rw [(hnone h).2.2 e (hp.mem_iff.mpr he)] at hel
          cases hel
    refine ⟨acc', hloop', hiff', ?_⟩
    cases hb : acc.best with
    | none =>
      have hb' := hiff'.mpr hb
      obtain ⟨h1, h2, _⟩ := hnone hb
      obtain ⟨h1', h2', _⟩ := hnone' hb'
      omega
    | some r =>
      cases hb' : acc'.best with
      | none =>
        rw [hiff'.mp hb'] at hb
        cases hb
      | some r' =>
        obtain ⟨e, he, hel, hhead, hlen, hstart⟩ := hsome r hb
        obtain ⟨e', he', hel', hhead', hlen', hstart'⟩ := hsome' r' hb'
        have hes : entryStart e.2 = r.Start := by
          cases hr : e.2 with
          | nil => rw [hr] at hhead; cases hhead
          | cons x xs =>
            rw [hr] at hhead
            simp only [List.head?_cons, Option.some.injEq] at hhead
            rw [← hhead]
            rfl
        have hes' : entryStart e'.2 = r'.Start := by
          cases hr : e'.2 with
          | nil => rw [hr] at hhead'; cases hhead'
          | cons x xs =>
            rw [hr] at hhead'
            simp only [List.head?_cons, Option.some.injEq] at hhead'
            rw [← hhead']
            rfl
        have hle := hmax' e (hp.mem_iff.mp he) hel
        have hle' := hmax e' (hp.mem_iff.mpr he') hel'
        unfold pairLe at hle hle'
        rw [hes, hlen, hstart] at hle
        rw [hes', hlen', hstart'] at hle'
        omega

/-- C19, at `sample.bestNode`, round time 100 and the clock at `10 ^ 11`:
the first round of the genesis node `fill 3` is returned. -/
theorem determinBestRound_maximal_witness :
    determinBestRound sample.config sample.bestNode 100 100000000000
      = some (some (sample.round 3 4 20)) ∧
    ∃ acc, determinBestLoop sample.config sample.bestNode 100 100000000000
          sample.bestNode.Graph.RoundHistory { best := none, start := 0, height := 0 }
          = some acc ∧
      determinBestRound sample.config sample.bestNode 100 100000000000 = some acc.best ∧
      (acc.best = none ↔
        ∀ e ∈ sample.bestNode.Graph.RoundHistory,
          eligible sample.config sample.bestNode 100 100000000000 e.1 e.2 = false) ∧
      (∀ r, acc.best = some r →
        ∃ e ∈ sample.bestNode.Graph.RoundHistory,
          eligible sample.config sample.bestNode 100 100000000000 e.1 e.2 = true ∧
          e.2.head? = some r ∧ e.2.length = acc.height ∧ r.Start = acc.start ∧
          ∀ e' ∈ sample.bestNode.Graph.RoundHistory,
            eligible sample.config sample.bestNode 100 100000000000 e'.1 e'.2 = true →
            pairLe e'.2.length (entryStart e'.2) e.2.length r.Start) ∧
      (∀ history, List.Perm sample.bestNode.Graph.RoundHistory history →
        ∃ acc', determinBestLoop sample.config sample.bestNode 100 100000000000 history
              { best := none, start := 0, height := 0 } = some acc' ∧
          (acc'.best = none ↔ acc.best = none) ∧
          acc'.height = acc.height ∧ acc'.start = acc.start) :=
  ⟨by decide,
    determinBestRound_maximal sample.config sample.bestNode 100 100000000000 (by decide)⟩

end kernel

/-! ## Topology index and mint locks -/

namespace storage

open crypto

theorem beUint64_putUint64 (n : Nat) (hn : n < 2 ^ 64) : beUint64 (putUint64 n) = some n := by
  unfold beUint64
  rw [if_neg (by rw [putUint64_length]; omega),
    List.take_of_length_le (by rw [putUint64_length]), bigEndianUint64_putUint64 n hn]

theorem graphTopologyOrder_key {Tx : Type} (sch : Schema Tx) (n : Nat) (hn : n < 2 ^ 64) :
    graphTopologyOrder sch (graphTopologyKey sch n) = some n := by
  unfold graphTopologyOrder graphTopologyKey sliceFrom
  simp only [List.length_append]
  rw [if_pos (Nat.le_add_right _ _), List.drop_left' rfl]
  exact beUint64_putUint64 n hn

theorem graphMintBatch_key {Tx : Type} (sch : Schema Tx) (group : List Byte) (n : Nat)
    (hn : n < 2 ^ 64) : graphMintBatch sch (graphMintKey sch group n) group = some n := by
  unfold graphMintBatch graphMintKey sliceFrom
  simp only [List.length_append]
  rw [if_pos (by omega), ← List.append_assoc, List.drop_left' (by simp)]
  exact beUint64_putUint64 n hn

/-- C16: `graphTopologyOrder(graphTopologyKey(n)) = n` for every 64-bit `n`;
after `writeTopology(snap)` the reverse index at
`graphSnapTopologyKey(snap.PayloadHash())` holds
`graphTopologyKey(snap.TopologicalOrder)` and the topology index at that key
holds `graphSnapshotKey(snap.NodeId, snap.RoundNumber, snap.Transaction)`; and
on a store that holds the snapshot payload under that key,
`readSnapshotWithTopo(snap.PayloadHash())` returns the stored snapshot with
`Hash` that hash and `TopologicalOrder = snap.TopologicalOrder`. The keys of
the two indexes are taken to be distinct. -/
theorem topology_index_round_trip {Tx : Type} (sch : Schema Tx) (txn : Txn)
    (snap : common.SnapshotWithTopologicalOrder) (n : Nat) (v : List Byte)
    (d : common.SnapshotWithTopologicalOrder)
    (hn : n < 2 ^ 64) (horder : snap.TopologicalOrder < 2 ^ 64)
    (hkeys : graphSnapTopologyKey sch (sch.payloadHash snap.Snapshot)
      ≠ graphTopologyKey sch snap.TopologicalOrder)
    (hpayload : mapGet (writeTopology sch txn snap)
        (sch.graphSnapshotKey snap.Snapshot.NodeId snap.Snapshot.RoundNumber
          snap.Snapshot.Transaction) = some v)
    (hdecode : sch.unmarshalSnapshot v = .ok d) :
    graphTopologyOrder sch (graphTopologyKey sch n) = some n ∧
    mapGet (writeTopology sch txn snap) (graphSnapTopologyKey sch (sch.payloadHash snap.Snapshot))
      = some (graphTopologyKey sch snap.TopologicalOrder) ∧
    mapGet (writeTopology sch txn snap) (graphTopologyKey sch snap.TopologicalOrder)
      = some (sch.graphSnapshotKey snap.Snapshot.NodeId snap.Snapshot.RoundNumber
          snap.Snapshot.Transaction) ∧
    readSnapshotWithTopo sch (writeTopology sch txn snap) (sch.payloadHash snap.Snapshot)
      = some (.ok { Snapshot := { d.Snapshot with Hash := sch.payloadHash snap.Snapshot },
                    TopologicalOrder := snap.TopologicalOrder }) := by
  have hrev : mapGet (writeTopology sch txn snap)
      (graphSnapTopologyKey sch (sch.payloadHash snap.Snapshot))
      = some (graphTopologyKey sch snap.TopologicalOrder) := by
    unfold writeTopology
    simp only [mapGet_mapSet, if_true]
  have hfwd : mapGet (writeTopology sch txn snap) (graphTopologyKey sch snap.TopologicalOrder)
      = some (sch.graphSnapshotKey snap.Snapshot.NodeId snap.Snapshot.RoundNumber
          snap.Snapshot.Transaction) := by
    unfold writeTopology
    simp only [mapGet_mapSet, if_neg hkeys, if_true]
  refine ⟨graphTopologyOrder_key sch n hn, hrev, hfwd, ?_⟩
  unfold readSnapshotWithTopo
  rw [hrev]
  simp only [hfwd, hpayload, hdecode, graphTopologyOrder_key sch _ horder]

/-- C16, at the toy snapshot of order 7 written to `sample.payloadStore`. -/
theorem topology_index_round_trip_witness :
    readSnapshotWithTopo sample.toySchema
        (writeTopology sample.toySchema sample.payloadStore (sample.snapshot 1 6 3 7))
        (sample.fill 6)
      = some (.ok { Snapshot := { (sample.snapshot 1 6 3 0).Snapshot with Hash := sample.fill 6 },
                    TopologicalOrder := 7 }) :=
  (topology_index_round_trip sample.toySchema sample.payloadStore (sample.snapshot 1 6 3 7) 7
    (sample.snapshotBytes 1 6 3) (sample.snapshot 1 6 3 0)
    (by decide) (by decide) (by decide) (by decide) rfl).2.2.2

theorem LockMintInput_eq {Tx : Type} (sch : Schema Tx) (store : Txn) (mint : common.MintData)
    (tx : Hash) (fork : Bool) :
    LockMintInput sch store mint tx fork
      = match lockMintInputTxn sch store mint tx fork with
        | .ok store1 => (store1, none)
        | .error e => (store, some e) := rfl

theorem readMintInput_of_get {Tx : Type} (sch : Schema Tx) (txn : Txn) (mint : common.MintData)
    (v : List Byte) (dist : common.MintDistribution)
    (hget : mapGet txn (graphMintKey sch mint.Group mint.Batch) = some v)
    (hdecode : sch.unmarshalMintDistribution v = .ok dist) :
    readMintInput sch txn mint = .ok dist := by
  unfold readMintInput
  simp only [hget, hdecode]

theorem mintLockedText_contains {Tx : Type} (sch : Schema Tx) (dist : common.MintDistribution) :
    (sch.hashString dist.Transaction).data <:+: (mintLockedText sch dist).data := by
  unfold mintLockedText
  simp only [String.data_append]
  exact ⟨"mint locked for transaction ".data,
    " amount ".data ++ (sch.amountString dist.Amount).data, by simp⟩

/-- C13: on a store with no entry for (group, batch),
`LockMintInput(mint, A, false)` returns no error and stores
`mint.Distribute(A)` under `graphMintKey(group, batch)`; a following
`LockMintInput` for the same (group, batch) with another transaction `B` and
`fork = false` returns an error whose message contains the string form of `A`,
and leaves the store as it was: the key still maps to the distribution of `A`.
The decoder is taken to read back what the encoder wrote. -/
theorem LockMintInput_refuses_collision {Tx : Type} (sch : Schema Tx) (store : Txn)
    (mint mint' : common.MintData) (A B : Hash)
    (hfree : mapGet store (graphMintKey sch mint.Group mint.Batch) = none)
    (hgroup : mint'.Group = mint.Group) (hbatch : mint'.Batch = mint.Batch)
    (hAB : A ≠ B)
    (hcodec : sch.unmarshalMintDistribution (sch.marshalMintDistribution (mint.Distribute A))
      = .ok (mint.Distribute A)) :
    LockMintInput sch store mint A false
      = (mapSet store (graphMintKey sch mint.Group mint.Batch)
          (sch.marshalMintDistribution (mint.Distribute A)), none) ∧
    ∃ text, LockMintInput sch (LockMintInput sch store mint A false).1 mint' B false
        = ((LockMintInput sch store mint A false).1, some (.message text)) ∧
      (sch.hashString A).data <:+: text.data ∧
      mapGet (LockMintInput sch store mint A false).1 (graphMintKey sch mint.Group mint.Batch)
        = some (sch.marshalMintDistribution (mint.Distribute A)) := by
  have hfirst : LockMintInput sch store mint A false
      = (mapSet store (graphMintKey sch mint.Group mint.Batch)
          (sch.marshalMintDistribution (mint.Distribute A)), none) := by
    rw [LockMintInput_eq]
    unfold lockMintInputTxn readMintInput
    simp only [hfree, writeMintDistribution]
  refine ⟨hfirst, ?_⟩
  rw [hfirst]
  simp only
  have hget : mapGet (mapSet store (graphMintKey sch mint.Group mint.Batch)
      (sch.marshalMintDistribution (mint.Distribute A)))
      (graphMintKey sch mint'.Group mint'.Batch)
      = some (sch.marshalMintDistribution (mint.Distribute A)) := by
    rw [hgroup, hbatch, mapGet_mapSet, if_pos rfl]
  have hread := readMintInput_of_get sch _ mint' _ _ hget hcodec
  refine ⟨mintLockedText sch (mint.Distribute A), ?_,
    mintLockedText_contains sch (mint.Distribute A), ?_⟩
  · rw [LockMintInput_eq]
    unfold lockMintInputTxn
    rw [hread]
    have hne : ¬ ((mint.Distribute A).Transaction = B ∧ (mint.Distribute A).Amount = mint'.Amount) :=
      fun h => hAB h.1
    simp only [if_neg hne, Bool.not_false, if_true]
  · rw [mapGet_mapSet, if_pos rfl]

/-- C13, at the empty store and the sample mint, locked by `fill 10` and then
asked for by `fill 11`. -/
theorem LockMintInput_refuses_collision_witness :
    ∃ text, LockMintInput sample.toySchema
          (LockMintInput sample.toySchema [] sample.mint (sample.fill 10) false).1
          sample.mint (sample.fill 11) false
        = ((LockMintInput sample.toySchema [] sample.mint (sample.fill 10) false).1,
            some (.message text)) ∧
      (sample.toySchema.hashString (sample.fill 10)).data <:+: text.data ∧
      mapGet (LockMintInput sample.toySchema [] sample.mint (sample.fill 10) false).1
          (graphMintKey sample.toySchema sample.mint.Group sample.mint.Batch)
        = some (sample.toySchema.marshalMintDistribution
            (sample.mint.Distribute (sample.fill 10))) :=
  (LockMintInput_refuses_collision sample.toySchema [] sample.mint sample.mint
    (sample.fill 10) (sample.fill 11) rfl rfl rfl (by decide) rfl).2

/-- C14: when (group, batch) is locked by a distribution whose transaction `A`
differs from the supplied `B`, `LockMintInput` with `fork = true` prunes `A`
and then stores `mint.Distribute(B)` under the same key, returning `nil`; when
the pruning fails it returns that error and the store is as before; and when
the distribution already has transaction `B` and the same amount, the call
returns `nil` and changes nothing, whatever the fork flag. -/
theorem LockMintInput_fork_supersedes {Tx : Type} (sch : Schema Tx) (store : Txn)
    (mint : common.MintData) (B : Hash) (fork : Bool) (v : List Byte)
    (dist : common.MintDistribution)
    (hlocked : mapGet store (graphMintKey sch mint.Group mint.Batch) = some v)
    (hdecode : sch.unmarshalMintDistribution v = .ok dist) :
    (dist.Transaction ≠ B → ∀ store1, sch.pruneTransaction store dist.Transaction = .ok store1 →
      LockMintInput sch store mint B true
        = (mapSet store1 (graphMintKey sch mint.Group mint.Batch)
            (sch.marshalMintDistribution (mint.Distribute B)), none)) ∧
    (dist.Transaction ≠ B → ∀ e, sch.pruneTransaction store dist.Transaction = .error e →
      LockMintInput sch store mint B true = (store, some e)) ∧
    (dist.Transaction = B → dist.Amount = mint.Amount →
      LockMintInput sch store mint B fork = (store, none)) := by
  have hread := readMintInput_of_get sch store mint v dist hlocked hdecode
  refine ⟨?_, ?_, ?_⟩
  · intro hne store1 hprune
    have hc : ¬ (dist.Transaction = B ∧ dist.Amount = mint.Amount) := fun h => hne h.1
    rw [LockMintInput_eq]
    unfold lockMintInputTxn
    rw [hread]
    simp only [if_neg hc, Bool.not_true, Bool.false_eq_true, if_false, hprune,
      writeMintDistribution]
  · intro hne e hprune
    have hc : ¬ (dist.Transaction = B ∧ dist.Amount = mint.Amount) := fun h => hne h.1
    rw [LockMintInput_eq]
    unfold lockMintInputTxn
    rw [hread]
    simp only [if_neg hc, Bool.not_true, Bool.false_eq_true, if_false, hprune]
  · intro htx hamount
    rw [LockMintInput_eq]
    unfold lockMintInputTxn
    rw [hread]
    simp only [if_pos (And.intro htx hamount)]

/-- C14, at `sample.lockedStore`, locked by `fill 10`, and the transaction
`fill 11` with the fork flag. -/
theorem LockMintInput_fork_supersedes_witness :
    LockMintInput sample.toySchema sample.lockedStore sample.mint (sample.fill 11) true
      = (mapSet (sample.lockedStore.filter (fun p => decide (p.1 ≠ [88] ++ (sample.fill 10).val)))
          (graphMintKey sample.toySchema sample.mint.Group sample.mint.Batch)
          (sample.toySchema.marshalMintDistribution (sample.mint.Distribute (sample.fill 11))),
        none) :=
  (LockMintInput_fork_supersedes sample.toySchema sample.lockedStore sample.mint
    (sample.fill 11) true
    (sample.toySchema.marshalMintDistribution (sample.mint.Distribute (sample.fill 10)))
    (sample.mint.Distribute (sample.fill 10)) rfl rfl).1 (by decide) _ rfl

end storage

/-! ## The iterator of the store -/

theorem mapGet_isSome_iff_mem {K V : Type} [DecidableEq K] (m : List (K × V)) (x : K) :
    (∃ v, mapGet m x = some v) ↔ x ∈ mapKeys m := by
  unfold mapKeys
  rw [List.mem_dedup]
  induction m with
  | nil => simp [mapGet]
  | cons p m ih =>
    obtain ⟨k, v⟩ := p
    by_cases h : k = x
    · simp [mapGet, h]
    · have h' : ¬ x = k := fun e => h e.symm
      simp only [mapGet, if_neg h, ih, List.map_cons, List.mem_cons, h', false_or]

theorem bytesCompare_antisymm (a b : List crypto.Byte) (h1 : bytesCompare a b ≤ 0)
    (h2 : bytesCompare b a ≤ 0) : a = b := by
  rw [bytesCompare_swap a b] at h2
  exact bytesCompare_eq_zero a b (by omega)

theorem bytesCompare_total (a b : List crypto.Byte) :
    bytesCompare a b ≤ 0 ∨ bytesCompare b a ≤ 0 := by
  rw [bytesCompare_swap a b]
  omega

namespace storage

open crypto

theorem sortedKeys_perm (txn : Txn) : List.Perm (sortedKeys txn) (mapKeys txn) :=
  List.perm_insertionSort _ _

theorem mem_sortedKeys (txn : Txn) (k : List Byte) :
    k ∈ sortedKeys txn ↔ ∃ v, mapGet txn k = some v := by
  rw [(sortedKeys_perm txn).mem_iff, mapGet_isSome_iff_mem]

theorem sortedKeys_sorted (txn : Txn) :
    List.Pairwise (fun a b => bytesCompare a b ≤ 0) (sortedKeys txn) := by
  haveI : IsTotal (List Byte) (fun a b => bytesCompare a b ≤ 0) :=
    ⟨fun a b => bytesCompare_total a b⟩
  haveI : IsTrans (List Byte) (fun a b => bytesCompare a b ≤ 0) :=
    ⟨fun a b c => bytesCompare_le_trans a b c⟩
  exact List.sorted_insertionSort (fun a b => bytesCompare a b ≤ 0) (mapKeys txn)

theorem sortedKeys_nodup (txn : Txn) : (sortedKeys txn).Nodup := by
  rw [(sortedKeys_perm txn).nodup_iff]
  exact List.nodup_dedup _

/-- The items of a list of keys that are all keys of the store. -/
theorem items_cons (txn : Txn) (k : List Byte) (v : List Byte) (ks : List (List Byte))
    (h : mapGet txn k = some v) :
    (k :: ks).filterMap (fun k => (mapGet txn k).map (fun v => (k, v)))
      = (k, v) :: ks.filterMap (fun k => (mapGet txn k).map (fun v => (k, v))) := by
  simp [List.filterMap_cons, h]

/-- After `Seek(k)` on a key of the store, the iterator is at that key. -/
theorem iterForward_head (txn : Txn) (k v : List Byte) (h : mapGet txn k = some v) :
    ∃ rest, iterForward txn k = (k, v) :: rest := by
  unfold iterForward
  have hmem : k ∈ (sortedKeys txn).filter (fun x => decide (bytesCompare k x ≤ 0)) := by
    rw [List.mem_filter]
    exact ⟨(mem_sortedKeys txn k).mpr ⟨v, h⟩, by simp [bytesCompare_self]⟩
  have hsorted : List.Pairwise (fun a b => bytesCompare a b ≤ 0)
      ((sortedKeys txn).filter (fun x => decide (bytesCompare k x ≤ 0))) :=
    (sortedKeys_sorted txn).sublist (List.filter_sublist _)
  cases hl : (sortedKeys txn).filter (fun x => decide (bytesCompare k x ≤ 0)) with
  | nil => rw [hl] at hmem; cases hmem
  | cons x xs =>
    rw [hl] at hmem hsorted
    have hkx : bytesCompare k x ≤ 0 := by
      have : x ∈ (sortedKeys txn).filter (fun x => decide (bytesCompare k x ≤ 0)) := by
        rw [hl]; exact List.mem_cons_self _ _
      simpa using (List.mem_filter.mp this).2
    have hxk : bytesCompare x k ≤ 0 := by
      rcases List.mem_cons.mp hmem with e | hin
      · rw [e, bytesCompare_self]
      · exact (List.pairwise_cons.mp hsorted).1 k hin
    have hx : x = k := bytesCompare_antisymm x k hxk hkx
    subst hx
    exact ⟨_, items_cons txn x v xs h⟩

theorem readMintLoop_full {Tx : Type} (sch : Schema Tx) (txn : Txn) (group : List Byte)
    (count : Nat) (items : List (List Byte × List Byte)) (mints : List common.MintDistribution)
    (transactions : List Tx) (h : count ≤ mints.length) :
    readMintLoop sch txn group count items mints transactions
      = some (.ok (mints, transactions)) := by
  cases items with
  | nil => rfl
  | cons item rest =>
    obtain ⟨key, ival⟩ := item
    unfold readMintLoop
    have hn : ¬ mints.length < count := by omega
    simp [hn]

theorem hasPrefix_append (pre rest : List Byte) : hasPrefix (pre ++ rest) pre = true := by
  simp [hasPrefix]

/-- C15 as worded fails: `sample.lockedStore` has batch 42 locked by the
transaction `fill 10`; `LockMintInput` for `fill 11` with the fork flag
returns no error; the transaction `fill 11` is not in the store, and
`ReadMintDistributions(group, 42, 1)` returns no distribution at all. -/
theorem ReadMintDistributions_skips_unfinalized :
    (LockMintInput sample.toySchema sample.lockedStore sample.mint (sample.fill 11) true).2
      = none ∧
    ReadMintDistributions sample.toySchema
        (LockMintInput sample.toySchema sample.lockedStore sample.mint (sample.fill 11) true).1
        sample.mint.Group 42 1
      = some (.ok ([], [])) :=
  ⟨rfl, rfl⟩

/-- C15, amended: after `LockMintInput(mint, B, fork = true)` has returned no
error on a store where the batch was locked by `A`, and when the transaction
`B` is in the resulting store (`readTransaction` returns it) and its
finalization key is present, `ReadMintDistributions(group, batch, 1)` returns
exactly the distribution of that batch, whose transaction is `B`, with the
transaction. The decoder is taken to read back what the encoder wrote. -/
theorem ReadMintDistributions_after_fork {Tx : Type} (sch : Schema Tx) (store store1 : Txn)
    (mint : common.MintData) (A B : Hash) (v fin : List Byte) (dist : common.MintDistribution)
    (txB : Tx)
    (hlocked : mapGet store (graphMintKey sch mint.Group mint.Batch) = some v)
    (hdecode : sch.unmarshalMintDistribution v = .ok dist)
    (hA : dist.Transaction = A) (hAB : A ≠ B)
    (hlock : LockMintInput sch store mint B true = (store1, none))
    (hbatch : mint.Batch < 2 ^ 64)
    (hcodec : sch.unmarshalMintDistribution (sch.marshalMintDistribution (mint.Distribute B))
      = .ok (mint.Distribute B))
    (hstored : sch.readTransaction store1 B = .ok (some txB))
    (hfinal : mapGet store1 (sch.graphFinalizationKey B) = some fin) :
    (mint.Distribute B).Transaction = B ∧ (mint.Distribute B).Batch = mint.Batch ∧
    ReadMintDistributions sch store1 mint.Group mint.Batch 1
      = some (.ok ([mint.Distribute B], [txB])) := by
  refine ⟨rfl, rfl, ?_⟩
  have hread := readMintInput_of_get sch store mint v dist hlocked hdecode
  have hc : ¬ (dist.Transaction = B ∧ dist.Amount = mint.Amount) := fun h => hAB (hA ▸ h.1)
  have hkey : mapGet store1 (graphMintKey sch mint.Group mint.Batch)
      = some (sch.marshalMintDistribution (mint.Distribute B)) := by
    rw [LockMintInput_eq] at hlock
    unfold lockMintInputTxn at hlock
    rw [hread] at hlock
    simp only [if_neg hc, Bool.not_true, Bool.false_eq_true, if_false] at hlock
    cases hp : sch.pruneTransaction store dist.Transaction with
    | error e =>
      rw [hp] at hlock
      simp only [Prod.mk.injEq, reduceCtorEq, and_false] at hlock
    | ok store2 =>
      rw [hp] at hlock
      simp only [writeMintDistribution, Prod.mk.injEq, and_true] at hlock
      rw [← hlock, mapGet_mapSet, if_pos rfl]
  obtain ⟨rest, hiter⟩ := iterForward_head store1 _ _ hkey
  unfold ReadMintDistributions
  rw [hiter]
  unfold readMintLoop
  have hpre : hasPrefix (graphMintKey sch mint.Group mint.Batch)
      (sch.graphPrefixMint ++ mint.Group) = true := by
    unfold graphMintKey
    simp only [← List.append_assoc]
    exact hasPrefix_append _ _
  have hdata : (mint.Distribute B).Transaction = B := rfl
  have hb : (mint.Distribute B).Batch = mint.Batch := rfl
  simp only [hpre, List.length_nil, Nat.lt_one_iff, decide_True, Bool.and_self, if_true, hcodec,
    graphMintBatch_key sch mint.Group mint.Batch hbatch, hdata, hb, ne_eq, not_true_eq_false,
    if_false, hstored, hfinal, List.nil_append]
  exact readMintLoop_full sch store1 mint.Group 1 rest _ _ (by simp)

/-- C15, amended, at `sample.lockedStore` with the transaction `fill 11`
stored and finalized. -/
theorem ReadMintDistributions_after_fork_witness :
    (sample.mint.Distribute (sample.fill 11)).Transaction = sample.fill 11 ∧
    (sample.mint.Distribute (sample.fill 11)).Batch = sample.mint.Batch ∧
    ReadMintDistributions sample.toySchema
        (LockMintInput sample.toySchema
          (([88] ++ (sample.fill 11).val, [1]) :: ([70] ++ (sample.fill 11).val, [1])
            :: sample.lockedStore)
          sample.mint (sample.fill 11) true).1
        sample.mint.Group sample.mint.Batch 1
      = some (.ok ([sample.mint.Distribute (sample.fill 11)], [sample.fill 11])) :=
  ReadMintDistributions_after_fork sample.toySchema
    (([88] ++ (sample.fill 11).val, [1]) :: ([70] ++ (sample.fill 11).val, [1])
      :: sample.lockedStore)
    _ sample.mint (sample.fill 10) (sample.fill 11)
    (sample.toySchema.marshalMintDistribution (sample.mint.Distribute (sample.fill 10))) [1]
    (sample.mint.Distribute (sample.fill 10)) (sample.fill 11)
    (by decide) rfl rfl (by decide) rfl (by decide) rfl rfl (by decide)

end storage

/-! ## Big-endian keys sort in numeric order -/

theorem bigEndian_foldl (l : List crypto.Byte) (acc : Nat) :
    l.foldl (fun a x => a * 256 + x.val) acc
      = acc * 256 ^ l.length + l.foldl (fun a x => a * 256 + x.val) 0 := by
  induction l generalizing acc with
  | nil => simp
  | cons x xs ih =>
    simp only [List.foldl_cons, List.length_cons]
    rw [ih (acc * 256 + x.val), ih (0 * 256 + x.val)]
    ring

theorem bigEndianUint64_cons (x : crypto.Byte) (xs : List crypto.Byte) :
    bigEndianUint64 (x :: xs) = x.val * 256 ^ xs.length + bigEndianUint64 xs := by
  unfold bigEndianUint64
  simp only [List.foldl_cons]
  rw [bigEndian_foldl xs (0 * 256 + x.val)]
  ring

theorem bigEndianUint64_lt (l : List crypto.Byte) : bigEndianUint64 l < 256 ^ l.length := by
  induction l with
  | nil => simp [bigEndianUint64]
  | cons x xs ih =>
    rw [bigEndianUint64_cons, List.length_cons, pow_succ]
    have hx : x.val < 256 := x.isLt
    nlinarith

theorem bytesCompare_le_iff (u v : List crypto.Byte) (h : u.length = v.length) :
    bytesCompare u v ≤ 0 ↔ bigEndianUint64 u ≤ bigEndianUint64 v := by
  induction u generalizing v with
  | nil =>
    cases v with
    | nil => simp [bytesCompare]
    | cons y ys => simp at h
  | cons x xs ih =>
    cases v with
    | nil => simp at h
    | cons y ys =>
      simp only [List.length_cons, Nat.add_right_cancel_iff] at h
      rw [bigEndianUint64_cons, bigEndianUint64_cons, h]
      have hxs := bigEndianUint64_lt xs
      have hys := bigEndianUint64_lt ys
      rw [h] at hxs
      have hpos : 0 < 256 ^ ys.length := by positivity
      simp only [bytesCompare]
      by_cases h1 : x < y
      · have h1' : x.val + 1 ≤ y.val := h1
        simp only [h1, if_true]
        constructor
        · intro _
          nlinarith
        · intro _
          omega
      · by_cases h2 : y < x
        · have h2' : y.val + 1 ≤ x.val := h2
          simp only [h1, h2, if_false, if_true]
          constructor
          · intro hc
            omega
          · intro hc
            nlinarith
        · have hxy : x = y := le_antisymm (not_lt.mp h2) (not_lt.mp h1)
          simp only [h1, h2, if_false]
          rw [ih ys h, hxy]
          omega

theorem bytesCompare_putUint64 (a b : Nat) (ha : a < 2 ^ 64) (hb : b < 2 ^ 64) :
    bytesCompare (putUint64 a) (putUint64 b) ≤ 0 ↔ a ≤ b := by
  rw [bytesCompare_le_iff (putUint64 a) (putUint64 b) rfl, bigEndianUint64_putUint64 a ha,
    bigEndianUint64_putUint64 b hb]

theorem bytesCompare_append_left (p u v : List crypto.Byte) :
    bytesCompare (p ++ u) (p ++ v) = bytesCompare u v := by
  induction p with
  | nil => rfl
  | cons x xs ih => simp [bytesCompare, ih]

/-- In the bytewise order a key between two keys with the prefix `p` has the
prefix `p`. -/
theorem prefix_between (p : List crypto.Byte) :
    ∀ (a x b : List crypto.Byte), bytesCompare (p ++ a) x ≤ 0 → bytesCompare x (p ++ b) ≤ 0 →
      x.take p.length = p := by
  induction p with
  | nil => intro a x b _ _; simp
  | cons c p ih =>
    intro a x b h1 h2
    cases x with
    | nil => simp [bytesCompare] at h1
    | cons d x =>
      simp only [List.cons_append, bytesCompare] at h1 h2
      by_cases hcd : c < d
      · have hdc : ¬ d < c := lt_asymm hcd
        simp [hdc, hcd] at h2
      · by_cases hdc : d < c
        · simp [hcd, hdc] at h1
        · have hcd' : c = d := le_antisymm (not_lt.mp hdc) (not_lt.mp hcd)
          simp only [hcd, hdc, if_false] at h1 h2
          simp only [List.length_cons, List.take_succ_cons, hcd', ih a x b h1 h2]

namespace storage

open crypto

theorem topoKey_le_iff {Tx : Type} (sch : Schema Tx) (a b : Nat) (ha : a < 2 ^ 64)
    (hb : b < 2 ^ 64) :
    bytesCompare (graphTopologyKey sch a) (graphTopologyKey sch b) ≤ 0 ↔ a ≤ b := by
  unfold graphTopologyKey
  simp only
  rw [bytesCompare_append_left, bytesCompare_putUint64 a b ha hb]

theorem hasPrefix_topoKey {Tx : Type} (sch : Schema Tx) (n : Nat) :
    hasPrefix (graphTopologyKey sch n) sch.graphPrefixTopology = true :=
  hasPrefix_append _ _

theorem indexOrder_topoKey {Tx : Type} (sch : Schema Tx) (n : Nat) (hn : n < 2 ^ 64) :
    indexOrder sch (graphTopologyKey sch n) = some n := by
  unfold indexOrder
  rw [hasPrefix_topoKey, if_pos rfl, graphTopologyOrder_key sch n hn]

/-- In a well-formed index a key that decodes to an order is the key of that
order. -/
theorem indexOrder_some {Tx : Type} (sch : Schema Tx) (txn : Txn)
    (hwf : wellFormedIndex sch txn) (k : List Byte) (hk : k ∈ sortedKeys txn) (n : Nat)
    (h : indexOrder sch k = some n) : n < 2 ^ 64 ∧ k = graphTopologyKey sch n := by
  unfold indexOrder at h
  by_cases hp : hasPrefix k sch.graphPrefixTopology = true
  · obtain ⟨m, hm, hkm⟩ := hwf k ((sortedKeys_perm txn).mem_iff.mp hk) hp
    rw [if_pos hp, hkm, graphTopologyOrder_key sch m hm] at h
    simp only [Option.some.injEq] at h
    subst h
    exact ⟨hm, hkm⟩
  · rw [if_neg hp] at h
    cases h

theorem sortedKeys_orders_strict {Tx : Type} (sch : Schema Tx) (txn : Txn)
    (hwf : wellFormedIndex sch txn) :
    List.Pairwise (fun a b => a < b) ((sortedKeys txn).filterMap (indexOrder sch)) := by
  rw [List.pairwise_filterMap]
  have hboth : List.Pairwise (fun a b => bytesCompare a b ≤ 0 ∧ a ≠ b) (sortedKeys txn) :=
    (sortedKeys_sorted txn).and (sortedKeys_nodup txn)
  refine List.Pairwise.imp_of_mem ?_ hboth
  intro a b ha hb hab n hn m hm
  obtain ⟨hn64, hka⟩ := indexOrder_some sch txn hwf a ha n hn
  obtain ⟨hm64, hkb⟩ := indexOrder_some sch txn hwf b hb m hm
  have hle : n ≤ m := by
    rw [← topoKey_le_iff sch n m hn64 hm64, ← hka, ← hkb]
    exact hab.1
  have hne : n ≠ m := by
    intro e
    apply hab.2
    rw [hka, hkb, e]
  omega

theorem indexOrders_eq {Tx : Type} (sch : Schema Tx) (txn : Txn)
    (hwf : wellFormedIndex sch txn) :
    indexOrders sch txn = (sortedKeys txn).filterMap (indexOrder sch) := by
  have hperm : List.Perm (indexOrders sch txn) ((sortedKeys txn).filterMap (indexOrder sch)) :=
    (List.perm_insertionSort _ _).trans ((sortedKeys_perm txn).symm.filterMap _)
  have hs1 : List.Sorted (fun a b : Nat => a ≤ b) (indexOrders sch txn) :=
    List.sorted_insertionSort _ _
  have hs2 : List.Sorted (fun a b : Nat => a ≤ b)
      ((sortedKeys txn).filterMap (indexOrder sch)) :=
    (sortedKeys_orders_strict sch txn hwf).imp (fun h => Nat.le_of_lt h)
  exact List.eq_of_perm_of_sorted hperm hs1 hs2

theorem indexOrders_strict {Tx : Type} (sch : Schema Tx) (txn : Txn)
    (hwf : wellFormedIndex sch txn) :
    List.Pairwise (fun a b => a < b) (indexOrders sch txn) := by
  rw [indexOrders_eq sch txn hwf]
  exact sortedKeys_orders_strict sch txn hwf

theorem mem_indexOrders {Tx : Type} (sch : Schema Tx) (txn : Txn)
    (hwf : wellFormedIndex sch txn) (n : Nat) :
    n ∈ indexOrders sch txn ↔ n < 2 ^ 64 ∧ graphTopologyKey sch n ∈ sortedKeys txn := by
  rw [indexOrders_eq sch txn hwf, List.mem_filterMap]
  constructor
  · rintro ⟨k, hk, hkn⟩
    obtain ⟨h64, hkey⟩ := indexOrder_some sch txn hwf k hk n hkn
    exact ⟨h64, hkey ▸ hk⟩
  · rintro ⟨h64, hk⟩
    exact ⟨_, hk, indexOrder_topoKey sch n h64⟩

/-- After `Seek(key)` a reverse iterator is at the greatest key of the store
that is not above `key`, if there is one. -/
theorem iterReverse_head (txn : Txn) (key : List Byte) :
    (iterReverse txn key = [] ∧
      ∀ y ∈ sortedKeys txn, ¬ bytesCompare y key ≤ 0) ∨
    (∃ x v rest, iterReverse txn key = (x, v) :: rest ∧ x ∈ sortedKeys txn ∧
      bytesCompare x key ≤ 0 ∧
      ∀ y ∈ sortedKeys txn, bytesCompare y key ≤ 0 → bytesCompare y x ≤ 0) := by
  unfold iterReverse
  have hsorted : List.Pairwise (fun a b => bytesCompare b a ≤ 0)
      ((sortedKeys txn).filter (fun k => decide (bytesCompare k key ≤ 0))).reverse := by
    rw [List.pairwise_reverse]
    exact (sortedKeys_sorted txn).sublist (List.filter_sublist _)
  have hmem : ∀ y, y ∈ ((sortedKeys txn).filter (fun k => decide (bytesCompare k key ≤ 0))).reverse
      ↔ y ∈ sortedKeys txn ∧ bytesCompare y key ≤ 0 := by
    intro y
    simp [List.mem_filter]
  cases hl : ((sortedKeys txn).filter (fun k => decide (bytesCompare k key ≤ 0))).reverse with
  | nil =>
    left
    refine ⟨rfl, ?_⟩
    intro y hy hle
    have := (hmem y).mpr ⟨hy, hle⟩
    rw [hl] at this
    cases this
  | cons x xs =>
    right
    rw [hl] at hsorted
    have hx := (hmem x).mp (by rw [hl]; exact List.mem_cons_self _ _)
    obtain ⟨v, hv⟩ := (mem_sortedKeys txn x).mp hx.1
    refine ⟨x, v, _, items_cons txn x v xs hv, hx.1, hx.2, ?_⟩
    intro y hy hle
    have hyin := (hmem y).mpr ⟨hy, hle⟩
    rw [hl] at hyin
    rcases List.mem_cons.mp hyin with e | hin
    · rw [e, bytesCompare_self]
    · exact (List.pairwise_cons.mp hsorted).1 y hin

theorem topoKey_le_max {Tx : Type} (sch : Schema Tx) (n : Nat) (hn : n < 2 ^ 64) :
    bytesCompare (graphTopologyKey sch n) (graphTopologyKey sch (2 ^ 64 - 1)) ≤ 0 :=
  (topoKey_le_iff sch n (2 ^ 64 - 1) hn (by omega)).mpr (by omega)

theorem TopologySequence_empty {Tx : Type} (sch : Schema Tx) (store : Txn)
    (hwf : wellFormedIndex sch store) (hempty : indexOrders sch store = []) :
    TopologySequence sch store = some 0 := by
  unfold TopologySequence
  rcases iterReverse_head store (graphTopologyKey sch (2 ^ 64 - 1)) with ⟨hnil, _⟩ |
    ⟨x, v, rest, hiter, hx, _, _⟩
  · rw [hnil]
  · rw [hiter]
    simp only
    by_cases hp : hasPrefix x sch.graphPrefixTopology = true
    · obtain ⟨m, hm, hkm⟩ := hwf x ((sortedKeys_perm store).mem_iff.mp hx) hp
      have : m ∈ indexOrders sch store :=
        (mem_indexOrders sch store hwf m).mpr ⟨hm, hkm ▸ hx⟩
      rw [hempty] at this
      cases this
    · rw [if_neg hp]

theorem TopologySequence_max {Tx : Type} (sch : Schema Tx) (store : Txn)
    (hwf : wellFormedIndex sch store) (m : Nat) (hm : m ∈ indexOrders sch store)
    (hmax : ∀ n ∈ indexOrders sch store, n ≤ m) :
    TopologySequence sch store = some (u64 (m + 1)) := by
  obtain ⟨hm64, hmkey⟩ := (mem_indexOrders sch store hwf m).mp hm
  unfold TopologySequence
  rcases iterReverse_head store (graphTopologyKey sch (2 ^ 64 - 1)) with ⟨_, hnone⟩ |
    ⟨x, v, rest, hiter, hx, hxle, hxmax⟩
  · exact absurd (topoKey_le_max sch m hm64) (hnone _ hmkey)
  · rw [hiter]
    simp only
    have hmx := hxmax _ hmkey (topoKey_le_max sch m hm64)
    have hpre : x.take sch.graphPrefixTopology.length = sch.graphPrefixTopology :=
      prefix_between sch.graphPrefixTopology (putUint64 m) x (putUint64 (2 ^ 64 - 1)) hmx hxle
    have hp : hasPrefix x sch.graphPrefixTopology = true := by
      simp [hasPrefix, hpre]
    obtain ⟨n, hn, hkn⟩ := hwf x ((sortedKeys_perm store).mem_iff.mp hx) hp
    have hnm : n ≤ m := hmax n ((mem_indexOrders sch store hwf n).mpr ⟨hn, hkn ▸ hx⟩)
    have hmn : m ≤ n := by
      rw [hkn] at hmx
      exact (topoKey_le_iff sch m n hm64 hn).mp hmx
    have hnm' : n = m := by omega
    rw [if_pos hp, hkn, graphTopologyOrder_key sch n hn, hnm']

/-- C18: on a well-formed topology index `TopologySequence` returns 0 when
the index is empty and otherwise the greatest stored order plus one (in
`uint64`); unless that order is `2^64 - 1` the value is greater than every
order in the index; and when the index holds exactly the orders `0 .. N-1` it
is `N`, the number of entries. -/
theorem TopologySequence_next {Tx : Type} (sch : Schema Tx) (store : Txn)
    (hwf : wellFormedIndex sch store) :
    (indexOrders sch store = [] → TopologySequence sch store = some 0) ∧
    (∀ m ∈ indexOrders sch store, (∀ n ∈ indexOrders sch store, n ≤ m) →
      TopologySequence sch store = some (u64 (m + 1)) ∧
      (m ≠ 2 ^ 64 - 1 → u64 (m + 1) = m + 1 ∧ ∀ n ∈ indexOrders sch store, n < u64 (m + 1))) ∧
    (∀ N, N < 2 ^ 64 → indexOrders sch store = List.range N →
      TopologySequence sch store = some N ∧ (indexOrders sch store).length = N) := by
  refine ⟨TopologySequence_empty sch store hwf, ?_, ?_⟩
  · intro m hm hmax
    refine ⟨TopologySequence_max sch store hwf m hm hmax, ?_⟩
    intro hne
    have hm64 := ((mem_indexOrders sch store hwf m).mp hm).1
    have hu : u64 (m + 1) = m + 1 := by
      unfold u64
      omega
    refine ⟨hu, ?_⟩
    intro n hn
    have := hmax n hn
    omega
  · intro N hN hrange
    refine ⟨?_, by rw [hrange, List.length_range]⟩
    cases N with
    | zero => exact TopologySequence_empty sch store hwf (by rw [hrange]; rfl)
    | succ k =>
      have hk : k ∈ indexOrders sch store := by
        rw [hrange]
        exact List.mem_range.mpr (by omega)
      have hmax : ∀ n ∈ indexOrders sch store, n ≤ k := by
        intro n hn
        rw [hrange] at hn
        have := List.mem_range.mp hn
        omega
      rw [TopologySequence_max sch store hwf k hk hmax]
      unfold u64
      congr 1
      omega

theorem topologyStore_wellFormed : wellFormedIndex sample.toySchema sample.topologyStore := by
  intro k hk hp
  have hkeys : mapKeys sample.topologyStore
      = [graphTopologyKey sample.toySchema 1,
          sample.toySchema.graphSnapshotKey (sample.fill 1) 3 (sample.fill 6),
          graphTopologyKey sample.toySchema 0,
          sample.toySchema.graphSnapshotKey (sample.fill 1) 2 (sample.fill 5),
          graphTopologyKey sample.toySchema 2,
          sample.toySchema.graphSnapshotKey (sample.fill 2) 0 (sample.fill 7), [90]] := by
    decide
  rw [hkeys] at hk
  simp only [List.mem_cons, List.mem_singleton, List.not_mem_nil, or_false] at hk
  rcases hk with h | h | h | h | h | h | h
  · exact ⟨1, by decide, h⟩
  · rw [h] at hp; exact absurd hp (by decide)
  · exact ⟨0, by decide, h⟩
  · rw [h] at hp; exact absurd hp (by decide)
  · exact ⟨2, by decide, h⟩
  · rw [h] at hp; exact absurd hp (by decide)
  · rw [h] at hp; exact absurd hp (by decide)

/-- C18, at `sample.topologyStore`, whose index holds the orders 0, 1, 2. -/
theorem TopologySequence_next_witness :
    TopologySequence sample.toySchema sample.topologyStore = some 3 ∧
    (indexOrders sample.toySchema sample.topologyStore).length = 3 :=
  (TopologySequence_next sample.toySchema sample.topologyStore topologyStore_wellFormed).2.2 3
    (by decide) (by decide)

end storage

theorem filter_filterMap_of_agree {α β : Type} (f : α → Option β) (p : β → Bool) (q : α → Bool)
    (l : List α) (h : ∀ a ∈ l, ∀ b, f a = some b → p b = q a) :
    (l.filterMap f).filter p = (l.filter q).filterMap f := by
  induction l with
  | nil => rfl
  | cons a l ih =>
    have ih' := ih (fun x hx => h x (List.mem_cons_of_mem _ hx))
    cases hfa : f a with
    | none =>
      by_cases hq : q a = true
      · simp [List.filterMap_cons, List.filter_cons, hfa, hq, ih']
      · simp [List.filterMap_cons, List.filter_cons, hfa, hq, ih']
    | some b =>
      have hpq := h a (List.mem_cons_self _ _) b hfa
      by_cases hq : q a = true
      · have hp : p b = true := by rw [hpq, hq]
        simp [List.filterMap_cons, List.filter_cons, hfa, hq, hp, ih']
      · have hp : ¬ p b = true := by rw [hpq]; exact hq
        simp [List.filterMap_cons, List.filter_cons, hfa, hq, hp, ih']

theorem filterMap_take_of_some {α β : Type} (f : α → Option β) (l : List α) (c : Nat)
    (h : ∀ a ∈ l, ∃ b, f a = some b) :
    (l.take c).filterMap f = (l.filterMap f).take c := by
  induction l generalizing c with
  | nil => simp
  | cons a l ih =>
    cases c with
    | zero => simp
    | succ c =>
      obtain ⟨b, hb⟩ := h a (List.mem_cons_self _ _)
      simp [List.filterMap_cons, hb, ih c (fun x hx => h x (List.mem_cons_of_mem _ hx))]

theorem filterMap_filter_of_none {α β : Type} (f : α → Option β) (q : α → Bool) (l : List α)
    (h : ∀ a, q a = false → f a = none) :
    (l.filter q).filterMap f = l.filterMap f := by
  induction l with
  | nil => rfl
  | cons a l ih =>
    by_cases hq : q a = true
    · simp [List.filter_cons, hq, List.filterMap_cons, ih]
    · have hn := h a (by simpa using hq)
      simp [List.filter_cons, hq, List.filterMap_cons, hn, ih]

theorem range_filter_le (N offset : Nat) :
    (List.range N).filter (fun n => decide (offset ≤ n)) = List.range' offset (N - offset) := by
  induction N with
  | zero => simp
  | succ N ih =>
    rw [List.range_succ, List.filter_append, ih]
    by_cases h : offset ≤ N
    · have : N + 1 - offset = (N - offset) + 1 := by omega
      rw [this, List.range'_concat]
      simp [h]
    · have h1 : N + 1 - offset = 0 := by omega
      have h2 : N - offset = 0 := by omega
      simp [h, h1, h2]

theorem take_range' (s n c : Nat) : (List.range' s n).take c = List.range' s (min c n) := by
  induction n generalizing s c with
  | zero => simp
  | succ n ih =>
    cases c with
    | zero => simp
    | succ c =>
      rw [List.range'_succ, List.take_succ_cons, ih]
      have : min (c + 1) (n + 1) = min c n + 1 := by omega
      rw [this, List.range'_succ]

namespace storage

open crypto

/-- From `Seek(P ‖ a)` on, the keys with the prefix `P` come first: the keys
the iterator visits while `ValidForPrefix(P)` holds are all the keys with the
prefix. -/
theorem takeWhile_prefix_eq_filter (P a : List Byte) (F : List (List Byte))
    (hsorted : List.Pairwise (fun x y => bytesCompare x y ≤ 0) F)
    (hge : ∀ x ∈ F, bytesCompare (P ++ a) x ≤ 0) :
    F.takeWhile (fun k => hasPrefix k P) = F.filter (fun k => hasPrefix k P) := by
  induction F with
  | nil => rfl
  | cons x xs ih =>
    have hs := List.pairwise_cons.mp hsorted
    by_cases hp : hasPrefix x P = true
    · simp only [List.takeWhile_cons, List.filter_cons, hp, if_true]
      rw [ih hs.2 (fun y hy => hge y (List.mem_cons_of_mem _ hy))]
    · have hp' : hasPrefix x P = false := by simpa using hp
      simp only [List.takeWhile_cons, List.filter_cons, hp', Bool.false_eq_true, if_false]
      symm
      rw [List.filter_eq_nil_iff]
      intro y hy hpy
      apply hp
      have hyP : y.take P.length = P := by simpa [hasPrefix] using hpy
      have hxy := hs.1 y hy
      have hxP : x.take P.length = P := by
        have hy' : bytesCompare x (P ++ y.drop P.length) ≤ 0 := by
          have : P ++ y.drop P.length = y := by
            conv_rhs => rw [← List.take_append_drop P.length y]
            rw [hyP]
          rw [this]
          exact hxy
        exact prefix_between P a x (y.drop P.length) (hge x (List.mem_cons_self _ _)) hy'
      simp [hasPrefix, hxP]

/-- What `snapshotAt` returns, taken apart. -/
theorem snapshotAt_some {Tx : Type} (sch : Schema Tx) (txn : Txn) (k : List Byte)
    (s : common.SnapshotWithTopologicalOrder) (h : snapshotAt sch txn k = some s) :
    ∃ topology v v1 d, graphTopologyOrder sch k = some topology ∧ mapGet txn k = some v ∧
      mapGet txn v = some v1 ∧ sch.unmarshalSnapshot v1 = .ok d ∧
      s = { Snapshot := { d.Snapshot with Hash := sch.payloadHash d.Snapshot },
            TopologicalOrder := topology } := by
  unfold snapshotAt at h
  cases ht : graphTopologyOrder sch k with
  | none => simp [ht] at h
  | some topology =>
    cases hv : mapGet txn k with
    | none => simp [ht, hv] at h
    | some v =>
      cases hv1 : mapGet txn v with
      | none => simp [ht, hv, hv1] at h
      | some v1 =>
        cases hd : sch.unmarshalSnapshot v1 with
        | error e => simp [ht, hv, hv1, hd] at h
        | ok d =>
          simp only [ht, hv, hv1, hd, Option.some.injEq] at h
          exact ⟨topology, v, v1, d, rfl, rfl, hv1, hd, h.symm⟩

theorem readSnapshotsLoop_eq {Tx : Type} (sch : Schema Tx) (txn : Txn) (count : Nat) :
    ∀ (ks : List (List Byte)) (acc : List common.SnapshotWithTopologicalOrder),
      (∀ k ∈ ks, ∃ v, mapGet txn k = some v) →
      (∀ k ∈ ks, hasPrefix k sch.graphPrefixTopology = true →
        ∃ s, snapshotAt sch txn k = some s) →
      readSnapshotsLoop sch txn count
          (ks.filterMap (fun k => (mapGet txn k).map (fun v => (k, v)))) acc
        = some (acc ++ ((ks.takeWhile (fun k => hasPrefix k sch.graphPrefixTopology)).take
              (count - acc.length)).filterMap (snapshotAt sch txn), none)
  | [], acc, _, _ => by simp [readSnapshotsLoop]
  | k :: ks, acc, hkeys, hreads => by
    obtain ⟨v, hv⟩ := hkeys k (List.mem_cons_self _ _)
    rw [items_cons txn k v ks hv]
    unfold readSnapshotsLoop
    by_cases hp : hasPrefix k sch.graphPrefixTopology = true
    · by_cases hc : acc.length < count
      · obtain ⟨s, hs⟩ := hreads k (List.mem_cons_self _ _) hp
        obtain ⟨topology, v', v1, d, ht, hv', hv1, hd, hsd⟩ := snapshotAt_some sch txn k s hs
        rw [hv] at hv'
        simp only [Option.some.injEq] at hv'
        subst hv'
        have hstep := readSnapshotsLoop_eq sch txn count ks (acc ++ [s])
          (fun x hx => hkeys x (List.mem_cons_of_mem _ hx))
          (fun x hx => hreads x (List.mem_cons_of_mem _ hx))
        have hcnt : count - acc.length = (count - (acc ++ [s]).length) + 1 := by
          simp only [List.length_append, List.length_singleton]
          omega
        simp only [hp, hc, decide_True, Bool.and_self, if_true, ht, hv1, hd]
        rw [← hsd, hstep, hcnt]
        simp only [List.takeWhile_cons, hp, if_true, List.take_succ_cons, List.filterMap_cons, hs,
          List.append_assoc, List.singleton_append]
      · have h0 : count - acc.length = 0 := by omega
        simp [hc, h0]
    · have hp' : hasPrefix k sch.graphPrefixTopology = false := by simpa using hp
      simp [hp', List.takeWhile_cons]

theorem snapshotAt_of_reads {Tx : Type} (sch : Schema Tx) (store : Txn)
    (hwf : wellFormedIndex sch store)
    (hreads : ∀ n v, mapGet store (graphTopologyKey sch n) = some v →
      ∃ v1 d, mapGet store v = some v1 ∧ sch.unmarshalSnapshot v1 = .ok d)
    (k : List Byte) (hk : k ∈ sortedKeys store)
    (hp : hasPrefix k sch.graphPrefixTopology = true) :
    ∃ n s, n < 2 ^ 64 ∧ k = graphTopologyKey sch n ∧ snapshotAt sch store k = some s ∧
      s.TopologicalOrder = n ∧ indexOrder sch k = some n := by
  obtain ⟨n, hn, hkn⟩ := hwf k ((sortedKeys_perm store).mem_iff.mp hk) hp
  obtain ⟨v, hv⟩ := (mem_sortedKeys store k).mp hk
  obtain ⟨v1, d, hv1, hd⟩ := hreads n v (hkn ▸ hv)
  have ht : graphTopologyOrder sch k = some n := by
    rw [hkn]
    exact graphTopologyOrder_key sch n hn
  have hidx : indexOrder sch k = some n := by
    rw [hkn]
    exact indexOrder_topoKey sch n hn
  refine ⟨n, { Snapshot := { d.Snapshot with Hash := sch.payloadHash d.Snapshot },
               TopologicalOrder := n }, hn, hkn, ?_, rfl, hidx⟩
  unfold snapshotAt
  simp only [ht, hv, hv1, hd]

/-- C17: on a well-formed topology index whose entries can all be read,
`ReadSnapshotsSinceTopology(offset, count)` returns no error and at most
`count` snapshots; their orders are the first `count` of the orders of the
index that are at least `offset`, in ascending numeric order, hence strictly
ascending; each snapshot is the payload its index entry points to, with
`TopologicalOrder` the order of the index key and `Hash` the payload hash
recomputed; when the index holds exactly the orders `0 .. N-1` the orders
returned are `offset, ..., min(offset + count, N) - 1`; and `count = 0` gives
the empty list. -/
theorem ReadSnapshotsSinceTopology_window {Tx : Type} (sch : Schema Tx) (store : Txn)
    (offset count : Nat) (hwf : wellFormedIndex sch store) (hoffset : offset < 2 ^ 64)
    (hreads : ∀ n v, mapGet store (graphTopologyKey sch n) = some v →
      ∃ v1 d, mapGet store v = some v1 ∧ sch.unmarshalSnapshot v1 = .ok d) :
    ∃ snaps, ReadSnapshotsSinceTopology sch store offset count = some (snaps, none) ∧
      snaps.map (fun s => s.TopologicalOrder)
        = ((indexOrders sch store).filter (fun n => decide (offset ≤ n))).take count ∧
      snaps.length ≤ count ∧
      List.Pairwise (fun a b => a < b) (snaps.map (fun s => s.TopologicalOrder)) ∧
      (∀ s ∈ snaps, ∃ v v1 d,
        mapGet store (graphTopologyKey sch s.TopologicalOrder) = some v ∧
        mapGet store v = some v1 ∧ sch.unmarshalSnapshot v1 = .ok d ∧
        s = { Snapshot := { d.Snapshot with Hash := sch.payloadHash d.Snapshot },
              TopologicalOrder := s.TopologicalOrder }) ∧
      (∀ N, indexOrders sch store = List.range N →
        snaps.map (fun s => s.TopologicalOrder)
          = List.range' offset (min (offset + count) N - offset)) ∧
      (count = 0 → snaps = []) := by
  obtain ⟨F, hF⟩ : ∃ F, F = (sortedKeys store).filter
      (fun k => decide (bytesCompare (graphTopologyKey sch offset) k ≤ 0)) := ⟨_, rfl⟩
  have hFmem : ∀ k, k ∈ F →
      k ∈ sortedKeys store ∧ bytesCompare (graphTopologyKey sch offset) k ≤ 0 := by
    intro k hk
    rw [hF] at hk
    simpa [List.mem_filter] using hk
  have hloop := readSnapshotsLoop_eq sch store count F []
    (fun k hk => (mem_sortedKeys store k).mp (hFmem k hk).1)
    (fun k hk hp => by
      obtain ⟨n, s, _, _, hs, _, _⟩ :=
        snapshotAt_of_reads sch store hwf hreads k (hFmem k hk).1 hp
      exact ⟨s, hs⟩)
  have htw := takeWhile_prefix_eq_filter sch.graphPrefixTopology (putUint64 offset) F
    (by rw [hF]; exact (sortedKeys_sorted store).sublist (List.filter_sublist _))
    (fun k hk => (hFmem k hk).2)
  rw [htw] at hloop
  simp only [List.nil_append, List.length_nil, Nat.sub_zero] at hloop
  obtain ⟨G, hG⟩ : ∃ G, G = F.filter (fun k => hasPrefix k sch.graphPrefixTopology) :=
    ⟨_, rfl⟩
  rw [← hG] at hloop
  have hGmem : ∀ k, k ∈ G →
      k ∈ sortedKeys store ∧ hasPrefix k sch.graphPrefixTopology = true := by
    intro k hk
    rw [hG] at hk
    obtain ⟨h1, h2⟩ := List.mem_filter.mp hk
    exact ⟨(hFmem k h1).1, h2⟩
  have hunfold : ReadSnapshotsSinceTopology sch store offset count
      = some ((G.take count).filterMap (snapshotAt sch store), none) := by
    unfold ReadSnapshotsSinceTopology iterForward
    rw [← hF]
    exact hloop
  have horders : ((G.take count).filterMap (snapshotAt sch store)).map
        (fun s => s.TopologicalOrder)
      = ((indexOrders sch store).filter (fun n => decide (offset ≤ n))).take count := by
    rw [List.map_filterMap]
    have hcongr : ∀ k ∈ G.take count,
        Option.map (fun s => s.TopologicalOrder) (snapshotAt sch store k)
          = indexOrder sch k := by
      intro k hk
      obtain ⟨h1, h2⟩ := hGmem k (List.mem_of_mem_take hk)
      obtain ⟨n, s, _, _, hs, hsn, hidx⟩ := snapshotAt_of_reads sch store hwf hreads k h1 h2
      rw [hs, hidx, Option.map_some', hsn]
    rw [List.filterMap_congr hcongr]
    rw [filterMap_take_of_some (indexOrder sch) G count (fun k hk => by
      obtain ⟨h1, h2⟩ := hGmem k hk
      obtain ⟨n, s, _, _, _, _, hidx⟩ := snapshotAt_of_reads sch store hwf hreads k h1 h2
      exact ⟨n, hidx⟩)]
    rw [hG, filterMap_filter_of_none (indexOrder sch)
      (fun k => hasPrefix k sch.graphPrefixTopology) F (fun k hk => by simp [indexOrder, hk])]
    rw [indexOrders_eq sch store hwf, hF]
    rw [filter_filterMap_of_agree (indexOrder sch) (fun n => decide (offset ≤ n))
      (fun k => decide (bytesCompare (graphTopologyKey sch offset) k ≤ 0)) (sortedKeys store)
      (fun k hk n hn => by
        obtain ⟨hn64, hkn⟩ := indexOrder_some sch store hwf k hk n hn
        rw [hkn]
        exact decide_eq_decide.mpr (topoKey_le_iff sch offset n hoffset hn64).symm)]
  refine ⟨_, hunfold, horders, ?_, ?_, ?_, ?_, ?_⟩
  · have hlen := congrArg List.length horders
    rw [List.length_map] at hlen
    rw [hlen, List.length_take]
    exact Nat.min_le_left _ _
  · rw [horders]
    exact ((indexOrders_strict sch store hwf).sublist (List.filter_sublist _)).sublist
      (List.take_sublist _ _)
  · intro s hs
    obtain ⟨k, hk, hks⟩ := List.mem_filterMap.mp hs
    obtain ⟨h1, h2⟩ := hGmem k (List.mem_of_mem_take hk)
    obtain ⟨n, s', hn, hkn, hs', hsn, _⟩ := snapshotAt_of_reads sch store hwf hreads k h1 h2
    rw [hks] at hs'
    simp only [Option.some.injEq] at hs'
    subst hs'
    obtain ⟨topology, v, v1, d, ht, hv, hv1, hd, hsd⟩ := snapshotAt_some sch store k s hks
    have htop : s.TopologicalOrder = topology := by rw [hsd]
    refine ⟨v, v1, d, ?_, hv1, hd, ?_⟩
    · rw [hsn, ← hkn]
      exact hv
    · rw [htop]
      exact hsd
  · intro N hN
    rw [horders, hN, range_filter_le, take_range']
    congr 1
    omega
  · intro hc
    rw [hc, List.take_zero]
    rfl

theorem topologyStore_reads (n : Nat) (v : List Byte)
    (hv : mapGet sample.topologyStore (graphTopologyKey sample.toySchema n) = some v) :
    ∃ v1 d, mapGet sample.topologyStore v = some v1 ∧
      sample.toySchema.unmarshalSnapshot v1 = .ok d := by
  have hk : graphTopologyKey sample.toySchema n ∈ sortedKeys sample.topologyStore :=
    (mem_sortedKeys _ _).mpr ⟨v, hv⟩
  have hk := (sortedKeys_perm _).mem_iff.mp hk
  have hp := hasPrefix_topoKey sample.toySchema n
  have hkeys : mapKeys sample.topologyStore
      = [graphTopologyKey sample.toySchema 1,
          sample.toySchema.graphSnapshotKey (sample.fill 1) 3 (sample.fill 6),
          graphTopologyKey sample.toySchema 0,
          sample.toySchema.graphSnapshotKey (sample.fill 1) 2 (sample.fill 5),
          graphTopologyKey sample.toySchema 2,
          sample.toySchema.graphSnapshotKey (sample.fill 2) 0 (sample.fill 7), [90]] := by
    decide
  rw [hkeys] at hk
  simp only [List.mem_cons, List.mem_singleton, List.not_mem_nil, or_false] at hk
  rcases hk with h | h | h | h | h | h | h
  · rw [h] at hv
    have hv' : v = sample.toySchema.graphSnapshotKey (sample.fill 1) 3 (sample.fill 6) :=
      (Option.some.inj hv).symm
    rw [hv']
    exact ⟨sample.snapshotBytes 1 6 3, _, by decide, rfl⟩
  · rw [h] at hp; exact absurd hp (by decide)
  · rw [h] at hv
    have hv' : v = sample.toySchema.graphSnapshotKey (sample.fill 1) 2 (sample.fill 5) :=
      (Option.some.inj hv).symm
    rw [hv']
    exact ⟨sample.snapshotBytes 1 5 2, _, by decide, rfl⟩
  · rw [h] at hp; exact absurd hp (by decide)
  · rw [h] at hv
    have hv' : v = sample.toySchema.graphSnapshotKey (sample.fill 2) 0 (sample.fill 7) :=
      (Option.some.inj hv).symm
    rw [hv']
    exact ⟨sample.snapshotBytes 2 7 0, _, by decide, rfl⟩
  · rw [h] at hp; exact absurd hp (by decide)
  · rw [h] at hp; exact absurd hp (by decide)

/-- C17, at `sample.topologyStore`, whose index holds the orders 0, 1, 2: the
window of offset 1 and count 5 is read without error and holds the orders 1
and 2. -/
theorem ReadSnapshotsSinceTopology_window_witness :
    ∃ snaps, ReadSnapshotsSinceTopology sample.toySchema sample.topologyStore 1 5
        = some (snaps, none) ∧
      snaps.map (fun s => s.TopologicalOrder) = [1, 2] ∧ snaps.length ≤ 5 :=
  match ReadSnapshotsSinceTopology_window sample.toySchema sample.topologyStore 1 5
      topologyStore_wellFormed (by decide) topologyStore_reads with
  | ⟨snaps, h1, _, h3, _, _, h6, _⟩ => ⟨snaps, h1, h6 3 (by decide), h3⟩

end storage

/-! ## Slices in range -/

namespace kernel

open crypto

/-- C25: on a message of at least 104 bytes every slice expression of
`Authenticate` is in range and the method returns (a peer id and listener, or
an error); when it returns no error the listener is the bytes of the message
from offset 104 to the end, and the listener is empty when the message has
exactly 104 bytes. -/
theorem Authenticate_in_range (cr : Crypto) (node : Node) (nowUnix : Int) (msg : List Byte)
    (hlen : 104 ≤ msg.length) :
    sliceRange msg 0 8 = some (msg.take 8) ∧
    sliceRange msg 8 40 = some ((msg.take 40).drop 8) ∧
    sliceRange msg 40 104 = some ((msg.take 104).drop 40) ∧
    sliceRange msg 0 40 = some (msg.take 40) ∧
    sliceFrom msg 104 = some (msg.drop 104) ∧
    ∃ id listener err, Authenticate cr node nowUnix msg = some (id, listener, err) ∧
      (err = none → listener = msg.drop 104) ∧
      (msg.length = 104 → listener = []) := by
  have h8 : (0 ≤ 8 ∧ 8 ≤ msg.length) := ⟨by omega, by omega⟩
  have h40 : (8 ≤ 40 ∧ 40 ≤ msg.length) := ⟨by omega, by omega⟩
  have h104 : (40 ≤ 104 ∧ 104 ≤ msg.length) := ⟨by omega, by omega⟩
  have h040 : (0 ≤ 40 ∧ 40 ≤ msg.length) := ⟨by omega, by omega⟩
  have hdrop : msg.length = 104 → msg.drop 104 = [] := by
    intro h
    exact List.drop_eq_nil_of_le (by omega)
  refine ⟨by simp [sliceRange, h8], by simp [sliceRange, h40], by simp [sliceRange, h104],
    by simp [sliceRange, h040], by simp [sliceFrom, hlen], ?_⟩
  rw [Authenticate_of_length cr node nowUnix msg hlen]
  by_cases ht : toInt64 (nowUnix - toInt64 (bigEndianUint64 (msg.take 8))) > 3
  · rw [if_pos ht]
    exact ⟨_, _, _, rfl, (fun h => nomatch h), fun _ => rfl⟩
  · rw [if_neg ht]
    cases hp : authPeer cr node (copy32 ((msg.take 40).drop 8)) with
    | none => exact ⟨_, _, _, rfl, (fun h => nomatch h), fun _ => rfl⟩
    | some peer =>
      simp only
      by_cases hid : copy32 ((msg.take 40).drop 8) = node.IdForNetwork
      · rw [if_pos hid]
        exact ⟨_, _, _, rfl, (fun h => nomatch h), fun _ => rfl⟩
      · rw [if_neg hid]
        by_cases hv : cr.verify peer.Signer.PublicSpendKey (msg.take 40)
            (copy64 ((msg.take 104).drop 40)) = true
        · rw [if_pos hv]
          exact ⟨_, _, _, rfl, fun _ => rfl, hdrop⟩
        · rw [if_neg hv]
          exact ⟨_, _, _, rfl, (fun h => nomatch h), fun _ => rfl⟩

set_option maxRecDepth 20000 in
/-- C25, at the message the node `sample.peerA` builds at second 100, which
has 107 bytes: the node `sample.peerB` returns from it. -/
theorem Authenticate_in_range_witness :
    ∃ id listener err,
      Authenticate sample.toyCrypto sample.peerB 101
          (BuildAuthenticationMessage sample.toyCrypto sample.peerA 100)
        = some (id, listener, err) ∧
      (err = none →
        listener = (BuildAuthenticationMessage sample.toyCrypto sample.peerA 100).drop 104) ∧
      ((BuildAuthenticationMessage sample.toyCrypto sample.peerA 100).length = 104 →
        listener = []) :=
  (Authenticate_in_range sample.toyCrypto sample.peerB 101
    (BuildAuthenticationMessage sample.toyCrypto sample.peerA 100) (by decide)).2.2.2.2.2

/-- A frame of tag 3 (authentication) with three payload bytes parses to a
message whose `Auth` is these three bytes, and `Authenticate` on a message of
three bytes panics at `msg[:8]`: the bound of 104 bytes is a precondition of
`Authenticate` that the parser does not establish. -/
theorem Authenticate_short_message_panics :
    (∃ msg, network.parseNetworkMessage sample.unitCodec [3, 0, 0, 0] = some (.ok msg) ∧
      msg.Auth = [0, 0, 0]) ∧
    Authenticate sample.toyCrypto sample.peerB 10 [0, 0, 0] = none :=
  ⟨⟨_, rfl, rfl⟩, by decide⟩

end kernel

namespace network

open crypto

theorem parseNetworkMessage_returns {Snap Tx SP : Type} (codec : Codec Snap Tx SP)
    (tag : Byte) (body : List Byte) :
    ∃ r, parseNetworkMessage codec (tag :: body) = some r := by
  obtain ⟨h0, h1, h2⟩ := parseNetworkMessage_cons tag body
  have h33 : ∀ n, n ≤ body.length + 1 →
      sliceFrom (tag :: body) n = some ((tag :: body).drop n) := by
    intro n hn
    simp [sliceFrom, hn]
  unfold parseNetworkMessage
  rw [if_neg h2, h0, h1]
  simp only
  by_cases t4 : tag = 4
  · rw [if_pos t4]
    cases hc : codec.unmarshalFinalCache body <;> exact ⟨_, rfl⟩
  rw [if_neg t4]
  by_cases t1 : tag = 1
  · rw [if_pos t1]; exact ⟨_, rfl⟩
  rw [if_neg t1]
  by_cases t3 : tag = 3
  · rw [if_pos t3]; exact ⟨_, rfl⟩
  rw [if_neg t3]
  by_cases t5 : tag = 5
  · rw [if_pos t5]; exact ⟨_, rfl⟩
  rw [if_neg t5]
  by_cases t7 : tag = 7
  · rw [if_pos t7]
    cases hc : codec.unmarshalVersionedTransaction body <;> exact ⟨_, rfl⟩
  rw [if_neg t7]
  by_cases t6 : tag = 6
  · rw [if_pos t6]; exact ⟨_, rfl⟩
  rw [if_neg t6]
  by_cases t10 : tag = 10
  · rw [if_pos t10]
    by_cases hl : body.length ≤ 32
    · rw [if_pos hl]; exact ⟨_, rfl⟩
    · rw [if_neg hl, h33 33 (by omega)]
      simp only
      cases hc : codec.unmarshalSnapshot ((tag :: body).drop 33) <;> exact ⟨_, rfl⟩
  rw [if_neg t10]
  by_cases t11 : tag = 11
  · rw [if_pos t11]
    by_cases hl : body.length ≠ 65
    · rw [if_pos hl]; exact ⟨_, rfl⟩
    · rw [if_neg hl, h33 33 (by omega)]
      have hi : 65 < (tag :: body).length := by simp; omega
      have hidx : indexAt (tag :: body) 65 = some ((tag :: body).get ⟨65, hi⟩) := by
        unfold indexAt
        rw [dif_pos hi]
      rw [hidx]
      exact ⟨_, rfl⟩
  rw [if_neg t11]
  by_cases t12 : tag = 12
  · rw [if_pos t12]
    by_cases hl : body.length < 104
    · rw [if_pos hl]; exact ⟨_, rfl⟩
    · rw [if_neg hl, h33 33 (by omega)]
      have hr : sliceRange (tag :: body) 97 105
          = some (((tag :: body).take 105).drop 97) := by
        have : (97 ≤ 105 ∧ 105 ≤ (tag :: body).length) := ⟨by omega, by simp; omega⟩
        simp only [sliceRange, this, and_self, if_true]
      rw [hr]
      simp only
      by_cases hg : body.length > 104
      · rw [if_pos hg, h33 105 (by omega)]
        simp only
        cases hc : codec.unmarshalVersionedTransaction ((tag :: body).drop 105) <;>
          exact ⟨_, rfl⟩
      · rw [if_neg hg]; exact ⟨_, rfl⟩
  rw [if_neg t12]
  by_cases t13 : tag = 13
  · rw [if_pos t13]
    by_cases hl : body.length ≠ 64
    · rw [if_pos hl]; exact ⟨_, rfl⟩
    · rw [if_neg hl, h33 33 (by omega)]
      exact ⟨_, rfl⟩
  rw [if_neg t13]
  by_cases t14 : tag = 14
  · rw [if_pos t14]
    cases hc : codec.unmarshalSnapshot body <;> exact ⟨_, rfl⟩
  rw [if_neg t14]
  exact ⟨_, rfl⟩

/-- C24: `parseNetworkMessage` returns, a message or an error, on every input
and with any decoders: no slice or index expression it evaluates is out of
range. Under the length guards of the tags 10, 11, 12 and 13 the fixed
offsets read are in range: `data[33:]` for an announcement of more than 32
payload bytes, `data[33:]` and `data[65]` for a commitment of 65 payload
bytes, `data[33:]`, `data[97:105]` (8 bytes) and `data[105:]` for a challenge
of at least 104 payload bytes, `data[33:]` for a response of 64 payload
bytes. -/
theorem parseNetworkMessage_total {Snap Tx SP : Type} (codec : Codec Snap Tx SP)
    (data : List Byte) :
    (∃ r, parseNetworkMessage codec data = some r) ∧
    (∀ body, data = 10 :: body → 32 < body.length →
      sliceFrom data 33 = some (data.drop 33)) ∧
    (∀ body, data = 11 :: body → body.length = 65 →
      sliceFrom data 33 = some (data.drop 33) ∧ ∃ flag, indexAt data 65 = some flag) ∧
    (∀ body, data = 12 :: body → 104 ≤ body.length →
      sliceFrom data 33 = some (data.drop 33) ∧
      (∃ mask, sliceRange data 97 105 = some mask ∧ mask.length = 8) ∧
      sliceFrom data 105 = some (data.drop 105)) ∧
    (∀ body, data = 13 :: body → body.length = 64 →
      sliceFrom data 33 = some (data.drop 33)) := by
  refine ⟨?_, ?_, ?_, ?_, ?_⟩
  · cases data with
    | nil => exact ⟨_, rfl⟩
    | cons tag body => exact parseNetworkMessage_returns codec tag body
  · intro body hd hl
    subst hd
    simp [sliceFrom]
    omega
  · intro body hd hl
    subst hd
    refine ⟨by simp [sliceFrom]; omega, ?_⟩
    have hi : 65 < (11 :: body).length := by simp; omega
    refine ⟨(11 :: body).get ⟨65, hi⟩, ?_⟩
    unfold indexAt
    rw [dif_pos hi]
  · intro body hd hl
    subst hd
    refine ⟨by simp [sliceFrom]; omega, ?_, by simp [sliceFrom]; omega⟩
    have hr : (97 ≤ 105 ∧ 105 ≤ (12 :: body).length) := ⟨by omega, by simp; omega⟩
    refine ⟨((12 :: body).take 105).drop 97,
      by simp only [sliceRange, hr, and_self, if_true], ?_⟩
    simp only [List.length_drop, List.length_take, List.length_cons]
    omega
  · intro body hd hl
    subst hd
    simp [sliceFrom]
    omega

/-- C24, at a frame whose tag 200 is not in the protocol table. -/
theorem parseNetworkMessage_total_witness :
    ∃ r, parseNetworkMessage sample.unitCodec [200, 1, 2] = some r :=
  (parseNetworkMessage_total sample.unitCodec [200, 1, 2]).1

end network

/-! ## Signers and the consensus base -/

theorem u64_add_toUint64_lt (K : Int) (ts t : Nat) (h0 : 0 ≤ K)
    (h : (ts : Int) + K < 2 ^ 64) :
    u64 (ts + toUint64 K) < t ↔ (ts : Int) + K < t := by
  have hK : (toUint64 K : Int) = K := toUint64_of_range K h0 (by omega)
  have hlt : ts + toUint64 K < 2 ^ 64 := by omega
  unfold u64
  rw [Nat.mod_eq_of_lt hlt]
  omega

namespace kernel

open crypto

theorem consensusKeysLoop_eq (cfg : Config) (cr : Crypto) (node : Node) (t : Nat)
    (hacc : (timeHour : Int) ≤ cfg.KernelNodeAcceptPeriodMinimum)
    (l : List common.Node)
    (hno : ∀ cn ∈ l, (cn.Timestamp : Int) + cfg.KernelNodeAcceptPeriodMinimum < 2 ^ 64)
    (keys : List Key) :
    consensusKeysLoop cfg cr node t l keys
      = keys ++ (l.filter (contributes cfg cr node t)).map (fun cn => cn.Signer.PublicSpendKey) := by
  have h0 : (0 : Int) ≤ cfg.KernelNodeAcceptPeriodMinimum := by
    unfold timeHour at hacc
    omega
  induction l generalizing keys with
  | nil => simp [consensusKeysLoop]
  | cons cn rest ih =>
    have hrest := fun ks => ih (fun c hc => hno c (List.mem_cons_of_mem _ hc)) ks
    have hcn := u64_add_toUint64_lt cfg.KernelNodeAcceptPeriodMinimum cn.Timestamp t h0
      (hno cn (List.mem_cons_self _ _))
    unfold consensusKeysLoop
    by_cases hst : cn.State = .Accepted
    · rw [if_neg (not_not.mpr hst)]
      by_cases hc : (node.isGenesis (cn.IdForNetwork cr node.networkId)
          || decide (u64 (cn.Timestamp + toUint64 cfg.KernelNodeAcceptPeriodMinimum) < t))
            = true
      · rw [if_pos hc, hrest]
        have hcon : contributes cfg cr node t cn = true := by
          unfold contributes
          simp only [Bool.or_eq_true, decide_eq_true_eq] at hc
          simp only [hst, decide_True, Bool.true_and, Bool.or_eq_true, decide_eq_true_eq]
          exact hc.imp id hcn.mp
        rw [List.filter_cons_of_pos hcon]
        simp
      · rw [if_neg hc, hrest]
        have hcon : ¬ contributes cfg cr node t cn = true := by
          unfold contributes
          simp only [Bool.or_eq_true, decide_eq_true_eq] at hc
          simp only [hst, decide_True, Bool.true_and, Bool.or_eq_true, decide_eq_true_eq]
          exact fun h => hc (h.imp id hcn.mpr)
        rw [List.filter_cons_of_neg hcon]
    · rw [if_pos hst, hrest]
      have hcon : ¬ contributes cfg cr node t cn = true := by
        unfold contributes
        simp [hst]
      rw [List.filter_cons_of_neg hcon]

theorem contributes_counted (cfg : Config) (cr : Crypto) (node : Node) (t : Nat)
    (hgap : cfg.SnapshotReferenceThreshold * cfg.SnapshotRoundGap ≤ 3 * timeMinute)
    (hacc : (timeHour : Int) ≤ cfg.KernelNodeAcceptPeriodMinimum)
    (cn : common.Node)
    (hno : (cn.Timestamp : Int) + cfg.KernelNodeAcceptPeriodMinimum < 2 ^ 64)
    (h : contributes cfg cr node t cn = true) :
    cn.State = .Accepted ∧ counted cfg cr node t cn = true := by
  unfold contributes at h
  simp only [Bool.and_eq_true, Bool.or_eq_true, decide_eq_true_eq] at h
  obtain ⟨hst, hc⟩ := h
  refine ⟨hst, ?_⟩
  unfold counted
  simp only [hst, decide_True, Bool.true_and, Bool.or_eq_true, decide_eq_true_eq]
  refine Or.inl (Or.inl ?_)
  rcases hc with hg | hlt
  · exact Or.inl hg
  · refine Or.inr ?_
    have hlt2 : cn.Timestamp + cfg.SnapshotReferenceThreshold * cfg.SnapshotRoundGap < t := by
      unfold timeMinute at hgap
      unfold timeHour at hacc
      omega
    have hlt3 : cn.Timestamp + cfg.SnapshotReferenceThreshold * cfg.SnapshotRoundGap
        < 2 ^ 64 := by
      unfold timeMinute at hgap
      unfold timeHour at hacc
      omega
    unfold u64
    rw [Nat.mod_eq_of_lt hlt3]
    exact hlt2

end kernel

namespace kernel

open crypto

/-- C26: for a timestamp `t > 0`, constants with
`SnapshotReferenceThreshold * SnapshotRoundGap` at most three minutes and
`KernelNodeAcceptPeriodMinimum` at least one hour (an `int64`), and active
nodes whose `timestamp + KernelNodeAcceptPeriodMinimum` does not overflow
`uint64`: `ConsensusKeys(t)` is the list of the public spend keys of the
active nodes that are accepted and either genesis or with
`timestamp + KernelNodeAcceptPeriodMinimum < t`, in the order of
`ActiveNodes`; every such node is accepted and is counted in the consensus
base of `ConsensusThreshold(t)`; and the loop of `ConsensusThreshold(t)`
yields a consensus base that is at least the number of keys. -/
theorem ConsensusKeys_le_base (cfg : Config) (cr : Crypto) (node : Node) (nowNano t : Nat)
    (ht : 0 < t)
    (hgap : cfg.SnapshotReferenceThreshold * cfg.SnapshotRoundGap ≤ 3 * timeMinute)
    (hacc : (timeHour : Int) ≤ cfg.KernelNodeAcceptPeriodMinimum)
    (hmax : cfg.KernelNodeAcceptPeriodMinimum < 2 ^ 63)
    (hno : ∀ cn ∈ node.ActiveNodes,
      (cn.Timestamp : Int) + cfg.KernelNodeAcceptPeriodMinimum < 2 ^ 64) :
    ConsensusKeys cfg cr node nowNano t
      = (node.ActiveNodes.filter (contributes cfg cr node t)).map
          (fun cn => cn.Signer.PublicSpendKey) ∧
    List.Sublist (ConsensusKeys cfg cr node nowNano t)
      (node.ActiveNodes.map (fun cn => cn.Signer.PublicSpendKey)) ∧
    (∀ cn ∈ node.ActiveNodes, contributes cfg cr node t cn = true →
      cn.State = .Accepted ∧ counted cfg cr node t cn = true) ∧
    ∃ base, consensusBase cfg cr node (effectiveTimestamp nowNano t) = some base ∧
      (ConsensusKeys cfg cr node nowNano t).length ≤ base := by
  have he : effectiveTimestamp nowNano t = t := by
    simp [effectiveTimestamp, Nat.pos_iff_ne_zero.mp ht]
  have hkeys : ConsensusKeys cfg cr node nowNano t
      = (node.ActiveNodes.filter (contributes cfg cr node t)).map
          (fun cn => cn.Signer.PublicSpendKey) := by
    unfold ConsensusKeys
    rw [he, consensusKeysLoop_eq cfg cr node t hacc node.ActiveNodes hno []]
    simp
  have hcounted : ∀ cn ∈ node.ActiveNodes, contributes cfg cr node t cn = true →
      cn.State = .Accepted ∧ counted cfg cr node t cn = true :=
    fun cn hcn h => contributes_counted cfg cr node t hgap hacc cn (hno cn hcn) h
  refine ⟨hkeys, ?_, hcounted, ?_⟩
  · rw [hkeys]
    exact (List.filter_sublist _).map _
  · refine ⟨node.ActiveNodes.countP (counted cfg cr node t), ?_, ?_⟩
    · rw [he]
      unfold consensusBase
      rw [consensusBaseLoop_counted cfg cr node t hgap hacc (by omega)]
      simp
    · rw [hkeys, List.length_map, ← List.countP_eq_length_filter]
      exact List.countP_mono_left (fun cn hcn h => (hcounted cn hcn h).2)

/-- C26, at `sample.keysNode` and `t = 5 * 10^13`: the keys are those of the
genesis node `fill 1` and of the node `fill 2`, two keys, and the consensus
base counts these two nodes and the pledging node. -/
theorem ConsensusKeys_le_base_witness :
    ConsensusKeys sample.config sample.toyCrypto sample.keysNode 0 50000000000000
      = [sample.fill 1, sample.fill 2] ∧
    consensusBase sample.config sample.toyCrypto sample.keysNode
      (effectiveTimestamp 0 50000000000000) = some 3 ∧
    ∃ base, consensusBase sample.config sample.toyCrypto sample.keysNode
        (effectiveTimestamp 0 50000000000000) = some base ∧
      (ConsensusKeys sample.config sample.toyCrypto sample.keysNode 0 50000000000000).length
        ≤ base :=
  ⟨by decide, by decide,
    (ConsensusKeys_le_base sample.config sample.toyCrypto sample.keysNode 0 50000000000000
      (by decide) (by decide) (by decide) (by decide) (by decide)).2.2.2⟩

end kernel

/-! ## Catching up with the peers -/

namespace kernel

open crypto

theorem catchUpLoop_iff (cfg : Config) (asFinal : CacheRound → Option FinalRound) (node : Node)
    (nowNano : Nat) (keys : List Hash) :
    catchUpLoop cfg asFinal node nowNano node.Graph.MyFinalNumber node.Graph.MyCacheRound keys
        = true ↔
      ∀ id ∈ keys, ∀ remote, mapGet node.SyncPoints id = some remote →
        caughtUpWith cfg asFinal node nowNano remote := by
  induction keys with
  | nil => simp [catchUpLoop]
  | cons id rest ih =>
    unfold catchUpLoop
    simp only [List.mem_cons, forall_eq_or_imp]
    cases hg : mapGet node.SyncPoints id with
    | none =>
      simp only [ih]
      exact ⟨fun h => ⟨(fun remote hr => nomatch hr), h⟩, fun h => h.2⟩
    | some remote =>
      simp only [Option.some.injEq, forall_eq']
      by_cases h1 : remote.Number ≤ node.Graph.MyFinalNumber
      · rw [if_pos h1, ih]
        exact ⟨fun h => ⟨Or.inl h1, h⟩, fun h => h.2⟩
      · rw [if_neg h1]
        by_cases h2 : remote.Number > u64 (node.Graph.MyFinalNumber + 1)
        · rw [if_pos h2]
          refine ⟨(fun h => nomatch h), fun h => ?_⟩
          rcases h.1 with h | ⟨h, _⟩
          · exact absurd h h1
          · omega
        · rw [if_neg h2]
          cases hc : node.Graph.MyCacheRound with
          | none =>
            refine ⟨(fun h => nomatch h), fun h => ?_⟩
            rcases h.1 with h | ⟨_, cf, hcf, _⟩
            · exact absurd h h1
            · simp [cacheFinal, hc] at hcf
          | some c =>
            simp only
            cases ha : asFinal c with
            | none =>
              refine ⟨(fun h => nomatch h), fun h => ?_⟩
              rcases h.1 with h | ⟨_, cf, hcf, _⟩
              · exact absurd h h1
              · simp [cacheFinal, hc, ha] at hcf
            | some cf =>
              have hcf : cacheFinal asFinal node = some cf := by simp [cacheFinal, hc, ha]
              simp only
              by_cases h3 : cf.Hash ≠ remote.Hash
              · rw [if_pos h3]
                refine ⟨(fun h => nomatch h), fun h => ?_⟩
                rcases h.1 with h | ⟨_, cf', hcf', hh, _⟩
                · exact absurd h h1
                · rw [hcf] at hcf'
                  cases hcf'
                  exact absurd hh h3
              · rw [if_neg h3]
                by_cases h4 : u64 (cf.Start + u64 (cfg.SnapshotRoundGap * 100)) > u64 nowNano
                · rw [if_pos h4]
                  refine ⟨(fun h => nomatch h), fun h => ?_⟩
                  rcases h.1 with h | ⟨_, cf', hcf', _, hh⟩
                  · exact absurd h h1
                  · rw [hcf] at hcf'
                    cases hcf'
                    omega
                · rw [if_neg h4, ← hc, ih]
                  refine ⟨fun h => ⟨Or.inr ⟨by omega, cf, hcf, not_not.mp h3, by omega⟩, h⟩,
                    fun h => h.2⟩

/-- C21 as worded fails in both directions. The node `sample.behindNode` has
no cache round and a peer whose recorded round 0 is five rounds behind the
local final number 5, and `CheckCatchUpWithPeers` returns true. The node
`sample.fewPointsNode` meets the three conditions of the wording (both
recorded rounds are one ahead with the hash of the cache round, which started
long ago) and `CheckCatchUpWithPeers` returns false, because it holds two sync
points and the threshold is 3. -/
theorem CheckCatchUpWithPeers_not_as_worded :
    (CheckCatchUpWithPeers sample.config sample.toyCrypto sample.asFinal sample.behindNode
        400000000000 = some true ∧
      caughtUpAsWorded sample.config sample.asFinal sample.behindNode 400000000000 = false) ∧
    (CheckCatchUpWithPeers sample.config sample.toyCrypto sample.asFinal sample.fewPointsNode
        400000000000 = some false ∧
      caughtUpAsWorded sample.config sample.asFinal sample.fewPointsNode 400000000000 = true ∧
      ConsensusThreshold sample.config sample.toyCrypto sample.fewPointsNode 400000000000 0
        = some 3 ∧
      (mapKeys sample.fewPointsNode.SyncPoints).length = 2) := by
  decide

/-- C21, amended: `CheckCatchUpWithPeers` panics exactly when
`ConsensusThreshold(0)` does, and it returns true if and only if
`ConsensusThreshold(0)` returns a threshold that is at most the number of
recorded sync points, and every sync point recorded for a consensus node is
either not ahead of the local final number, or exactly one round ahead while
the local cache round has a final form with the same hash and with
`Start + 100 * SnapshotRoundGap ≤ now` (every sum a `uint64` sum). -/
theorem CheckCatchUpWithPeers_iff (cfg : Config) (cr : Crypto)
    (asFinal : CacheRound → Option FinalRound) (node : Node) (nowNano : Nat) :
    (CheckCatchUpWithPeers cfg cr asFinal node nowNano = none ↔
      ConsensusThreshold cfg cr node nowNano 0 = none) ∧
    (CheckCatchUpWithPeers cfg cr asFinal node nowNano = some true ↔
      ∃ threshold, ConsensusThreshold cfg cr node nowNano 0 = some threshold ∧
        threshold ≤ (mapKeys node.SyncPoints).length ∧
        ∀ id ∈ mapKeys node.ConsensusNodes, ∀ remote,
          mapGet node.SyncPoints id = some remote →
            caughtUpWith cfg asFinal node nowNano remote) := by
  unfold CheckCatchUpWithPeers
  cases hth : ConsensusThreshold cfg cr node nowNano 0 with
  | none => simp
  | some threshold =>
    simp only [Option.some.injEq, exists_eq_left']
    by_cases hlen : (mapKeys node.SyncPoints).length < threshold
    · rw [if_pos hlen]
      refine ⟨by simp, ?_⟩
      constructor
      · intro h
        simp at h
      · intro h
        omega
    · rw [if_neg hlen]
      refine ⟨by simp, ?_⟩
      simp only [Option.some.injEq]
      rw [catchUpLoop_iff]
      exact ⟨fun h => ⟨by omega, h⟩, fun h => h.2⟩

/-- C21, amended, at `sample.caughtUpNode`: three sync points for the
threshold 3, two peers one round ahead with the hash of the old cache round
and one peer at the local final number; `CheckCatchUpWithPeers` returns
true. -/
theorem CheckCatchUpWithPeers_iff_witness :
    CheckCatchUpWithPeers sample.config sample.toyCrypto sample.asFinal sample.caughtUpNode
        400000000000 = some true ∧
    ∃ threshold, ConsensusThreshold sample.config sample.toyCrypto sample.caughtUpNode
        400000000000 0 = some threshold ∧
      threshold ≤ (mapKeys sample.caughtUpNode.SyncPoints).length ∧
      ∀ id ∈ mapKeys sample.caughtUpNode.ConsensusNodes, ∀ remote,
        mapGet sample.caughtUpNode.SyncPoints id = some remote →
          caughtUpWith sample.config sample.asFinal sample.caughtUpNode 400000000000 remote :=
  ⟨by decide,
    (CheckCatchUpWithPeers_iff sample.config sample.toyCrypto sample.asFinal
      sample.caughtUpNode 400000000000).2.mp (by decide)⟩

end kernel

/-! ## Kernel snapshots and cached transactions -/

namespace kernel

open crypto

theorem validateKernelSnapshot_other {S Tx : Type} (deps : Deps S Tx) (node : Node) (store : S)
    (s : common.Snapshot) (tx : Tx)
    (hm : deps.TransactionType tx ≠ deps.TransactionTypeMint)
    (hp : deps.TransactionType tx ≠ deps.TransactionTypeNodePledge)
    (hc : deps.TransactionType tx ≠ deps.TransactionTypeNodeCancel)
    (ha : deps.TransactionType tx ≠ deps.TransactionTypeNodeAccept) :
    validateKernelSnapshot deps node store s tx
      = if s.NodeId ≠ node.IdForNetwork ∧ s.RoundNumber = 0 then
          some (.invalidInitialTransactionType (deps.TransactionType tx))
        else none := by
  unfold validateKernelSnapshot
  rw [if_neg hm, if_neg hp, if_neg hc, if_neg ha]
  simp only [ne_eq, ha, not_false_eq_true, and_true]

/-- C22: if the snapshot is on another node's chain (`s.NodeId` is not the
local id), in round 0, and the transaction is not of type NodeAccept, then
`validateKernelSnapshot` returns an error; so whenever it returns `nil` the
snapshot is on the local chain, or in a round above 0, or of a NodeAccept
transaction. For a transaction whose type is none of Mint, NodePledge,
NodeCancel, NodeAccept it returns the error `invalid initial transaction
type` exactly when the snapshot is on another node's chain and in round 0,
and `nil` when the snapshot is on the local chain or in a round above 0. -/
theorem validateKernelSnapshot_initial_round {S Tx : Type} (deps : Deps S Tx) (node : Node)
    (store : S) (s : common.Snapshot) (tx : Tx) :
    (s.NodeId ≠ node.IdForNetwork → s.RoundNumber = 0 →
      deps.TransactionType tx ≠ deps.TransactionTypeNodeAccept →
        ∃ e, validateKernelSnapshot deps node store s tx = some e) ∧
    (validateKernelSnapshot deps node store s tx = none →
      s.NodeId = node.IdForNetwork ∨ 0 < s.RoundNumber ∨
        deps.TransactionType tx = deps.TransactionTypeNodeAccept) ∧
    (deps.TransactionType tx ≠ deps.TransactionTypeMint →
      deps.TransactionType tx ≠ deps.TransactionTypeNodePledge →
      deps.TransactionType tx ≠ deps.TransactionTypeNodeCancel →
      deps.TransactionType tx ≠ deps.TransactionTypeNodeAccept →
        ((s.NodeId ≠ node.IdForNetwork ∧ s.RoundNumber = 0) →
          validateKernelSnapshot deps node store s tx
            = some (.invalidInitialTransactionType (deps.TransactionType tx))) ∧
        ((s.NodeId = node.IdForNetwork ∨ 0 < s.RoundNumber) →
          validateKernelSnapshot deps node store s tx = none) ∧
        ((∃ e, validateKernelSnapshot deps node store s tx = some e) ↔
          (s.NodeId ≠ node.IdForNetwork ∧ s.RoundNumber = 0))) := by
  have hrule : s.NodeId ≠ node.IdForNetwork → s.RoundNumber = 0 →
      deps.TransactionType tx ≠ deps.TransactionTypeNodeAccept →
        ∃ e, validateKernelSnapshot deps node store s tx = some e := by
    intro h1 h2 h3
    unfold validateKernelSnapshot
    simp only
    split
    · exact ⟨_, rfl⟩
    · rw [if_pos ⟨h1, h2, h3⟩]
      exact ⟨_, rfl⟩
  refine ⟨hrule, ?_, ?_⟩
  · intro hnone
    by_cases h1 : s.NodeId = node.IdForNetwork
    · exact Or.inl h1
    by_cases h2 : s.RoundNumber = 0
    · by_cases h3 : deps.TransactionType tx = deps.TransactionTypeNodeAccept
      · exact Or.inr (Or.inr h3)
      · obtain ⟨e, he⟩ := hrule h1 h2 h3
        rw [hnone] at he
        cases he
    · exact Or.inr (Or.inl (Nat.pos_of_ne_zero h2))
  · intro hm hp hc ha
    rw [validateKernelSnapshot_other deps node store s tx hm hp hc ha]
    refine ⟨fun h => if_pos h, ?_, ?_⟩
    · intro h
      apply if_neg
      rintro ⟨h1, h2⟩
      rcases h with h | h
      · exact h1 h
      · omega
    · by_cases h : s.NodeId ≠ node.IdForNetwork ∧ s.RoundNumber = 0
      · rw [if_pos h]
        exact ⟨fun _ => h, fun _ => ⟨_, rfl⟩⟩
      · rw [if_neg h]
        exact ⟨(fun ⟨e, he⟩ => nomatch he), fun h' => absurd h' h⟩

/-- C22, at a script transaction (type 0) in round 0 of the chain of node
`fill 2`, validated by the node `fill 1`: the error `invalid initial
transaction type 0`. -/
theorem validateKernelSnapshot_initial_round_witness :
    validateKernelSnapshot sample.toyDeps sample.broadcastNode sample.toyStore
        (sample.snapshot 2 6 0 0).Snapshot (sample.fill 6, 0)
      = some (.invalidInitialTransactionType 0) :=
  (validateKernelSnapshot_initial_round sample.toyDeps sample.broadcastNode sample.toyStore
    (sample.snapshot 2 6 0 0).Snapshot (sample.fill 6, 0)).2.2 (by decide) (by decide)
    (by decide) (by decide) |>.1 ⟨by decide, by decide⟩

theorem checkCacheSnapshotTransaction_persistent {S Tx : Type} (deps : Deps S Tx) (node : Node)
    (store : S) (s : common.Snapshot) (tx : Tx) (fin : String) (err0 : Option String)
    (hread : deps.ReadTransaction store s.Transaction = (some tx, fin, err0)) :
    checkCacheSnapshotTransaction deps node store s
      = { tx := some tx, finalized := decide (fin.length > 0),
          err := validateKernelSnapshot deps node store s tx, store := store, calls := [] } := by
  unfold checkCacheSnapshotTransaction
  rw [hread]
  simp

theorem checkCacheSnapshotTransaction_cached {S Tx : Type} (deps : Deps S Tx) (node : Node)
    (store : S) (s : common.Snapshot) (tx : Tx) (fin : String)
    (hread : deps.ReadTransaction store s.Transaction = (none, fin, none))
    (hfin : fin.length = 0)
    (hcache : deps.CacheGetTransaction store s.Transaction = (some tx, none)) :
    checkCacheSnapshotTransaction deps node store s
      = match deps.Validate store tx with
        | some e =>
          { tx := none, finalized := false, err := some (.external e), store := store,
            calls := [] }
        | none =>
          match validateKernelSnapshot deps node store s tx with
          | some e => { tx := none, finalized := false, err := some e, store := store, calls := [] }
          | none =>
            match (deps.LockInputs store tx false).2 with
            | some e =>
              { tx := none, finalized := false, err := some (.external e),
                store := (deps.LockInputs store tx false).1, calls := [.LockInputs tx false] }
            | none =>
              { tx := some tx, finalized := false,
                err := (deps.WriteTransaction (deps.LockInputs store tx false).1 tx).2.map
                  .external,
                store := (deps.WriteTransaction (deps.LockInputs store tx false).1 tx).1,
                calls := [.LockInputs tx false, .WriteTransaction tx] } := by
  unfold checkCacheSnapshotTransaction
  rw [hread]
  simp only [Option.map_none', Option.isSome_none, hfin, gt_iff_lt, lt_self_iff_false,
    decide_False, Bool.or_self, Bool.false_eq_true, if_false, hcache]
  cases hv : deps.Validate store tx with
  | some e => rfl
  | none =>
    simp only
    cases hk : validateKernelSnapshot deps node store s tx with
    | some e => rfl
    | none =>
      simp only
      rcases hl : deps.LockInputs store tx false with ⟨store1, _ | e⟩
      · rfl
      · rfl

/-- C23: when `ReadTransaction` finds the transaction in the persistent
store, `checkCacheSnapshotTransaction` makes no call that writes to the store
(neither `LockInputs` nor `WriteTransaction`), leaves the store as it is, and
returns the transaction, whether the finalization marker is non-empty, and the
result of `validateKernelSnapshot`. When the transaction is absent from the
persistent store (no transaction, no error, empty marker) and present in the
cache, `WriteTransaction` is called if and only if `tx.Validate`,
`validateKernelSnapshot` and `LockInputs(fork = false)` have returned no
error, in which case the calls are `LockInputs(tx, false)` and then
`WriteTransaction(tx)` and the result is the transaction, `false` and the
error of the write; if one of the three fails the function returns `nil`,
`false` and that error and `WriteTransaction` is not called; and
`LockInputs` is only ever called with `fork = false`. -/
theorem checkCacheSnapshotTransaction_writes_after_validation {S Tx : Type}
    (deps : Deps S Tx) (node : Node) (store : S) (s : common.Snapshot) :
    (∀ tx fin err0, deps.ReadTransaction store s.Transaction = (some tx, fin, err0) →
      checkCacheSnapshotTransaction deps node store s
        = { tx := some tx, finalized := decide (fin.length > 0),
            err := validateKernelSnapshot deps node store s tx, store := store,
            calls := [] }) ∧
    (∀ tx fin, deps.ReadTransaction store s.Transaction = (none, fin, none) →
      fin.length = 0 →
      deps.CacheGetTransaction store s.Transaction = (some tx, none) →
      ((deps.Validate store tx = none ∧ validateKernelSnapshot deps node store s tx = none ∧
          (deps.LockInputs store tx false).2 = none) →
        checkCacheSnapshotTransaction deps node store s
          = { tx := some tx, finalized := false,
              err := (deps.WriteTransaction (deps.LockInputs store tx false).1 tx).2.map
                .external,
              store := (deps.WriteTransaction (deps.LockInputs store tx false).1 tx).1,
              calls := [.LockInputs tx false, .WriteTransaction tx] }) ∧
      (∀ e, deps.Validate store tx = some e →
        checkCacheSnapshotTransaction deps node store s
          = { tx := none, finalized := false, err := some (.external e), store := store,
              calls := [] }) ∧
      (deps.Validate store tx = none →
        ∀ e, validateKernelSnapshot deps node store s tx = some e →
          checkCacheSnapshotTransaction deps node store s
            = { tx := none, finalized := false, err := some e, store := store, calls := [] }) ∧
      (deps.Validate store tx = none → validateKernelSnapshot deps node store s tx = none →
        ∀ e, (deps.LockInputs store tx false).2 = some e →
          checkCacheSnapshotTransaction deps node store s
            = { tx := none, finalized := false, err := some (.external e),
                store := (deps.LockInputs store tx false).1,
                calls := [.LockInputs tx false] }) ∧
      (∀ tx', StoreCall.WriteTransaction tx' ∈
          (checkCacheSnapshotTransaction deps node store s).calls →
        tx' = tx ∧ deps.Validate store tx = none ∧
          validateKernelSnapshot deps node store s tx = none ∧
          (deps.LockInputs store tx false).2 = none) ∧
      (∀ tx' fork, StoreCall.LockInputs tx' fork ∈
          (checkCacheSnapshotTransaction deps node store s).calls →
        tx' = tx ∧ fork = false)) := by
  refine ⟨fun tx fin err0 hread =>
    checkCacheSnapshotTransaction_persistent deps node store s tx fin err0 hread, ?_⟩
  intro tx fin hread hfin hcache
  rw [checkCacheSnapshotTransaction_cached deps node store s tx fin hread hfin hcache]
  cases hv : deps.Validate store tx with
  | some e => simp
  | none =>
    cases hk : validateKernelSnapshot deps node store s tx with
    | some e => simp
    | none =>
      cases hl : (deps.LockInputs store tx false).2 with
      | some e => simp
      | none => simp

/-- C23, at the toy store, whose cache holds the script transaction `fill 6`
and whose persistent part does not, for a snapshot of that transaction in
round 3 of the local chain: the inputs are locked with `fork = false`, then
the transaction is written, and the function returns it with no error. -/
theorem checkCacheSnapshotTransaction_writes_after_validation_witness :
    checkCacheSnapshotTransaction sample.toyDeps sample.broadcastNode sample.toyStore
        (sample.snapshot 1 6 3 0).Snapshot
      = { tx := some (sample.fill 6, 0), finalized := false, err := none,
          store := { persist := [(sample.fill 6, 0), (sample.fill 5, 0)],
                     cache := [(sample.fill 6, 0), (sample.fill 7, 1)],
                     locked := [sample.fill 6] },
          calls := [.LockInputs (sample.fill 6, 0) false,
            .WriteTransaction (sample.fill 6, 0)] } :=
  ((checkCacheSnapshotTransaction_writes_after_validation sample.toyDeps sample.broadcastNode
    sample.toyStore (sample.snapshot 1 6 3 0).Snapshot).2 (sample.fill 6, 0) "" (by decide)
      (by decide) (by decide)).1 ⟨by decide, by decide, by decide⟩

end kernel
